import Mathlib

/-!
Verification development for the AI Wargame implementation
(`ai_wargame_skeleton.py`).

The Python program is shallowly embedded: every mutating method becomes a
pure function returning the updated `Game` value, Python `int` becomes `Int`,
Python lists become `List`, and `None` becomes `Option.none`.  A Python method
that can raise an uncaught exception (an `AttributeError` from accessing an
attribute of `None`) is modelled with an `Option` result, `none` standing for
the exception.  Wall-clock bookkeeping (the `remaining_time` argument of the
search, the `Stats` record and the statistics counters) has no influence on
the values the claims are about; the search is modelled with an unexhausted
time budget, exactly the situation the specification's equivalence statement
is about.
-/

namespace AIWargame

/-- Every unit type (`class UnitType(Enum)`). -/
inductive UnitType where
  | AI
  | Tech
  | Virus
  | Program
  | Firewall
deriving DecidableEq

/-- The enum ordinal of a unit type (`UnitType.AI = 0`, ..., `Firewall = 4`),
used to index the damage and repair tables. -/
def UnitType.value : UnitType → Nat
  | .AI => 0
  | .Tech => 1
  | .Virus => 2
  | .Program => 3
  | .Firewall => 4

/-- The Python `UnitType.name` attribute. -/
def UnitType.name : UnitType → String
  | .AI => "AI"
  | .Tech => "Tech"
  | .Virus => "Virus"
  | .Program => "Program"
  | .Firewall => "Firewall"

/-- The 2 players (`class Player(Enum)`). -/
inductive Player where
  | Attacker
  | Defender
deriving DecidableEq

/-- The Python `Player.name` attribute. -/
def Player.name : Player → String
  | .Attacker => "Attacker"
  | .Defender => "Defender"

/-- `Player.next`: the next (other) player. -/
def Player.next : Player → Player
  | .Attacker => .Defender
  | .Defender => .Attacker

/-- `class Unit`: owner, type and health of one unit. -/
structure Unit where
  player : Player := .Attacker
  type : UnitType := .Program
  health : Int := 9
deriving DecidableEq

/-- Class variable `Unit.damage_table` (rows/columns in `UnitType` order). -/
def Unit.damage_table : List (List Int) :=
  [[3, 3, 3, 3, 1],
   [1, 1, 6, 1, 1],
   [9, 6, 1, 6, 1],
   [3, 3, 3, 3, 1],
   [1, 1, 1, 1, 1]]

/-- Class variable `Unit.repair_table` (rows/columns in `UnitType` order). -/
def Unit.repair_table : List (List Int) :=
  [[0, 1, 1, 0, 0],
   [3, 0, 0, 3, 3],
   [0, 0, 0, 0, 0],
   [0, 0, 0, 0, 0],
   [0, 0, 0, 0, 0]]

/-- `Unit.is_alive`: are we alive? -/
def Unit.is_alive (self : Unit) : Bool := self.health > 0

/-- `Unit.mod_health`: modify this unit's health by a delta amount, clamping
the result into `[0, 9]`.  (The Python method mutates the unit in place; here
the updated unit is returned.) -/
def Unit.mod_health (self : Unit) (health_delta : Int) : Unit :=
  let h := self.health + health_delta
  { self with health := if h < 0 then 0 else if h > 9 then 9 else h }

/-- `Unit.to_string`: text representation (`<player initial><type initial><health>`). -/
def Unit.to_string (self : Unit) : String :=
  (match self.player with | .Attacker => "a" | .Defender => "d") ++
  (match self.type with
   | .AI => "A" | .Tech => "T" | .Virus => "V" | .Program => "P" | .Firewall => "F") ++
  toString self.health

/-- `Unit.damage_amount`: how much this unit damages a target (table entry,
reduced so the target's health cannot go below 0). -/
def Unit.damage_amount (self target : Unit) : Int :=
  let amount := (Unit.damage_table.getD self.type.value []).getD target.type.value 0
  if target.health - amount < 0 then target.health else amount

/-- `Unit.repair_amount`: the repair-table entry for this unit and a target. -/
def Unit.repair_amount (self target : Unit) : Int :=
  (Unit.repair_table.getD self.type.value []).getD target.type.value 0

/-- `Unit.belongs_to`: does this unit belong to the given player? -/
def Unit.belongs_to (self : Unit) (player : Player) : Bool := self.player = player

/-- `class Coord`: a board cell coordinate (row, col); Python ints. -/
structure Coord where
  row : Int := 0
  col : Int := 0
deriving DecidableEq

/-- Python `range(a, b)` over integers, as a list. -/
def intRange (a b : Int) : List Int :=
  (List.range (b - a).toNat).map (fun (i : Nat) => a + (i : Int))

/-- `Coord.col_string`.  Python indexes `"0123456789abcdef"` with the raw
column; a negative column uses Python's from-the-end indexing (the
`IndexError` for `col < -16` is rendered as `"?"` here; every call site
passes board coordinates, for which neither case occurs). -/
def Coord.col_string (self : Coord) : String :=
  if self.col < 16 then
    let i : Int := if self.col < 0 then 16 + self.col else self.col
    if 0 ≤ i then String.mk ["0123456789abcdef".data.getD i.toNat '?'] else "?"
  else "?"

/-- `Coord.row_string` (same indexing conventions as `col_string`). -/
def Coord.row_string (self : Coord) : String :=
  if self.row < 26 then
    let i : Int := if self.row < 0 then 26 + self.row else self.row
    if 0 ≤ i then String.mk ["ABCDEFGHIJKLMNOPQRSTUVWXYZ".data.getD i.toNat '?'] else "?"
  else "?"

/-- `Coord.to_string`. -/
def Coord.to_string (self : Coord) : String := self.row_string ++ self.col_string

/-- `Coord.iter_range`: the coordinates of the square of radius `dist`
centered on this coordinate, in row-major order. -/
def Coord.iter_range (self : Coord) (dist : Int) : List Coord :=
  (intRange (self.row - dist) (self.row + 1 + dist)).flatMap fun row =>
    (intRange (self.col - dist) (self.col + 1 + dist)).map fun col =>
      Coord.mk row col

/-- `Coord.iter_adjacent`: up, left, down, right neighbours, in this order,
each kept only under the bound hardcoded in the source (`0` on the low side,
`5` on the high side). -/
def Coord.iter_adjacent (self : Coord) : List Coord :=
  (if self.row - 1 ≥ 0 then [Coord.mk (self.row - 1) self.col] else []) ++
  (if self.col - 1 ≥ 0 then [Coord.mk self.row (self.col - 1)] else []) ++
  (if self.row + 1 < 5 then [Coord.mk (self.row + 1) self.col] else []) ++
  (if self.col + 1 < 5 then [Coord.mk self.row (self.col + 1)] else [])

/-- `class CoordPair`: a move (or rectangular area) given by two coordinates. -/
structure CoordPair where
  src : Coord := {}
  dst : Coord := {}
deriving DecidableEq

/-- `CoordPair.to_string`. -/
def CoordPair.to_string (self : CoordPair) : String :=
  self.src.to_string ++ " " ++ self.dst.to_string

/-- `CoordPair.iter_rectangle`: the cells of the rectangular area, row-major. -/
def CoordPair.iter_rectangle (self : CoordPair) : List Coord :=
  (intRange self.src.row (self.dst.row + 1)).flatMap fun row =>
    (intRange self.src.col (self.dst.col + 1)).map fun col =>
      Coord.mk row col

/-- `CoordPair.from_quad`. -/
def CoordPair.from_quad (row0 col0 row1 col1 : Int) : CoordPair :=
  ⟨⟨row0, col0⟩, ⟨row1, col1⟩⟩

/-- `CoordPair.from_dim`: the full `dim`-sized board rectangle. -/
def CoordPair.from_dim (dim : Int) : CoordPair :=
  ⟨⟨0, 0⟩, ⟨dim - 1, dim - 1⟩⟩

/-- `class Options`: the game options.  The fields with no influence on the
claims (`game_type`, `min_depth`, the float-valued `max_time`,
`randomize_moves`, `broker`) are omitted; the search is modelled with an
unexhausted time budget. -/
structure Options where
  dim : Int := 5
  max_depth : Option Int := some 3
  alpha_beta : Bool := false
  max_turns : Option Int := some 100
  heuristic : Option Int := some 0
deriving DecidableEq

/-- `class Game`: the game state.  The `stats` record and the
statistics-tracking counters (`total_nodes`, `eval_by_depth`,
`non_leaf_nodes`) are observability only and are omitted. -/
structure Game where
  board : List (List (Option Unit)) := []
  next_player : Player := .Attacker
  turns_played : Int := 1
  options : Options := {}
  _attacker_has_ai : Bool := true
  _defender_has_ai : Bool := true
  _attacker_ai_self_destructed : Bool := false
  _defender_ai_self_destructed : Bool := false
deriving DecidableEq

/-- `Game.is_valid_coord`: is a coordinate within the board dimensions? -/
def Game.is_valid_coord (g : Game) (coord : Coord) : Bool :=
  if coord.row < 0 ∨ coord.row ≥ g.options.dim ∨ coord.col < 0 ∨ coord.col ≥ g.options.dim
  then false else true

/-- `Game.is_empty`: is the board cell at a (valid) coordinate empty? -/
def Game.is_empty (g : Game) (coord : Coord) : Bool :=
  ((g.board.getD coord.row.toNat []).getD coord.col.toNat none).isNone

/-- `Game.get`: contents of the board cell at a coordinate (guarded by
`is_valid_coord`; an out-of-range list access cannot occur on the
`dim × dim` boards the program builds and is rendered as `none`). -/
def Game.get (g : Game) (coord : Coord) : Option Unit :=
  if g.is_valid_coord coord then
    (g.board.getD coord.row.toNat []).getD coord.col.toNat none
  else none

/-- `Game.set`: write a board cell at a coordinate (no-op on an invalid
coordinate, exactly as in the source). -/
def Game.set (g : Game) (coord : Coord) (unit : Option Unit) : Game :=
  if g.is_valid_coord coord then
    let row := (g.board.getD coord.row.toNat []).set coord.col.toNat unit
    { g with board := g.board.set coord.row.toNat row }
  else g

/-- `Game.remove_dead`: remove the unit at a coordinate if it is dead, and
clear the owner's `has_ai` flag when the removed unit is an AI. -/
def Game.remove_dead (g : Game) (coord : Coord) : Game :=
  match g.get coord with
  | some unit =>
      if ¬ unit.is_alive then
        let g' := g.set coord none
        if unit.type = .AI then
          if unit.player = .Attacker then { g' with _attacker_has_ai := false }
          else { g' with _defender_has_ai := false }
        else g'
      else g
  | none => g

/-- `Game.is_valid_move`: the common precondition on a `CoordPair` — both
coordinates on the board, and the source cell holding a unit of the player
to act. -/
def Game.is_valid_move (g : Game) (coords : CoordPair) : Bool × String :=
  if ¬ g.is_valid_coord coords.src ∨ ¬ g.is_valid_coord coords.dst then
    (false, "Coordinate not within board! Try again.\n")
  else
    match g.get coords.src with
    | none => (false, "Choose a " ++ g.next_player.name ++ " unit! Try again. \n")
    | some unit =>
        if unit.player ≠ g.next_player then
          (false, "Choose a " ++ g.next_player.name ++ " unit! Try again. \n")
        else (true, "")

/-- `Game.is_movement_valid`: validity of a movement action.  The source
accesses `src_unit.type` without a `None` check, so an empty source cell
raises an `AttributeError`, modelled as `none` (unreachable from
`perform_move`, which validates the source first). -/
def Game.is_movement_valid (g : Game) (coords : CoordPair) : Option (Bool × String) :=
  match g.get coords.src with
  | none => none
  | some src_unit =>
      some <|
        if src_unit.type = .AI ∨ src_unit.type = .Firewall ∨ src_unit.type = .Program then
          if src_unit.player = .Attacker ∧
              ¬ (coords.dst = Coord.mk (coords.src.row - 1) coords.src.col ∨
                 coords.dst = Coord.mk coords.src.row (coords.src.col - 1)) then
            (false, "Invalid move attempt: " ++ src_unit.to_string ++
              " can only move up or left by one!\n")
          else if src_unit.player ≠ .Attacker ∧
              ¬ (coords.dst = Coord.mk (coords.src.row + 1) coords.src.col ∨
                 coords.dst = Coord.mk coords.src.row (coords.src.col + 1)) then
            (false, "Invalid move attempt: " ++ src_unit.to_string ++
              " can only move down or right by one!\n")
          else
            -- the engagement check: the first adjacent enemy unit blocks the move
            match coords.src.iter_adjacent.findSome? (fun adj_coord =>
                match g.get adj_coord with
                | some adj_unit =>
                    if adj_unit.player ≠ g.next_player then some adj_unit else none
                | none => none) with
            | some adj_unit =>
                (false, "Invalid move attempt: " ++ src_unit.to_string ++
                  " is engaged in battle with " ++ adj_unit.to_string ++ "!\n")
            | none =>
                match g.get coords.dst with
                | some _ => (false, "Invalid move attempt: Destination space occupied!\n")
                | none => (true, src_unit.to_string ++ " at " ++ coords.src.to_string ++
                    " moved to " ++ coords.dst.to_string)
        else
          if ¬ (coords.dst = Coord.mk (coords.src.row + 1) coords.src.col ∨
                coords.dst = Coord.mk coords.src.row (coords.src.col + 1) ∨
                coords.dst = Coord.mk (coords.src.row - 1) coords.src.col ∨
                coords.dst = Coord.mk coords.src.row (coords.src.col - 1)) then
            (false, "Invalid move attempt: " ++ src_unit.to_string ++
              " can only move left, up, right or down by one!\n")
          else
            match g.get coords.dst with
            | some _ => (false, "Invalid move attempt: Destination space occupied!\n")
            | none => (true, src_unit.to_string ++ " at " ++ coords.src.to_string ++
                " moved to " ++ coords.dst.to_string)

/-- `Game.is_adjacent`: Manhattan distance between the coordinates is
exactly 1. -/
def Game.is_adjacent (_g : Game) (coord1 coord2 : Coord) : Bool :=
  (coord1.row - coord2.row).natAbs + (coord1.col - coord2.col).natAbs = 1

/-- `Game.mod_health` (on the game): modify the health of the unit at a
coordinate (if any) and remove it when dead. -/
def Game.mod_health (g : Game) (coord : Coord) (health_delta : Int) : Game :=
  match g.get coord with
  | none => g
  | some target => ((g.set coord (some (target.mod_health health_delta))).remove_dead coord)

/-- `Game.attack`: the attack action (bidirectional damage; each side's dead
unit is removed immediately after its damage application). -/
def Game.attack (g : Game) (attacker_coord target_coord : Coord) : Bool × String × Game :=
  match g.get attacker_coord, g.get target_coord with
  | some attacker_unit, some target_unit =>
      if ¬ (attacker_unit.player.next = target_unit.player) then
        (false, "Invalid attack attempt: units are not adversarial!\n", g)
      else if ¬ g.is_adjacent attacker_coord target_coord then
        (false, "Invalid attack attempt: units are not adjacent!\n", g)
      else
        let damage := attacker_unit.damage_amount target_unit
        let target_unit' := target_unit.mod_health (-damage)
        let g1 := (g.set target_coord (some target_unit')).remove_dead target_coord
        let damage_back := target_unit'.damage_amount attacker_unit
        let attacker_unit' := attacker_unit.mod_health (-damage_back)
        let g2 := (g1.set attacker_coord (some attacker_unit')).remove_dead attacker_coord
        (true, attacker_unit.player.name ++ "\x27s " ++ attacker_unit.type.name ++
          " attacked " ++ target_unit.player.name ++ "\x27s " ++ target_unit.type.name, g2)
  | _, _ => (false, "Invalid attack attempt!\n", g)

/-- The rejection message of `Game.repair` for a zero repair-table entry. -/
def repairZeroMsg (repairer_unit target_unit : Unit) : String :=
  "Invalid repair action: " ++ repairer_unit.to_string ++ " cannot repair " ++
    target_unit.to_string ++ "!\n"

/-- The rejection message of `Game.repair` for a target already at maximum
health. -/
def repairMaxMsg (target_unit : Unit) : String :=
  "Invalid repair action: " ++ target_unit.to_string ++
    "\x27s health is already at maximum!\n"

/-- `Game.repair`: the repair action. -/
def Game.repair (g : Game) (repairer_coord target_coord : Coord) : Bool × String × Game :=
  if ¬ g.is_adjacent repairer_coord target_coord then
    (false, "Invalid repair action: units are not adjacent!\n", g)
  else
    match g.get repairer_coord, g.get target_coord with
    | some repairer_unit, some target_unit =>
        if ¬ (repairer_unit.player = target_unit.player) then
          (false, "Invalid repair action: units are not friendly!\n", g)
        else
          let repair_amount := repairer_unit.repair_amount target_unit
          if repair_amount = 0 then
            (false, repairZeroMsg repairer_unit target_unit, g)
          else if target_unit.health = 9 then
            (false, repairMaxMsg target_unit, g)
          else
            (true, repairer_unit.player.name ++ "\x27s " ++ repairer_unit.type.name ++
              " repaired " ++ target_unit.player.name ++ "\x27s " ++ target_unit.type.name ++ ".",
             g.set target_coord (some (target_unit.mod_health repair_amount)))
    | _, _ => (false, "Invalid repair action: units are not friendly!\n", g)

/-- `Game.is_ai_self_destruct`: set a player's AI-self-destructed flag. -/
def Game.is_ai_self_destruct (g : Game) (player : Player) : Game :=
  match player with
  | .Attacker => { g with _attacker_ai_self_destructed := true }
  | .Defender => { g with _defender_ai_self_destructed := true }

/-- `Game.self_destruct`: the self-destruct action.  The source accesses
`unit.type` before its `None` check, so an empty cell raises an
`AttributeError`, modelled as `none`.  Every valid cell of the 3×3
neighbourhood (the unit's own cell included) takes 2 damage, then the cell
is cleared unconditionally. -/
def Game.self_destruct (g : Game) (coord : Coord) : Option (Bool × String × Game) :=
  match g.get coord with
  | none => none
  | some unit =>
      let g1 := if unit.type = .AI then g.is_ai_self_destruct unit.player else g
      if ¬ unit.is_alive then some (false, "Invalid self-destruct attempt", g1)
      else
        let g2 := (coord.iter_range 1).foldl
          (fun acc adjacent_coord =>
            if acc.is_valid_coord adjacent_coord then acc.mod_health adjacent_coord (-2)
            else acc) g1
        let g3 := g2.set coord none
        some (true, unit.player.name ++ "\x27s " ++ unit.type.name ++
          " self-destructed at " ++ coord.to_string, g3)

/-- `Game.perform_move`: classify and perform an action given as a
`CoordPair`.  `none` models the uncaught `AttributeError` raised when the
source cell is empty while the pair is classified as a self-destruct or the
destination is occupied (the `src_unit.player` / `unit.type` accesses on
`None`). -/
def Game.perform_move (g : Game) (coords : CoordPair) : Option (Bool × String × Game) :=
  let src_unit := g.get coords.src
  let dst_unit := g.get coords.dst
  if coords.src = coords.dst then g.self_destruct coords.src
  else
    match dst_unit with
    | none =>
        let vm := g.is_valid_move coords
        if vm.1 then
          match g.is_movement_valid coords with
          | none => none
          | some (success, move_result) =>
              if success then
                some (true, move_result, (g.set coords.dst src_unit).set coords.src none)
              else some (false, move_result, g)
        else some (false, vm.2, g)
    | some du =>
        match src_unit with
        | none => none
        | some su =>
            if du.player ≠ su.player then g.attack coords.src coords.dst
            else g.repair coords.src coords.dst

/-- `Game.next_turn`: flip the player to act and count the played turn. -/
def Game.next_turn (g : Game) : Game :=
  { g with
      next_player := if g.next_player = .Attacker then .Defender else .Attacker,
      turns_played := g.turns_played + 1 }

/-- `Game.player_units`: all (coordinate, unit) pairs of a player's units,
in row-major board order. -/
def Game.player_units (g : Game) (player : Player) : List (Coord × Unit) :=
  (CoordPair.from_dim g.options.dim).iter_rectangle.filterMap fun coord =>
    match g.get coord with
    | some unit => if unit.player = player then some (coord, unit) else none
    | none => none

/-- The per-cell counting step of `check_zero_units`. -/
def czStep (acc2 : Int × Int) (cell : Option Unit) : Int × Int :=
  match cell with
  | some unit =>
      if unit.belongs_to .Attacker then (acc2.1 + 1, acc2.2)
      else if unit.belongs_to .Defender then (acc2.1, acc2.2 + 1)
      else acc2
  | none => acc2

/-- `Game.check_zero_units`: do both players have zero units on the board?
(The source iterates the raw board rows, counting each player's units.) -/
def Game.check_zero_units (g : Game) : Bool :=
  let counts := g.board.foldl (fun acc row => row.foldl czStep acc) ((0 : Int), (0 : Int))
  counts.1 = 0 ∧ counts.2 = 0

/-- The per-cell counting step of `count_units`. -/
def cuStep (unit_type : UnitType) (player : Player) (a : Int) (cell : Option Unit) : Int :=
  match cell with
  | some unit => if unit.type = unit_type ∧ unit.player = player then a + 1 else a
  | none => a

/-- The contribution of one cell to `count_units`. -/
def cellVal (unit_type : UnitType) (player : Player) : Option Unit → Int
  | some unit => if unit.type = unit_type ∧ unit.player = player then 1 else 0
  | none => 0

/-- `Game.count_units`: number of units of a given type and player on the
board (the source iterates the raw board rows). -/
def Game.count_units (g : Game) (unit_type : UnitType) (player : Player) : Int :=
  g.board.foldl (fun acc row => row.foldl (cuStep unit_type player) acc) 0

/-- `Game.move_candidates`: all candidate moves for the player to act, in
generation order: unit types in the fixed priority order Firewall, Program,
Tech, Virus, AI; per unit, the adjacent destinations passing
`is_valid_move`, then the unconditional self-destruct pair. -/
def Game.move_candidates (g : Game) : List CoordPair :=
  [UnitType.Firewall, UnitType.Program, UnitType.Tech, UnitType.Virus, UnitType.AI].flatMap
    fun unit_type =>
      (g.player_units g.next_player).flatMap fun su =>
        if su.2.type = unit_type then
          (su.1.iter_adjacent.filterMap fun dst =>
            if (g.is_valid_move ⟨su.1, dst⟩).1 then some (CoordPair.mk su.1 dst) else none)
          ++ [CoordPair.mk su.1 su.1]
        else []

/-- `Game.has_winner`: the game-over predicate; the first matching condition
decides. -/
def Game.has_winner (g : Game) : Option Player :=
  if g.check_zero_units then some .Defender
  else if (match g.options.max_turns with
           | some max_turns => decide (g.turns_played > max_turns)
           | none => false) then some .Defender
  else if ¬ g._attacker_has_ai then some .Defender
  else if ¬ g._defender_has_ai then some .Attacker
  else if g.move_candidates.isEmpty then
    some (if g.next_player = .Attacker then .Defender else .Attacker)
  else if g._attacker_ai_self_destructed then some .Defender
  else if g._defender_ai_self_destructed then some .Attacker
  else none

/-- `Game.is_finished`: is the game over? -/
def Game.is_finished (g : Game) : Bool :=
  g.has_winner.isSome

/-- `Game.heuristic_zero` (h0): weighted unit count, iterating the score
multipliers in the dictionary's insertion order. -/
def Game.heuristic_zero (g : Game) (player : Player) : Int :=
  [(UnitType.Virus, (3 : Int)), (UnitType.Tech, 3), (UnitType.Firewall, 3),
   (UnitType.Program, 3), (UnitType.AI, 9999)].foldl
    (fun score tm => score + tm.2 * g.count_units tm.1 player) 0

/-- `Game.heuristic_one` (h1): health-weighted unit sum. -/
def Game.heuristic_one (g : Game) (player : Player) : Int :=
  (g.player_units player).foldl (fun score cu =>
    score + (match cu.2.type with
      | .AI => 900 | .Virus => 60 | .Tech => 60 | .Firewall => 30 | .Program => 30)
      * cu.2.health) 0

/-- `Game.can_heal`: may `src_unit` meaningfully heal `dst_unit`? (Used only
by the h2 heuristic.) -/
def Game.can_heal (_g : Game) (src_unit dst_unit : Unit) : Bool :=
  dst_unit.player = src_unit.player ∧
    (dst_unit.type = .Virus ∨ dst_unit.type = .Tech) ∧ dst_unit.health < 9

/-- `Game.can_attack`: may `src_unit` attack `dst_unit`? (Used only by the
h2 heuristic.) -/
def Game.can_attack (_g : Game) (src_unit dst_unit : Unit) : Bool :=
  dst_unit.player ≠ src_unit.player

/-- The neighbour scan of `Game.evaluate_ai_unit`: first non-empty neighbour
matching a bonus category decides (`round(HEALING_POINTS * 0.25) = 5`,
`ATTACK_POINTS = 20`); a neighbour matching no category is skipped. -/
def Game.ai_unit_bonus (g : Game) (unit : Unit) : List Coord → Int
  | [] => 0
  | dst_coord :: rest =>
      match g.get dst_coord with
      | none => g.ai_unit_bonus unit rest
      | some dst_unit =>
          if g.can_heal unit dst_unit then 5
          else if g.can_attack unit dst_unit then 20
          else g.ai_unit_bonus unit rest

/-- `Game.evaluate_ai_unit` (h2). -/
def Game.evaluate_ai_unit (g : Game) (unit : Unit) (src_coord : Coord) : Int :=
  1000 * unit.health + g.ai_unit_bonus unit src_coord.iter_adjacent

/-- The neighbour scan of `Game.evaluate_virus_unit`
(`ATTACK_POINTS * AI_MULTIPLIER = 20000`, `ATTACK_POINTS * 2 = 40`). -/
def Game.virus_unit_bonus (g : Game) (unit : Unit) : List Coord → Int
  | [] => 0
  | dst_coord :: rest =>
      match g.get dst_coord with
      | none => g.virus_unit_bonus unit rest
      | some dst_unit =>
          if g.can_attack unit dst_unit then
            if dst_unit.type = .AI then 20 * 1000 else 20 * 2
          else g.virus_unit_bonus unit rest

/-- `Game.evaluate_virus_unit` (h2). -/
def Game.evaluate_virus_unit (g : Game) (unit : Unit) (src_coord : Coord) : Int :=
  5 * unit.health + g.virus_unit_bonus unit src_coord.iter_adjacent

/-- The neighbour scan of `Game.evaluate_tech_unit` (`HEALING_POINTS = 20`,
`ATTACK_POINTS * 2 = 40`; only an attackable Virus gives the attack bonus). -/
def Game.tech_unit_bonus (g : Game) (unit : Unit) : List Coord → Int
  | [] => 0
  | dst_coord :: rest =>
      match g.get dst_coord with
      | none => g.tech_unit_bonus unit rest
      | some dst_unit =>
          if g.can_heal unit dst_unit then 20
          else if g.can_attack unit dst_unit ∧ dst_unit.type = .Virus then 40
          else g.tech_unit_bonus unit rest

/-- `Game.evaluate_tech_unit` (h2). -/
def Game.evaluate_tech_unit (g : Game) (unit : Unit) (src_coord : Coord) : Int :=
  5 * unit.health + g.tech_unit_bonus unit src_coord.iter_adjacent

/-- The neighbour scan of `Game.evaluate_firewall_unit`: each adjacent enemy
AI or Program adds the blocking bonus (`BLOCKING_POINTS = 10`, no early
exit); the first other attackable enemy adds `round(ATTACK_POINTS * 0.25) = 5`
and stops the scan. -/
def Game.firewall_unit_bonus (g : Game) (unit : Unit) : List Coord → Int
  | [] => 0
  | dst_coord :: rest =>
      match g.get dst_coord with
      | none => g.firewall_unit_bonus unit rest
      | some dst_unit =>
          if dst_unit.player ≠ unit.player ∧ (dst_unit.type = .AI ∨ dst_unit.type = .Program)
          then 10 + g.firewall_unit_bonus unit rest
          else if g.can_attack unit dst_unit then 5
          else g.firewall_unit_bonus unit rest

/-- `Game.evaluate_firewall_unit` (h2). -/
def Game.evaluate_firewall_unit (g : Game) (unit : Unit) (src_coord : Coord) : Int :=
  5 * unit.health + g.firewall_unit_bonus unit src_coord.iter_adjacent

/-- The neighbour scan of `Game.evaluate_program_unit` (`ATTACK_POINTS = 20`). -/
def Game.program_unit_bonus (g : Game) (unit : Unit) : List Coord → Int
  | [] => 0
  | dst_coord :: rest =>
      match g.get dst_coord with
      | none => g.program_unit_bonus unit rest
      | some dst_unit =>
          if g.can_attack unit dst_unit then 20
          else g.program_unit_bonus unit rest

/-- `Game.evaluate_program_unit` (h2). -/
def Game.evaluate_program_unit (g : Game) (unit : Unit) (src_coord : Coord) : Int :=
  5 * unit.health + g.program_unit_bonus unit src_coord.iter_adjacent

/-- `Game.heuristic_two` (h2): positional scoring. -/
def Game.heuristic_two (g : Game) (player : Player) : Int :=
  (g.player_units player).foldl (fun score cu =>
    score + (match cu.2.type with
      | .AI => g.evaluate_ai_unit cu.2 cu.1
      | .Virus => g.evaluate_virus_unit cu.2 cu.1
      | .Tech => g.evaluate_tech_unit cu.2 cu.1
      | .Firewall => g.evaluate_firewall_unit cu.2 cu.1
      | .Program => g.evaluate_program_unit cu.2 cu.1)) 0

/-- `Game.evaluate_board`: `score(Attacker) - score(Defender)` for the
configured heuristic (any unrecognised selector scores 0, matching the
dictionary lookup's default). -/
def Game.evaluate_board (g : Game) : Int :=
  let heuristic_func : Player → Int :=
    match g.options.heuristic with
    | some 0 => g.heuristic_zero
    | some 1 => g.heuristic_one
    | some 2 => g.heuristic_two
    | _ => fun _ => 0
  heuristic_func .Attacker - heuristic_func .Defender

/-- The totally ordered score domain of the search: integer heuristic values
extended below by `float("-inf")` (`⊥`) and above by `float("inf")` (`⊤`). -/
abbrev Score := WithBot (WithTop Int)

/-- An integer heuristic value as a `Score`. -/
def Score.ofInt (n : Int) : Score := ((n : WithTop Int) : Score)

/-- `Game.clone`: a copy of the game for minimax recursion.  The Python
method shallow-copies the object and deep-copies the board; in the pure
embedding a game value already is an independent copy. -/
def Game.clone (g : Game) : Game := g

/-- `Game.clone_and_move`: clone the game, perform the move on the clone,
and return the pair on success.  A failed `perform_move` yields `none`
exactly as in the source; the exception case (also `none` here) cannot occur
for the candidates the search generates. -/
def Game.clone_and_move (g : Game) (move : CoordPair) : Option (CoordPair × Game) :=
  match g.clone.perform_move move with
  | some (true, _, simulated_game) => some (move, simulated_game)
  | _ => none

/-- The maximizing-player child loop of `minimax_alpha_beta`: `f` evaluates
one child given the current alpha; the accumulator carries
`(max_eval, best_move)`; when pruning is on, alpha is tightened after each
child and the loop stops once `beta ≤ alpha`. -/
def abLoopMax (f : Score → Game → Score) (beta : Score) (alpha_beta : Bool) :
    List (CoordPair × Game) → Score × Option CoordPair → Score → Score × Option CoordPair
  | [], acc, _ => acc
  | child :: rest, acc, alpha =>
      let simulated_game : Game := { child.2 with next_player := .Defender }
      let eval_value := f alpha simulated_game
      let acc' := if acc.1 < eval_value then (eval_value, some child.1) else acc
      if alpha_beta then
        let alpha' := max alpha eval_value
        if beta ≤ alpha' then acc'
        else abLoopMax f beta alpha_beta rest acc' alpha'
      else abLoopMax f beta alpha_beta rest acc' alpha

/-- The minimizing-player child loop of `minimax_alpha_beta`, symmetric to
`abLoopMax`. -/
def abLoopMin (f : Score → Game → Score) (alpha : Score) (alpha_beta : Bool) :
    List (CoordPair × Game) → Score × Option CoordPair → Score → Score × Option CoordPair
  | [], acc, _ => acc
  | child :: rest, acc, beta =>
      let simulated_game : Game := { child.2 with next_player := .Attacker }
      let eval_value := f beta simulated_game
      let acc' := if eval_value < acc.1 then (eval_value, some child.1) else acc
      if alpha_beta then
        let beta' := min beta eval_value
        if beta' ≤ alpha then acc'
        else abLoopMin f alpha alpha_beta rest acc' beta'
      else abLoopMin f alpha alpha_beta rest acc' beta

/-- `Game.minimax_alpha_beta`: the search (returned value and best move).
`depth` is the Python `depth` argument (a natural number at every call
site).  The wall-clock budget is modelled as unexhausted, so the
`remaining_time <= 0` disjunct of the base case never fires; statistics
updates are omitted. -/
def Game.minimax_alpha_beta :
    Game → Nat → Score → Score → Bool → Bool → Score × Option CoordPair
  | g, 0, _, _, _, _ => (Score.ofInt g.evaluate_board, none)
  | g, depth + 1, alpha, beta, is_maximizing, alpha_beta =>
      if g.is_finished then (Score.ofInt g.evaluate_board, none)
      else
        let children := g.move_candidates.filterMap g.clone_and_move
        if is_maximizing then
          abLoopMax (fun a sg => (sg.minimax_alpha_beta depth a beta false alpha_beta).1)
            beta alpha_beta children (⊥, none) alpha
        else
          abLoopMin (fun b sg => (sg.minimax_alpha_beta depth alpha b true alpha_beta).1)
            alpha alpha_beta children (⊤, none) beta

/-- The plain minimax value of a node: the recursion of
`minimax_alpha_beta` with pruning disabled, value component only.  (A proof
helper used to relate the pruned and unpruned runs.) -/
def Game.minimaxValue : Game → Nat → Bool → Score
  | g, 0, _ => Score.ofInt g.evaluate_board
  | g, depth + 1, is_maximizing =>
      if g.is_finished then Score.ofInt g.evaluate_board
      else
        let children := g.move_candidates.filterMap g.clone_and_move
        if is_maximizing then
          children.foldl (fun acc child =>
            max acc (Game.minimaxValue { child.2 with next_player := .Defender } depth false)) ⊥
        else
          children.foldl (fun acc child =>
            min acc (Game.minimaxValue { child.2 with next_player := .Attacker } depth true)) ⊤

/-- `Game.__post_init__`: a fresh game with the fixed starting layout for
the given options. -/
def newGame (options : Options) : Game :=
  let dim := options.dim
  let g0 : Game := { board := List.replicate dim.toNat (List.replicate dim.toNat none),
                     options := options }
  let md := dim - 1
  (((((((((((g0.set ⟨0, 0⟩ (some { player := .Defender, type := .AI })).set
    ⟨1, 0⟩ (some { player := .Defender, type := .Tech })).set
    ⟨0, 1⟩ (some { player := .Defender, type := .Tech })).set
    ⟨2, 0⟩ (some { player := .Defender, type := .Firewall })).set
    ⟨0, 2⟩ (some { player := .Defender, type := .Firewall })).set
    ⟨1, 1⟩ (some { player := .Defender, type := .Program })).set
    ⟨md, md⟩ (some { player := .Attacker, type := .AI })).set
    ⟨md - 1, md⟩ (some { player := .Attacker, type := .Virus })).set
    ⟨md, md - 1⟩ (some { player := .Attacker, type := .Virus })).set
    ⟨md - 2, md⟩ (some { player := .Attacker, type := .Program })).set
    ⟨md, md - 2⟩ (some { player := .Attacker, type := .Program })).set
    ⟨md - 1, md - 1⟩ (some { player := .Attacker, type := .Firewall })

/-- The game built with the default options (`Game(options=Options())`). -/
def initialGame : Game := newGame {}

/-- Well-formedness of the board storage: the board is a `dim × dim` grid,
exactly the shape `__post_init__` builds and every action preserves. -/
def Game.WF (g : Game) : Prop :=
  g.board.length = g.options.dim.toNat ∧
    ∀ row ∈ g.board, row.length = g.options.dim.toNat

/-- The health invariant of stored units: every unit on the board has health
in `[1, 9]`. -/
def Game.HealthInv (g : Game) : Prop :=
  ∀ c u, g.get c = some u → 1 ≤ u.health ∧ u.health ≤ 9

/-- The `has_ai` flag of an owner. -/
def Game.hasAiFlag (g : Game) : Player → Bool
  | .Attacker => g._attacker_has_ai
  | .Defender => g._defender_has_ai

/-- The `has_ai` bookkeeping invariant for one owner: the flag is false
exactly when the owner has no AI unit on the board. -/
def Game.AiFlagInv (g : Game) (p : Player) : Prop :=
  g.hasAiFlag p = false ↔ g.count_units .AI p = 0

/-- At most one AI unit of each owner exists on the board. -/
def Game.AtMostOneAI (g : Game) : Prop :=
  g.count_units .AI .Attacker ≤ 1 ∧ g.count_units .AI .Defender ≤ 1

/-- The whole AI bookkeeping invariant: both owners' `has_ai` flags track
the presence of their AI on the board, and each owner has at most one AI. -/
def Game.AiBookkeeping (g : Game) : Prop :=
  g.AiFlagInv .Attacker ∧ g.AiFlagInv .Defender ∧ g.AtMostOneAI

/-- Game states reachable from the freshly constructed game by resolver
actions (`perform_move`, with `next_turn` between plies as in the real game
loop). -/
inductive Reachable : Game → Prop where
  | init (options : Options) : Reachable (newGame options)
  | step {g g' : Game} {mv : CoordPair} {ok : Bool} {msg : String} :
      Reachable g → g.perform_move mv = some (ok, msg, g') → Reachable g'
  | turn {g : Game} : Reachable g → Reachable g.next_turn

/-- The effect of the self-destruct blast on one board cell, as the
specification describes it: 2 damage with clamping, a unit reaching 0
health disappears. -/
def blastCell : Option Unit → Option Unit
  | none => none
  | some u =>
      let u' := u.mod_health (-2)
      if u'.is_alive then some u' else none

/-- Modelled from the spec (§4.5): the game-over predicate as the ordered
list of six conditions, first match deciding — zero units for both owners
combined, maximum turn count exceeded, a missing AI (`has_ai` flags), zero
move candidates for the current player, an AI self-destruct.  Written from
the specification's wording, to be compared with `Game.has_winner`. -/
def Game.has_winner_spec (g : Game) : Option Player :=
  if (g.player_units .Attacker).length = 0 ∧ (g.player_units .Defender).length = 0 then
    some .Defender
  else if (match g.options.max_turns with
           | some max_turns => decide (g.turns_played > max_turns)
           | none => false) then some .Defender
  else if ¬ g._attacker_has_ai then some .Defender
  else if ¬ g._defender_has_ai then some .Attacker
  else if g.move_candidates.length = 0 then
    some g.next_player.next
  else if g._attacker_ai_self_destructed then some .Defender
  else if g._defender_ai_self_destructed then some .Attacker
  else none

/-- A concrete position used to exercise the game-over predicate: the
Defender is to act and owns no units, while the Attacker's AI sits at
(4,4). -/
def loneAiGame : Game :=
  ({ board := List.replicate 5 (List.replicate 5 none),
     next_player := .Defender } : Game).set ⟨4, 4⟩
    (some { player := .Attacker, type := .AI })

/-- A concrete combat position: the initial board with a defender Tech of
health 5 placed at (3,3), adjacent to the attacker Virus at (4,3). -/
def meleeGame : Game :=
  initialGame.set ⟨3, 3⟩ (some { player := .Defender, type := .Tech, health := 5 })

/-- A concrete repair position: the initial board with the defender Tech at
(1,0) damaged down to health 5, adjacent to the defender AI at (0,0). -/
def repairGame : Game :=
  initialGame.set ⟨1, 0⟩ (some { player := .Defender, type := .Tech, health := 5 })

/-! ### A heap-level embedding of the board, for the clone frame property

The pure embedding above cannot express object identity, so the deep-copy
and no-aliasing behaviour of `Game.clone` is stated over a second, heap-level
embedding: unit objects live in a `Store` (the heap), board cells hold
addresses into it, and the Python in-place mutation `unit.mod_health(...)`
becomes a store write at the unit's address.  Every resolver definition below
mirrors the same source lines as its pure counterpart, with `self.get`
reading through an address and `unit.mod_health` writing the store. -/

/-- A heap address of a `Unit` object: an index into the `Store`. -/
abbrev Addr := Nat

/-- The heap of allocated `Unit` objects. -/
abbrev Store := List Unit

/-- A game whose board holds addresses of unit objects instead of the unit
values themselves (the heap-level mirror of `Game`). -/
structure HGame where
  board : List (List (Option Addr)) := []
  next_player : Player := .Attacker
  turns_played : Int := 1
  options : Options := {}
  _attacker_has_ai : Bool := true
  _defender_has_ai : Bool := true
  _attacker_ai_self_destructed : Bool := false
  _defender_ai_self_destructed : Bool := false
deriving DecidableEq

/-- `Game.is_valid_coord` on the heap-level game. -/
def HGame.is_valid_coord (g : HGame) (coord : Coord) : Bool :=
  if coord.row < 0 ∨ coord.row ≥ g.options.dim ∨ coord.col < 0 ∨ coord.col ≥ g.options.dim
  then false else true

/-- The address stored in a board cell (the object reference `self.board[r][c]`
holds in Python). -/
def HGame.addr (g : HGame) (coord : Coord) : Option Addr :=
  if g.is_valid_coord coord then
    (g.board.getD coord.row.toNat []).getD coord.col.toNat none
  else none

/-- `Game.get` on the heap-level game: dereference the cell's address. -/
def HGame.get (σ : Store) (g : HGame) (coord : Coord) : Option Unit :=
  match g.addr coord with
  | some a => σ[a]?
  | none => none

/-- `Game.set` on the heap-level game: rebind a board cell to an address
(the cell assignment `self.board[r][c] = unit`). -/
def HGame.set (g : HGame) (coord : Coord) (unit : Option Addr) : HGame :=
  if g.is_valid_coord coord then
    let row := (g.board.getD coord.row.toNat []).set coord.col.toNat unit
    { g with board := g.board.set coord.row.toNat row }
  else g

/-- `Game.remove_dead` on the heap-level game (reads the store, mutates only
the board and the `has_ai` flags). -/
def HGame.remove_dead (σ : Store) (g : HGame) (coord : Coord) : HGame :=
  match HGame.get σ g coord with
  | some unit =>
      if ¬ unit.is_alive then
        let g' := g.set coord none
        if unit.type = .AI then
          if unit.player = .Attacker then { g' with _attacker_has_ai := false }
          else { g' with _defender_has_ai := false }
        else g'
      else g
  | none => g

/-- The in-place `unit.mod_health(delta)` on the object stored at the cell's
address: a store write. -/
def HGame.unit_mod_health (σ : Store) (g : HGame) (coord : Coord) (delta : Int) : Store :=
  match g.addr coord with
  | some a =>
      match σ[a]? with
      | some u => σ.set a (u.mod_health delta)
      | none => σ
  | none => σ

/-- `Game.mod_health` on the heap-level game. -/
def HGame.mod_health (σ : Store) (g : HGame) (coord : Coord) (health_delta : Int) :
    Store × HGame :=
  match HGame.get σ g coord with
  | none => (σ, g)
  | some _ =>
      let σ' := HGame.unit_mod_health σ g coord health_delta
      (σ', HGame.remove_dead σ' g coord)

/-- `Game.is_adjacent` on the heap-level game. -/
def HGame.is_adjacent (_g : HGame) (coord1 coord2 : Coord) : Bool :=
  (coord1.row - coord2.row).natAbs + (coord1.col - coord2.col).natAbs = 1

/-- `Game.is_valid_move` on the heap-level game. -/
def HGame.is_valid_move (σ : Store) (g : HGame) (coords : CoordPair) : Bool × String :=
  if ¬ g.is_valid_coord coords.src ∨ ¬ g.is_valid_coord coords.dst then
    (false, "Coordinate not within board! Try again.\n")
  else
    match HGame.get σ g coords.src with
    | none => (false, "Choose a " ++ g.next_player.name ++ " unit! Try again. \n")
    | some unit =>
        if unit.player ≠ g.next_player then
          (false, "Choose a " ++ g.next_player.name ++ " unit! Try again. \n")
        else (true, "")

/-- `Game.is_movement_valid` on the heap-level game. -/
def HGame.is_movement_valid (σ : Store) (g : HGame) (coords : CoordPair) :
    Option (Bool × String) :=
  match HGame.get σ g coords.src with
  | none => none
  | some src_unit =>
      some <|
        if src_unit.type = .AI ∨ src_unit.type = .Firewall ∨ src_unit.type = .Program then
          if src_unit.player = .Attacker ∧
              ¬ (coords.dst = Coord.mk (coords.src.row - 1) coords.src.col ∨
                 coords.dst = Coord.mk coords.src.row (coords.src.col - 1)) then
            (false, "Invalid move attempt: " ++ src_unit.to_string ++
              " can only move up or left by one!\n")
          else if src_unit.player ≠ .Attacker ∧
              ¬ (coords.dst = Coord.mk (coords.src.row + 1) coords.src.col ∨
                 coords.dst = Coord.mk coords.src.row (coords.src.col + 1)) then
            (false, "Invalid move attempt: " ++ src_unit.to_string ++
              " can only move down or right by one!\n")
          else
            match coords.src.iter_adjacent.findSome? (fun adj_coord =>
                match HGame.get σ g adj_coord with
                | some adj_unit =>
                    if adj_unit.player ≠ g.next_player then some adj_unit else none
                | none => none) with
            | some adj_unit =>
                (false, "Invalid move attempt: " ++ src_unit.to_string ++
                  " is engaged in battle with " ++ adj_unit.to_string ++ "!\n")
            | none =>
                match HGame.get σ g coords.dst with
                | some _ => (false, "Invalid move attempt: Destination space occupied!\n")
                | none => (true, src_unit.to_string ++ " at " ++ coords.src.to_string ++
                    " moved to " ++ coords.dst.to_string)
        else
          if ¬ (coords.dst = Coord.mk (coords.src.row + 1) coords.src.col ∨
                coords.dst = Coord.mk coords.src.row (coords.src.col + 1) ∨
                coords.dst = Coord.mk (coords.src.row - 1) coords.src.col ∨
                coords.dst = Coord.mk coords.src.row (coords.src.col - 1)) then
            (false, "Invalid move attempt: " ++ src_unit.to_string ++
              " can only move left, up, right or down by one!\n")
          else
            match HGame.get σ g coords.dst with
            | some _ => (false, "Invalid move attempt: Destination space occupied!\n")
            | none => (true, src_unit.to_string ++ " at " ++ coords.src.to_string ++
                " moved to " ++ coords.dst.to_string)

/-- Write the unit object at an optional address (the effect on the store of
an in-place `mod_health` on a unit object fetched from a board cell). -/
def storeWriteAt (σ : Store) (oa : Option Addr) (u : Unit) : Store :=
  match oa with
  | some a => σ.set a u
  | none => σ

/-- `Game.attack` on the heap-level game: the two in-place `mod_health`
mutations write the store at the two units' addresses; `remove_dead` then
clears dead cells on the board. -/
def HGame.attack (σ : Store) (g : HGame) (attacker_coord target_coord : Coord) :
    Bool × String × Store × HGame :=
  match HGame.get σ g attacker_coord, HGame.get σ g target_coord with
  | some attacker_unit, some target_unit =>
      if ¬ (attacker_unit.player.next = target_unit.player) then
        (false, "Invalid attack attempt: units are not adversarial!\n", σ, g)
      else if ¬ g.is_adjacent attacker_coord target_coord then
        (false, "Invalid attack attempt: units are not adjacent!\n", σ, g)
      else
        let damage := attacker_unit.damage_amount target_unit
        let target_unit' := target_unit.mod_health (-damage)
        let σ1 := storeWriteAt σ (g.addr target_coord) target_unit'
        let g1 := HGame.remove_dead σ1 g target_coord
        let damage_back := target_unit'.damage_amount attacker_unit
        let attacker_unit' := attacker_unit.mod_health (-damage_back)
        let σ2 := storeWriteAt σ1 (g.addr attacker_coord) attacker_unit'
        let g2 := HGame.remove_dead σ2 g1 attacker_coord
        (true, attacker_unit.player.name ++ "\x27s " ++ attacker_unit.type.name ++
          " attacked " ++ target_unit.player.name ++ "\x27s " ++ target_unit.type.name,
         σ2, g2)
  | _, _ => (false, "Invalid attack attempt!\n", σ, g)

/-- `Game.repair` on the heap-level game: the in-place `mod_health` writes
the store at the target's address. -/
def HGame.repair (σ : Store) (g : HGame) (repairer_coord target_coord : Coord) :
    Bool × String × Store × HGame :=
  if ¬ g.is_adjacent repairer_coord target_coord then
    (false, "Invalid repair action: units are not adjacent!\n", σ, g)
  else
    match HGame.get σ g repairer_coord, HGame.get σ g target_coord with
    | some repairer_unit, some target_unit =>
        if ¬ (repairer_unit.player = target_unit.player) then
          (false, "Invalid repair action: units are not friendly!\n", σ, g)
        else
          let repair_amount := repairer_unit.repair_amount target_unit
          if repair_amount = 0 then
            (false, repairZeroMsg repairer_unit target_unit, σ, g)
          else if target_unit.health = 9 then
            (false, repairMaxMsg target_unit, σ, g)
          else
            (true, repairer_unit.player.name ++ "\x27s " ++ repairer_unit.type.name ++
              " repaired " ++ target_unit.player.name ++ "\x27s " ++
              target_unit.type.name ++ ".",
             storeWriteAt σ (g.addr target_coord) (target_unit.mod_health repair_amount), g)
    | _, _ => (false, "Invalid repair action: units are not friendly!\n", σ, g)

/-- `Game.is_ai_self_destruct` on the heap-level game. -/
def HGame.is_ai_self_destruct (g : HGame) (player : Player) : HGame :=
  match player with
  | .Attacker => { g with _attacker_ai_self_destructed := true }
  | .Defender => { g with _defender_ai_self_destructed := true }

/-- `Game.self_destruct` on the heap-level game. -/
def HGame.self_destruct (σ : Store) (g : HGame) (coord : Coord) :
    Option (Bool × String × Store × HGame) :=
  match HGame.get σ g coord with
  | none => none
  | some unit =>
      let g1 := if unit.type = .AI then g.is_ai_self_destruct unit.player else g
      if ¬ unit.is_alive then some (false, "Invalid self-destruct attempt", σ, g1)
      else
        let p2 := (coord.iter_range 1).foldl
          (fun (p : Store × HGame) adjacent_coord =>
            if p.2.is_valid_coord adjacent_coord then
              HGame.mod_health p.1 p.2 adjacent_coord (-2)
            else p) (σ, g1)
        some (true, unit.player.name ++ "\x27s " ++ unit.type.name ++
          " self-destructed at " ++ coord.to_string, p2.1, p2.2.set coord none)

/-- `Game.perform_move` on the heap-level game.  The movement case rebinds
the destination cell to the source cell's address (`self.set(coords.dst,
src_unit)` copies the object reference, it does not copy the object). -/
def HGame.perform_move (σ : Store) (g : HGame) (coords : CoordPair) :
    Option (Bool × String × Store × HGame) :=
  let dst_unit := HGame.get σ g coords.dst
  if coords.src = coords.dst then HGame.self_destruct σ g coords.src
  else
    match dst_unit with
    | none =>
        let vm := HGame.is_valid_move σ g coords
        if vm.1 then
          match HGame.is_movement_valid σ g coords with
          | none => none
          | some (success, move_result) =>
              if success then
                some (true, move_result, σ,
                  (g.set coords.dst (g.addr coords.src)).set coords.src none)
              else some (false, move_result, σ, g)
        else some (false, vm.2, σ, g)
    | some du =>
        match HGame.get σ g coords.src with
        | none => none
        | some su =>
            if du.player ≠ su.player then
              some (HGame.attack σ g coords.src coords.dst)
            else some (HGame.repair σ g coords.src coords.dst)

/-- Deep-copy one board row: each occupied cell's unit object is re-allocated
at a fresh address at the end of the store (the effect of `copy.deepcopy` on
a row whose cells hold distinct objects). -/
def cloneRow (σfix : Store) : List (Option Addr) → Store → Store × List (Option Addr)
  | [], σnew => (σnew, [])
  | cell :: rest, σnew =>
      match cell with
      | none =>
          let r := cloneRow σfix rest σnew
          (r.1, none :: r.2)
      | some a =>
          match σfix[a]? with
          | some u =>
              let r := cloneRow σfix rest (σnew ++ [u])
              (r.1, some σnew.length :: r.2)
          | none =>
              let r := cloneRow σfix rest σnew
              (r.1, none :: r.2)

/-- Deep-copy the whole board, row by row. -/
def cloneBoard (σfix : Store) : List (List (Option Addr)) → Store →
    Store × List (List (Option Addr))
  | [], σnew => (σnew, [])
  | row :: rest, σnew =>
      let r1 := cloneRow σfix row σnew
      let r2 := cloneBoard σfix rest r1.1
      (r2.1, r1.2 :: r2.2)

/-- `Game.clone` on the heap-level game: a shallow copy of the game object
with a deep copy of the board (`new.board = copy.deepcopy(self.board)`) —
every unit object of the clone is a fresh allocation. -/
def HGame.clone (σ : Store) (g : HGame) : Store × HGame :=
  let r := cloneBoard σ g.board σ
  (r.1, { g with board := r.2 })

/-- `Game.clone_and_move` on the heap-level game. -/
def HGame.clone_and_move (σ : Store) (g : HGame) (move : CoordPair) :
    Option (CoordPair × Store × HGame) :=
  let r := HGame.clone σ g
  match HGame.perform_move r.1 r.2 move with
  | some (true, _, σ2, simulated_game) => some (move, σ2, simulated_game)
  | _ => none

/-- An address is reachable from the game's board. -/
def HGame.usesAddr (g : HGame) (a : Addr) : Prop :=
  ∃ row ∈ g.board, some a ∈ row

/-- All board addresses of the game are allocated in the store. -/
def HGame.WFaddr (σ : Store) (g : HGame) : Prop :=
  ∀ a, g.usesAddr a → a < σ.length

/-- A one-object heap used to exercise the clone frame property. -/
def hTestStore : Store := [{ player := .Attacker, type := .Virus, health := 9 }]

/-- A heap-level game with a single attacker Virus object (address 0) at
cell (4,4) of an otherwise empty default board. -/
def hTestGame : HGame :=
  { board := [List.replicate 5 none, List.replicate 5 none, List.replicate 5 none,
              List.replicate 5 none, [none, none, none, none, some 0]] }

/-! ### Basic lemmas about the board primitives -/

theorem Game.is_valid_coord_iff (g : Game) (c : Coord) :
    g.is_valid_coord c = true ↔
      0 ≤ c.row ∧ c.row < g.options.dim ∧ 0 ≤ c.col ∧ c.col < g.options.dim := by
  unfold Game.is_valid_coord
  split <;> rename_i h <;> simp <;> omega

@[simp] theorem Game.set_options (g : Game) (c : Coord) (u : Option Unit) :
    (g.set c u).options = g.options := by
  unfold Game.set; split <;> rfl

@[simp] theorem Game.set_next_player (g : Game) (c : Coord) (u : Option Unit) :
    (g.set c u).next_player = g.next_player := by
  unfold Game.set; split <;> rfl

@[simp] theorem Game.set_turns_played (g : Game) (c : Coord) (u : Option Unit) :
    (g.set c u).turns_played = g.turns_played := by
  unfold Game.set; split <;> rfl

@[simp] theorem Game.set_attacker_has_ai (g : Game) (c : Coord) (u : Option Unit) :
    (g.set c u)._attacker_has_ai = g._attacker_has_ai := by
  unfold Game.set; split <;> rfl

@[simp] theorem Game.set_defender_has_ai (g : Game) (c : Coord) (u : Option Unit) :
    (g.set c u)._defender_has_ai = g._defender_has_ai := by
  unfold Game.set; split <;> rfl

@[simp] theorem Game.set_attacker_sd (g : Game) (c : Coord) (u : Option Unit) :
    (g.set c u)._attacker_ai_self_destructed = g._attacker_ai_self_destructed := by
  unfold Game.set; split <;> rfl

@[simp] theorem Game.set_defender_sd (g : Game) (c : Coord) (u : Option Unit) :
    (g.set c u)._defender_ai_self_destructed = g._defender_ai_self_destructed := by
  unfold Game.set; split <;> rfl

theorem Game.get_congr {g₁ g₂ : Game} (hb : g₁.board = g₂.board)
    (ho : g₁.options = g₂.options) : g₁.get = g₂.get := by
  funext c
  unfold Game.get Game.is_valid_coord
  rw [hb, ho]

@[simp] theorem Game.is_valid_coord_set (g : Game) (c : Coord) (u : Option Unit)
    (c' : Coord) : (g.set c u).is_valid_coord c' = g.is_valid_coord c' := by
  unfold Game.is_valid_coord
  rw [Game.set_options]

theorem Game.get_none_of_invalid {g : Game} {c : Coord}
    (h : ¬ g.is_valid_coord c = true) : g.get c = none := by
  unfold Game.get; simp [h]

theorem Game.valid_of_get_some {g : Game} {c : Coord} {u : Unit}
    (h : g.get c = some u) : g.is_valid_coord c = true := by
  by_cases hv : g.is_valid_coord c = true
  · exact hv
  · rw [Game.get_none_of_invalid hv] at h; cases h

theorem Game.WF_set {g : Game} (hWF : g.WF) (c : Coord) (u : Option Unit) :
    (g.set c u).WF := by
  obtain ⟨hlen, hrows⟩ := hWF
  unfold Game.set
  split
  · by_cases hr : c.row.toNat < g.board.length
    · refine ⟨?_, ?_⟩
      · simpa using hlen
      · intro row hrow
        simp only at hrow
        rcases List.mem_or_eq_of_mem_set hrow with h | h
        · exact hrows _ h
        · subst h
          rw [List.length_set]
          have hmem : g.board.getD c.row.toNat [] ∈ g.board := by
            rw [List.getD_eq_getElem?_getD, List.getElem?_eq_getElem hr]
            exact List.getElem_mem hr
          exact hrows _ hmem
    · push_neg at hr
      have hbeq : g.board.set c.row.toNat
          ((g.board.getD c.row.toNat []).set c.col.toNat u) = g.board :=
        List.set_eq_of_length_le hr
      constructor
      · simpa [hbeq] using hlen
      · intro row hrow
        simp only [hbeq] at hrow
        exact hrows _ hrow
  · exact ⟨hlen, hrows⟩

theorem Game.get_def (g : Game) (c : Coord) :
    g.get c = if g.is_valid_coord c
      then (g.board.getD c.row.toNat []).getD c.col.toNat none else none := rfl

theorem Game.set_board_of_valid {g : Game} {c : Coord} (u : Option Unit)
    (hc : g.is_valid_coord c = true) :
    (g.set c u).board
      = g.board.set c.row.toNat ((g.board.getD c.row.toNat []).set c.col.toNat u) := by
  unfold Game.set; simp [hc]

theorem Game.set_of_invalid {g : Game} {c : Coord} (u : Option Unit)
    (hc : ¬ g.is_valid_coord c = true) : g.set c u = g := by
  unfold Game.set; simp [hc]

theorem Game.get_set {g : Game} (hWF : g.WF) (c : Coord) (u : Option Unit) (c' : Coord) :
    (g.set c u).get c' = if g.is_valid_coord c ∧ c' = c then u else g.get c' := by
  obtain ⟨hlen, hrows⟩ := hWF
  by_cases hc : g.is_valid_coord c = true
  · by_cases hc' : g.is_valid_coord c' = true
    · obtain ⟨hr0, hr1, hc0, hc1⟩ := (g.is_valid_coord_iff c).1 hc
      obtain ⟨hr0', hr1', hc0', hc1'⟩ := (g.is_valid_coord_iff c').1 hc'
      have hrlt : c.row.toNat < g.board.length := by rw [hlen]; omega
      have hrowlen : (g.board[c.row.toNat]?.getD []).length = g.options.dim.toNat := by
        apply hrows
        rw [List.getElem?_eq_getElem hrlt]
        exact List.getElem_mem hrlt
      rw [Game.get_def, Game.is_valid_coord_set, Game.set_board_of_valid u hc, if_pos hc',
        Game.get_def g c', if_pos hc']
      simp only [List.getD_eq_getElem?_getD]
      by_cases hrow : c'.row = c.row
      · have htn : c'.row.toNat = c.row.toNat := by omega
        rw [htn, List.getElem?_set_eq_of_lt _ hrlt]
        simp only [Option.getD_some]
        by_cases hcol : c'.col = c.col
        · have hcc : c' = c := by cases c; cases c'; simp_all
          rw [if_pos ⟨hc, hcc⟩]
          have hcollt : c.col.toNat < (g.board[c.row.toNat]?.getD []).length := by
            rw [hrowlen]; omega
          have htc : c'.col.toNat = c.col.toNat := by omega
          rw [htc, List.getElem?_set_eq_of_lt _ hcollt]
          rfl
        · have hcc : ¬ c' = c := by intro h; subst h; exact hcol rfl
          rw [if_neg (by simp [hcc])]
          have htc : c.col.toNat ≠ c'.col.toNat := by omega
          rw [List.getElem?_set_ne htc]
      · have hcc : ¬ c' = c := by intro h; subst h; exact hrow rfl
        rw [if_neg (by simp [hcc])]
        have htn : c.row.toNat ≠ c'.row.toNat := by omega
        rw [List.getElem?_set_ne htn]
    · have h1 : (g.set c u).get c' = none := by
        apply Game.get_none_of_invalid
        rw [Game.is_valid_coord_set]; exact hc'
      have h2 : g.get c' = none := Game.get_none_of_invalid hc'
      rw [h1, h2]
      by_cases hcc : c' = c
      · subst hcc; exact absurd hc hc'
      · rw [if_neg (by simp [hcc])]
  · rw [Game.set_of_invalid u hc, if_neg (by simp [hc])]

theorem Game.WF_congr {g₁ g₂ : Game} (hb : g₁.board = g₂.board)
    (ho : g₁.options = g₂.options) : g₂.WF → g₁.WF := by
  unfold Game.WF; rw [hb, ho]; exact id

theorem Game.is_valid_coord_congr {g₁ g₂ : Game} (ho : g₁.options = g₂.options) :
    g₁.is_valid_coord = g₂.is_valid_coord := by
  funext c; unfold Game.is_valid_coord; rw [ho]

@[simp] theorem Game.remove_dead_options (g : Game) (c : Coord) :
    (g.remove_dead c).options = g.options := by
  unfold Game.remove_dead
  split <;> [skip; rfl]
  split <;> [skip; rfl]
  split <;> [split <;> simp; simp]

@[simp] theorem Game.remove_dead_next_player (g : Game) (c : Coord) :
    (g.remove_dead c).next_player = g.next_player := by
  unfold Game.remove_dead
  split <;> [skip; rfl]
  split <;> [skip; rfl]
  split <;> [split <;> simp; simp]

@[simp] theorem Game.remove_dead_turns_played (g : Game) (c : Coord) :
    (g.remove_dead c).turns_played = g.turns_played := by
  unfold Game.remove_dead
  split <;> [skip; rfl]
  split <;> [skip; rfl]
  split <;> [split <;> simp; simp]

@[simp] theorem Game.remove_dead_attacker_sd (g : Game) (c : Coord) :
    (g.remove_dead c)._attacker_ai_self_destructed = g._attacker_ai_self_destructed := by
  unfold Game.remove_dead
  split <;> [skip; rfl]
  split <;> [skip; rfl]
  split <;> [split <;> simp; simp]

@[simp] theorem Game.remove_dead_defender_sd (g : Game) (c : Coord) :
    (g.remove_dead c)._defender_ai_self_destructed = g._defender_ai_self_destructed := by
  unfold Game.remove_dead
  split <;> [skip; rfl]
  split <;> [skip; rfl]
  split <;> [split <;> simp; simp]

theorem Game.WF_remove_dead {g : Game} (hWF : g.WF) (c : Coord) :
    (g.remove_dead c).WF := by
  unfold Game.remove_dead
  split <;> [skip; exact hWF]
  split <;> [skip; exact hWF]
  split
  · split
    · exact Game.WF_congr (by simp) (by simp) (g.WF_set hWF c none)
    · exact Game.WF_congr (by simp) (by simp) (g.WF_set hWF c none)
  · exact g.WF_set hWF c none

theorem Game.get_remove_dead {g : Game} (hWF : g.WF) (c c' : Coord) :
    (g.remove_dead c).get c' =
      if c' = c then
        (match g.get c with
         | some u => if u.is_alive then some u else none
         | none => none)
      else g.get c' := by
  unfold Game.remove_dead
  cases hget : g.get c with
  | none =>
      simp only [hget]
      split
      · rename_i h; subst h; exact hget
      · rfl
  | some u =>
      simp only [hget]
      by_cases halive : u.is_alive
      · rw [if_neg (by simp [halive])]
        split
        · rename_i h; subst h; simp [hget, halive]
        · rfl
      · rw [if_pos (by simp [halive]), if_neg halive]
        have hget' : ∀ c'', ({ (g.set c none) with _attacker_has_ai := false } : Game).get c''
            = (g.set c none).get c'' := by
          intro c''; exact congrFun (Game.get_congr rfl rfl) c''
        have hget'' : ∀ c'', ({ (g.set c none) with _defender_has_ai := false } : Game).get c''
            = (g.set c none).get c'' := by
          intro c''; exact congrFun (Game.get_congr rfl rfl) c''
        have hmain : (g.set c none).get c' = if c' = c then none else g.get c' := by
          rw [Game.get_set hWF]
          by_cases hcc : c' = c
          · rw [if_pos ⟨Game.valid_of_get_some hget, hcc⟩, if_pos hcc]
          · rw [if_neg (by simp [hcc]), if_neg hcc]
        split
        · split <;> exact hget' c' ▸ hmain
        · exact hget'' c' ▸ hmain

theorem Game.get_mod_health {g : Game} (hWF : g.WF) (c : Coord) (d : Int) (c' : Coord) :
    (g.mod_health c d).get c' =
      if c' = c then
        (match g.get c with
         | none => none
         | some u =>
             if (u.mod_health d).is_alive then some (u.mod_health d) else none)
      else g.get c' := by
  unfold Game.mod_health
  cases hget : g.get c with
  | none =>
      simp only [hget]
      split
      · rename_i h; subst h; exact hget
      · rfl
  | some u =>
      simp only [hget]
      rw [Game.get_remove_dead (g.WF_set hWF c _) c c']
      have hval : g.is_valid_coord c = true := Game.valid_of_get_some hget
      by_cases hcc : c' = c
      · rw [if_pos hcc, if_pos hcc]
        rw [Game.get_set hWF, if_pos ⟨hval, rfl⟩]
      · rw [if_neg hcc, if_neg hcc]
        rw [Game.get_set hWF, if_neg (by simp [hcc])]

@[simp] theorem Game.mod_health_options (g : Game) (c : Coord) (d : Int) :
    (g.mod_health c d).options = g.options := by
  unfold Game.mod_health
  split <;> simp

@[simp] theorem Game.mod_health_next_player (g : Game) (c : Coord) (d : Int) :
    (g.mod_health c d).next_player = g.next_player := by
  unfold Game.mod_health
  split <;> simp

@[simp] theorem Game.mod_health_turns_played (g : Game) (c : Coord) (d : Int) :
    (g.mod_health c d).turns_played = g.turns_played := by
  unfold Game.mod_health
  split <;> simp

@[simp] theorem Game.mod_health_attacker_sd (g : Game) (c : Coord) (d : Int) :
    (g.mod_health c d)._attacker_ai_self_destructed = g._attacker_ai_self_destructed := by
  unfold Game.mod_health
  split <;> simp

@[simp] theorem Game.mod_health_defender_sd (g : Game) (c : Coord) (d : Int) :
    (g.mod_health c d)._defender_ai_self_destructed = g._defender_ai_self_destructed := by
  unfold Game.mod_health
  split <;> simp

theorem Game.WF_mod_health {g : Game} (hWF : g.WF) (c : Coord) (d : Int) :
    (g.mod_health c d).WF := by
  unfold Game.mod_health
  split
  · exact hWF
  · exact Game.WF_remove_dead (g.WF_set hWF c _) c

/-! ### Health bounds and invariant preservation -/

theorem Unit.mod_health_le (u : Unit) (d : Int) :
    0 ≤ (u.mod_health d).health ∧ (u.mod_health d).health ≤ 9 := by
  unfold Unit.mod_health
  dsimp only
  split <;> [omega; split <;> omega]

theorem Unit.mod_health_player (u : Unit) (d : Int) : (u.mod_health d).player = u.player := rfl

theorem Unit.mod_health_type (u : Unit) (d : Int) : (u.mod_health d).type = u.type := rfl

theorem Unit.repair_amount_nonneg (u t : Unit) : 0 ≤ u.repair_amount t := by
  rcases u with ⟨up, ut, uh⟩
  rcases t with ⟨tp, tt, th⟩
  cases ut <;> cases tt <;>
    norm_num [Unit.repair_amount, Unit.repair_table, UnitType.value]

theorem Game.HealthInv_congr {g₁ g₂ : Game} (hb : g₁.board = g₂.board)
    (ho : g₁.options = g₂.options) : g₂.HealthInv → g₁.HealthInv := by
  intro h c u hget
  exact h c u ((congrFun (Game.get_congr hb ho) c) ▸ hget)

theorem Game.HealthInv_set_none {g : Game} (hWF : g.WF) (hInv : g.HealthInv)
    (c : Coord) : (g.set c none).HealthInv := by
  intro c' u hget
  rw [Game.get_set hWF] at hget
  split at hget
  · cases hget
  · exact hInv c' u hget

theorem Game.HealthInv_set_some {g : Game} (hWF : g.WF) (hInv : g.HealthInv)
    (c : Coord) {u : Unit} (h1 : 1 ≤ u.health) (h9 : u.health ≤ 9) :
    (g.set c (some u)).HealthInv := by
  intro c' v hget
  rw [Game.get_set hWF] at hget
  split at hget
  · cases hget; exact ⟨h1, h9⟩
  · exact hInv c' v hget

theorem Game.HealthInv_remove_dead {g : Game} (hWF : g.WF) (hInv : g.HealthInv)
    (c : Coord) : (g.remove_dead c).HealthInv := by
  intro c' v hget
  rw [Game.get_remove_dead hWF] at hget
  split at hget
  · split at hget
    · split at hget
      · cases hget; exact hInv c _ (by assumption)
      · cases hget
    · cases hget
  · exact hInv c' v hget

theorem Game.HealthInv_mod_health {g : Game} (hWF : g.WF) (hInv : g.HealthInv)
    (c : Coord) (d : Int) : (g.mod_health c d).HealthInv := by
  intro c' v hget
  rw [Game.get_mod_health hWF] at hget
  split at hget
  · split at hget
    · cases hget
    · rename_i u _
      split at hget
      · rename_i halive
        cases hget
        refine ⟨?_, (u.mod_health_le d).2⟩
        have := (u.mod_health d).health
        unfold Unit.is_alive at halive
        simp at halive
        omega
      · cases hget
  · exact hInv c' v hget

/-- The `set (some u'); remove_dead` pattern of `Game.attack`: storing a
damaged unit and immediately removing it when dead. -/
theorem Game.HealthInv_set_remove {g : Game} (hWF : g.WF) (hInv : g.HealthInv)
    (c : Coord) {u' : Unit} (h9 : u'.health ≤ 9) :
    ((g.set c (some u')).remove_dead c).HealthInv := by
  intro c' v hget
  rw [Game.get_remove_dead (g.WF_set hWF c _)] at hget
  by_cases hc' : c' = c
  · subst hc'
    rw [if_pos rfl, Game.get_set hWF] at hget
    by_cases hval : g.is_valid_coord c' = true
    · rw [if_pos ⟨hval, rfl⟩] at hget
      simp only at hget
      split at hget
      · rename_i halive
        cases hget
        unfold Unit.is_alive at halive
        simp at halive
        exact ⟨by omega, h9⟩
      · cases hget
    · rw [if_neg (by simp [hval])] at hget
      cases hgc : g.get c' with
      | none => rw [hgc] at hget; cases hget
      | some u =>
          rw [hgc] at hget
          simp only at hget
          split at hget
          · cases hget; exact hInv c' _ hgc
          · cases hget
  · rw [if_neg hc', Game.get_set hWF, if_neg (by simp [hc'])] at hget
    exact hInv c' v hget

theorem Unit.mod_health_pos {u : Unit} {d : Int} (h1 : 1 ≤ u.health) (hd : 0 ≤ d) :
    1 ≤ (u.mod_health d).health := by
  unfold Unit.mod_health
  dsimp only
  split <;> [omega; split <;> omega]

theorem Game.is_valid_move_fst {g : Game} {mv : CoordPair} :
    (g.is_valid_move mv).1 = true ↔
      g.is_valid_coord mv.src = true ∧ g.is_valid_coord mv.dst = true ∧
        ∃ u, g.get mv.src = some u ∧ u.player = g.next_player := by
  unfold Game.is_valid_move
  by_cases h1 : ¬ g.is_valid_coord mv.src = true ∨ ¬ g.is_valid_coord mv.dst = true
  · rw [if_pos h1]
    simp only [Bool.false_eq_true, false_iff]
    rintro ⟨hs, hd, _⟩
    rcases h1 with h | h <;> exact h (by assumption)
  · rw [if_neg h1]
    push_neg at h1
    cases hget : g.get mv.src with
    | none => simp [hget]
    | some u =>
        by_cases hp : u.player = g.next_player
        · simp [hget, hp, h1.1, h1.2]
        · simp [hget, hp]

theorem Game.WF_HealthInv_attack {g : Game} (hWF : g.WF) (hInv : g.HealthInv)
    (ac tc : Coord) : (g.attack ac tc).2.2.WF ∧ (g.attack ac tc).2.2.HealthInv := by
  unfold Game.attack
  cases hga : g.get ac with
  | none => exact ⟨hWF, hInv⟩
  | some au =>
      cases hgt : g.get tc with
      | none => exact ⟨hWF, hInv⟩
      | some tu =>
          dsimp only
          split
          · exact ⟨hWF, hInv⟩
          · split
            · exact ⟨hWF, hInv⟩
            · have hWF1 : ((g.set tc (some (tu.mod_health (-(au.damage_amount tu))))).remove_dead tc).WF :=
                Game.WF_remove_dead (g.WF_set hWF tc _) tc
              have hInv1 := @Game.HealthInv_set_remove g hWF hInv tc
                (tu.mod_health (-(au.damage_amount tu)))
                (tu.mod_health_le _).2
              refine ⟨Game.WF_remove_dead (Game.WF_set hWF1 _ _) _, ?_⟩
              exact Game.HealthInv_set_remove hWF1 hInv1 ac (Unit.mod_health_le _ _).2

theorem Game.WF_HealthInv_repair {g : Game} (hWF : g.WF) (hInv : g.HealthInv)
    (rc tc : Coord) : (g.repair rc tc).2.2.WF ∧ (g.repair rc tc).2.2.HealthInv := by
  unfold Game.repair
  split
  · exact ⟨hWF, hInv⟩
  · cases hgr : g.get rc with
    | none => exact ⟨hWF, hInv⟩
    | some ru =>
        cases hgt : g.get tc with
        | none => exact ⟨hWF, hInv⟩
        | some tu =>
            dsimp only
            split
            · exact ⟨hWF, hInv⟩
            · split
              · exact ⟨hWF, hInv⟩
              · split
                · exact ⟨hWF, hInv⟩
                · refine ⟨g.WF_set hWF tc _, ?_⟩
                  refine Game.HealthInv_set_some hWF hInv tc ?_ (Unit.mod_health_le _ _).2
                  exact Unit.mod_health_pos (hInv tc tu hgt).1 (ru.repair_amount_nonneg tu)

theorem Game.WF_HealthInv_blast_foldl (L : List Coord) {g : Game}
    (hWF : g.WF) (hInv : g.HealthInv) :
    (L.foldl (fun acc c =>
      if acc.is_valid_coord c then acc.mod_health c (-2) else acc) g).WF ∧
    (L.foldl (fun acc c =>
      if acc.is_valid_coord c then acc.mod_health c (-2) else acc) g).HealthInv := by
  induction L generalizing g with
  | nil => exact ⟨hWF, hInv⟩
  | cons c rest ih =>
      rw [List.foldl_cons]
      by_cases hv : g.is_valid_coord c = true
      · rw [if_pos hv]
        exact ih (Game.WF_mod_health hWF c _) (Game.HealthInv_mod_health hWF hInv c _)
      · rw [if_neg hv]
        exact ih hWF hInv

theorem Game.WF_HealthInv_self_destruct {g : Game} (hWF : g.WF) (hInv : g.HealthInv)
    {c : Coord} {ok : Bool} {msg : String} {g' : Game}
    (h : g.self_destruct c = some (ok, msg, g')) : g'.WF ∧ g'.HealthInv := by
  unfold Game.self_destruct at h
  cases hget : g.get c with
  | none => rw [hget] at h; cases h
  | some u =>
      rw [hget] at h
      dsimp only at h
      have hWF1 : (if u.type = .AI then g.is_ai_self_destruct u.player else g).WF := by
        split
        · unfold Game.is_ai_self_destruct
          split <;> exact Game.WF_congr rfl rfl hWF
        · exact hWF
      have hInv1 : (if u.type = .AI then g.is_ai_self_destruct u.player else g).HealthInv := by
        split
        · unfold Game.is_ai_self_destruct
          split <;> exact Game.HealthInv_congr rfl rfl hInv
        · exact hInv
      split at h
      · cases h; exact ⟨hWF1, hInv1⟩
      · cases h
        obtain ⟨hWF2, hInv2⟩ := Game.WF_HealthInv_blast_foldl (c.iter_range 1) hWF1 hInv1
        exact ⟨Game.WF_set hWF2 c none, Game.HealthInv_set_none hWF2 hInv2 c⟩

theorem Game.WF_HealthInv_perform_move {g : Game} (hWF : g.WF) (hInv : g.HealthInv)
    {mv : CoordPair} {ok : Bool} {msg : String} {g' : Game}
    (h : g.perform_move mv = some (ok, msg, g')) : g'.WF ∧ g'.HealthInv := by
  unfold Game.perform_move at h
  split at h
  · exact Game.WF_HealthInv_self_destruct hWF hInv h
  · cases hgd : g.get mv.dst with
    | none =>
        rw [hgd] at h
        dsimp only at h
        split at h
        · cases hmv : g.is_movement_valid mv with
          | none => rw [hmv] at h; cases h
          | some sm =>
              rw [hmv] at h
              dsimp only at h
              split at h
              · cases h
                cases hgs : g.get mv.src with
                | none =>
                    have hWFd := g.WF_set hWF mv.dst none
                    exact ⟨Game.WF_set hWFd mv.src none,
                      Game.HealthInv_set_none hWFd
                        (Game.HealthInv_set_none hWF hInv mv.dst) mv.src⟩
                | some su =>
                    have h1 := hInv mv.src su hgs
                    have hWFd := g.WF_set hWF mv.dst (some su)
                    exact ⟨Game.WF_set hWFd mv.src none,
                      Game.HealthInv_set_none hWFd
                        (Game.HealthInv_set_some hWF hInv mv.dst h1.1 h1.2) mv.src⟩
              · cases h; exact ⟨hWF, hInv⟩
        · cases h; exact ⟨hWF, hInv⟩
    | some du =>
        rw [hgd] at h
        cases hgs : g.get mv.src with
        | none => rw [hgs] at h; cases h
        | some su =>
            rw [hgs] at h
            dsimp only at h
            split at h
            · have hh := Game.WF_HealthInv_attack hWF hInv mv.src mv.dst
              rw [Option.some.inj h] at hh
              exact hh
            · have hh := Game.WF_HealthInv_repair hWF hInv mv.src mv.dst
              rw [Option.some.inj h] at hh
              exact hh

theorem Game.blank_WF_HealthInv (options : Options) :
    (({ board := List.replicate options.dim.toNat (List.replicate options.dim.toNat none),
        options := options } : Game)).WF ∧
    (({ board := List.replicate options.dim.toNat (List.replicate options.dim.toNat none),
        options := options } : Game)).HealthInv := by
  constructor
  · constructor
    · simp
    · intro row hrow
      rw [List.eq_of_mem_replicate hrow]
      simp
  · intro c u hget
    unfold Game.get at hget
    split at hget
    · simp only [List.getD_eq_getElem?_getD] at hget
      rw [List.getElem?_replicate] at hget
      split at hget
      · simp only [Option.getD_some] at hget
        rw [List.getElem?_replicate] at hget
        split at hget <;> simp at hget
      · simp at hget
    · cases hget

theorem Game.WF_HealthInv_set_fresh {g : Game} (h : g.WF ∧ g.HealthInv)
    (c : Coord) (p : Player) (t : UnitType) :
    (g.set c (some { player := p, type := t })).WF ∧
    (g.set c (some { player := p, type := t })).HealthInv :=
  ⟨Game.WF_set h.1 c _,
   Game.HealthInv_set_some h.1 h.2 c (by norm_num) (by norm_num)⟩

theorem newGame_WF_HealthInv (options : Options) :
    (newGame options).WF ∧ (newGame options).HealthInv := by
  unfold newGame
  dsimp only
  exact Game.WF_HealthInv_set_fresh (Game.WF_HealthInv_set_fresh
    (Game.WF_HealthInv_set_fresh (Game.WF_HealthInv_set_fresh
      (Game.WF_HealthInv_set_fresh (Game.WF_HealthInv_set_fresh
        (Game.WF_HealthInv_set_fresh (Game.WF_HealthInv_set_fresh
          (Game.WF_HealthInv_set_fresh (Game.WF_HealthInv_set_fresh
            (Game.WF_HealthInv_set_fresh (Game.WF_HealthInv_set_fresh
              (Game.blank_WF_HealthInv options) _ _ _) _ _ _) _ _ _) _ _ _)
          _ _ _) _ _ _) _ _ _) _ _ _) _ _ _) _ _ _) _ _ _) _ _ _

theorem Game.next_turn_WF_HealthInv {g : Game} (h : g.WF ∧ g.HealthInv) :
    g.next_turn.WF ∧ g.next_turn.HealthInv :=
  ⟨Game.WF_congr rfl rfl h.1, Game.HealthInv_congr rfl rfl h.2⟩

theorem Reachable.WF_HealthInv {g : Game} (hreach : Reachable g) :
    g.WF ∧ g.HealthInv := by
  induction hreach with
  | init options => exact newGame_WF_HealthInv options
  | step _ hpm ih => exact Game.WF_HealthInv_perform_move ih.1 ih.2 hpm
  | turn _ ih => exact Game.next_turn_WF_HealthInv ih

/-- C7: for every game state reachable from the initial board by resolver
actions, every unit stored on the board has health in `[1, 9]` — every
health mutation clamps into `[0, 9]` and a unit whose health reaches 0 is
removed rather than stored, so this holds after every move, attack, repair
and self-destruct. -/
theorem reachable_board_health_in_range {g : Game} (hreach : Reachable g) :
    ∀ c u, g.get c = some u → 1 ≤ u.health ∧ u.health ≤ 9 :=
  hreach.WF_HealthInv.2

/-- Witness for C7 at a concrete reachable state: the freshly constructed
default game, whose cell (0,0) holds the defender AI at health 9. -/
theorem reachable_board_health_in_range_witness :
    (1 : Int) ≤ 9 ∧ (9 : Int) ≤ 9 := by
  have hget : initialGame.get ⟨0, 0⟩
      = some { player := .Defender, type := .AI, health := 9 } := by rfl
  exact reachable_board_health_in_range (Reachable.init {}) ⟨0, 0⟩
    { player := .Defender, type := .AI, health := 9 } hget

/-! ### Move-candidate generation -/

theorem mem_intRange {x a b : Int} : x ∈ intRange a b ↔ a ≤ x ∧ x < b := by
  unfold intRange
  constructor
  · intro hx
    obtain ⟨i, hi, heq⟩ := List.mem_map.1 hx
    rw [List.mem_range] at hi
    omega
  · intro h
    exact List.mem_map.2 ⟨(x - a).toNat, List.mem_range.2 (by omega), by omega⟩

theorem mem_iter_rectangle_from_dim {c : Coord} {dim : Int} :
    c ∈ (CoordPair.from_dim dim).iter_rectangle ↔
      0 ≤ c.row ∧ c.row < dim ∧ 0 ≤ c.col ∧ c.col < dim := by
  unfold CoordPair.from_dim CoordPair.iter_rectangle
  simp only [List.mem_flatMap, List.mem_map]
  constructor
  · rintro ⟨row, hrow, col, hcol, rfl⟩
    rw [mem_intRange] at hrow hcol
    dsimp only
    omega
  · rintro ⟨h1, h2, h3, h4⟩
    exact ⟨c.row, mem_intRange.2 ⟨by omega, by omega⟩,
           c.col, mem_intRange.2 ⟨by omega, by omega⟩, rfl⟩

theorem Game.mem_player_units {g : Game} {p : Player} {c : Coord} {u : Unit} :
    (c, u) ∈ g.player_units p ↔ g.get c = some u ∧ u.player = p := by
  unfold Game.player_units
  rw [List.mem_filterMap]
  constructor
  · rintro ⟨a, _, hfa⟩
    cases hget : g.get a with
    | none => rw [hget] at hfa; cases hfa
    | some v =>
        rw [hget] at hfa
        dsimp only at hfa
        split at hfa
        · cases hfa; exact ⟨hget, by assumption⟩
        · cases hfa
  · rintro ⟨hget, hp⟩
    refine ⟨c, ?_, ?_⟩
    · have hv := Game.valid_of_get_some hget
      rw [Game.is_valid_coord_iff] at hv
      exact mem_iter_rectangle_from_dim.2 (by omega)
    · rw [hget]; simp [hp]

theorem Game.self_destruct_mem_move_candidates {g : Game} {c : Coord} {u : Unit}
    (hget : g.get c = some u) (hp : u.player = g.next_player) :
    CoordPair.mk c c ∈ g.move_candidates := by
  unfold Game.move_candidates
  rw [List.mem_flatMap]
  refine ⟨u.type, by cases u.type <;> simp, ?_⟩
  rw [List.mem_flatMap]
  refine ⟨(c, u), Game.mem_player_units.2 ⟨hget, hp⟩, ?_⟩
  rw [if_pos rfl]
  simp

/-- C10: `move_candidates` yields the self-destruct pair `(src, src)` for
every unit of the current player, unconditionally; hence it is non-empty
whenever the current player owns a unit, and the "zero move candidates"
game-over condition can only hold when the current player has no units on
the board. -/
theorem move_candidates_contain_self_destructs (g : Game) :
    (∀ c u, g.get c = some u → u.player = g.next_player →
        CoordPair.mk c c ∈ g.move_candidates) ∧
    ((∃ c u, g.get c = some u ∧ u.player = g.next_player) → g.move_candidates ≠ []) ∧
    (g.move_candidates = [] →
        ∀ c u, g.get c = some u → u.player ≠ g.next_player) := by
  refine ⟨fun c u hget hp => Game.self_destruct_mem_move_candidates hget hp, ?_, ?_⟩
  · rintro ⟨c, u, hget, hp⟩
    exact List.ne_nil_of_mem (Game.self_destruct_mem_move_candidates hget hp)
  · intro hempty c u hget hp
    have := Game.self_destruct_mem_move_candidates hget hp
    rw [hempty] at this
    cases this

/-- Witness for C10: on the initial board the attacker AI at (4,4) yields
its self-destruct candidate. -/
theorem move_candidates_contain_self_destructs_witness :
    CoordPair.mk ⟨4, 4⟩ ⟨4, 4⟩ ∈ initialGame.move_candidates :=
  (move_candidates_contain_self_destructs initialGame).1 ⟨4, 4⟩
    { player := .Attacker, type := .AI, health := 9 } (by rfl) (by rfl)

/-! ### The game-over predicate -/

theorem czStep_row_foldl (row : List (Option Unit)) (acc : Int × Int) :
    (acc.1 ≤ (row.foldl czStep acc).1 ∧ acc.2 ≤ (row.foldl czStep acc).2) ∧
    ((row.foldl czStep acc) = acc ↔ ∀ cell ∈ row, cell = none) := by
  induction row generalizing acc with
  | nil => simp
  | cons cell rest ih =>
      rw [List.foldl_cons]
      cases cell with
      | none =>
          obtain ⟨⟨ih1, ih2⟩, ih3⟩ := ih acc
          exact ⟨⟨ih1, ih2⟩, by simpa [czStep] using ih3⟩
      | some u =>
          have hstep : czStep acc (some u) =
              (if u.belongs_to .Attacker then (acc.1 + 1, acc.2)
               else (acc.1, acc.2 + 1)) := by
            cases hp : u.player with
            | Attacker => simp [czStep, Unit.belongs_to, hp]
            | Defender => simp [czStep, Unit.belongs_to, hp]
          rw [hstep]
          by_cases hA : u.belongs_to .Attacker = true
          · rw [if_pos hA]
            obtain ⟨⟨ih1, ih2⟩, ih3⟩ := ih (acc.1 + 1, acc.2)
            refine ⟨⟨by simp only at ih1; omega, by simp only at ih2; omega⟩, ?_⟩
            simp only [List.mem_cons, forall_eq_or_imp]
            constructor
            · intro heq
              exfalso
              have hc1 := congrArg Prod.fst heq
              simp only at hc1 ih1
              omega
            · rintro ⟨h, _⟩; cases h
          · rw [if_neg hA]
            obtain ⟨⟨ih1, ih2⟩, ih3⟩ := ih (acc.1, acc.2 + 1)
            refine ⟨⟨by simp only at ih1; omega, by simp only at ih2; omega⟩, ?_⟩
            simp only [List.mem_cons, forall_eq_or_imp]
            constructor
            · intro heq
              exfalso
              have hc2 := congrArg Prod.snd heq
              simp only at hc2 ih2
              omega
            · rintro ⟨h, _⟩; cases h

theorem czStep_board_foldl (rows : List (List (Option Unit))) (acc : Int × Int) :
    (acc.1 ≤ (rows.foldl (fun acc row => row.foldl czStep acc) acc).1 ∧
     acc.2 ≤ (rows.foldl (fun acc row => row.foldl czStep acc) acc).2) ∧
    ((rows.foldl (fun acc row => row.foldl czStep acc) acc) = acc ↔
      ∀ row ∈ rows, ∀ cell ∈ row, cell = none) := by
  induction rows generalizing acc with
  | nil => simp
  | cons row rest ih =>
      rw [List.foldl_cons]
      obtain ⟨⟨hr1, hr2⟩, hr3⟩ := czStep_row_foldl row acc
      obtain ⟨⟨ih1, ih2⟩, ih3⟩ := ih (row.foldl czStep acc)
      refine ⟨⟨by omega, by omega⟩, ?_⟩
      simp only [List.mem_cons, forall_eq_or_imp]
      constructor
      · intro heq
        have he1 := congrArg Prod.fst heq
        have he2 := congrArg Prod.snd heq
        simp only at he1 he2
        have heq2 : row.foldl czStep acc = acc := Prod.ext (by omega) (by omega)
        rw [heq2] at ih3 heq
        exact ⟨hr3.1 heq2, ih3.1 heq⟩
      · rintro ⟨hrow, hrest⟩
        have heq2 := hr3.2 hrow
        rw [heq2]
        rw [heq2] at ih3
        exact ih3.2 hrest

theorem Game.check_zero_units_iff_cells (g : Game) :
    g.check_zero_units = true ↔ ∀ row ∈ g.board, ∀ cell ∈ row, cell = none := by
  unfold Game.check_zero_units
  obtain ⟨⟨h1, h2⟩, h3⟩ := czStep_board_foldl g.board ((0 : Int), (0 : Int))
  constructor
  · intro h
    apply h3.1
    simp only [decide_eq_true_eq, Bool.and_eq_true] at h
    exact Prod.ext (by simpa using h.1) (by simpa using h.2)
  · intro h
    rw [h3.2 h]
    decide

theorem Game.no_units_iff_cells {g : Game} (hWF : g.WF) :
    (∀ row ∈ g.board, ∀ cell ∈ row, cell = none) ↔ ∀ c u, g.get c ≠ some u := by
  constructor
  · intro h c u hget
    unfold Game.get at hget
    split at hget
    · simp only [List.getD_eq_getElem?_getD] at hget
      cases hrow : g.board[c.row.toNat]? with
      | none => rw [hrow] at hget; simp at hget
      | some row =>
          rw [hrow] at hget
          simp only [Option.getD_some] at hget
          cases hcell : row[c.col.toNat]? with
          | none => rw [hcell] at hget; simp at hget
          | some cell =>
              rw [hcell] at hget
              simp only [Option.getD_some] at hget
              have hrowmem : row ∈ g.board := by
                obtain ⟨hlt, heq⟩ := List.getElem?_eq_some.1 hrow
                exact heq ▸ List.getElem_mem hlt
              have hcellmem : cell ∈ row := by
                obtain ⟨hlt, heq⟩ := List.getElem?_eq_some.1 hcell
                exact heq ▸ List.getElem_mem hlt
              rw [h row hrowmem cell hcellmem] at hget
              cases hget
    · cases hget
  · intro h row hrowmem cell hcellmem
    obtain ⟨r, hrlt, hreq⟩ := List.mem_iff_getElem.1 hrowmem
    obtain ⟨cl, hcllt, hcleq⟩ := List.mem_iff_getElem.1 hcellmem
    by_contra hne
    cases hcell : cell with
    | none => exact hne hcell
    | some u =>
        apply h ⟨(r : Int), (cl : Int)⟩ u
        have hval : g.is_valid_coord ⟨(r : Int), (cl : Int)⟩ = true := by
          rw [Game.is_valid_coord_iff]
          have h1 : r < g.options.dim.toNat := hWF.1 ▸ hrlt
          have h2 : cl < g.options.dim.toNat := by
            have := hWF.2 row hrowmem
            omega
          dsimp only
          omega
        unfold Game.get
        rw [if_pos hval]
        dsimp only
        have htr : ((r : Int)).toNat = r := by omega
        have htc : ((cl : Int)).toNat = cl := by omega
        rw [htr, htc]
        simp only [List.getD_eq_getElem?_getD]
        rw [List.getElem?_eq_getElem hrlt, hreq]
        simp only [Option.getD_some]
        rw [List.getElem?_eq_getElem hcllt, hcleq, hcell]
        rfl

theorem Game.player_units_length_zero_iff {g : Game} {p : Player} :
    (g.player_units p).length = 0 ↔ ∀ c u, g.get c = some u → u.player ≠ p := by
  rw [List.length_eq_zero, List.eq_nil_iff_forall_not_mem]
  constructor
  · intro h c u hget hp
    exact h (c, u) (Game.mem_player_units.2 ⟨hget, hp⟩)
  · rintro h ⟨c, u⟩ hmem
    obtain ⟨hget, hp⟩ := Game.mem_player_units.1 hmem
    exact h c u hget hp

theorem Game.check_zero_units_iff_player_units {g : Game} (hWF : g.WF) :
    g.check_zero_units = true ↔
      (g.player_units .Attacker).length = 0 ∧ (g.player_units .Defender).length = 0 := by
  rw [Game.check_zero_units_iff_cells, Game.no_units_iff_cells hWF,
    Game.player_units_length_zero_iff, Game.player_units_length_zero_iff]
  constructor
  · intro h
    exact ⟨fun c u hget _ => h c u hget, fun c u hget _ => h c u hget⟩
  · rintro ⟨hA, hD⟩ c u hget
    cases hp : u.player with
    | Attacker => exact hA c u hget hp
    | Defender => exact hD c u hget hp

/-- C8: `has_winner` evaluates the six game-over conditions in the
specified order, the first match deciding — it coincides with the ordered
specification `has_winner_spec`; in particular a board with zero units of
both owners reports the Defender as winner, and a state whose current
player has zero move candidates (no earlier condition firing) reports the
other player. -/
theorem has_winner_ordered_conditions {g : Game} (hWF : g.WF) :
    g.has_winner = g.has_winner_spec ∧
    (g.check_zero_units = true → g.has_winner = some .Defender) ∧
    (g.check_zero_units = false →
      (match g.options.max_turns with
       | some max_turns => decide (g.turns_played > max_turns)
       | none => false) = false →
      g._attacker_has_ai = true → g._defender_has_ai = true →
      g.move_candidates = [] → g.has_winner = some g.next_player.next) := by
  have h5 : (if g.next_player = .Attacker then Player.Defender else Player.Attacker)
      = g.next_player.next := by cases g.next_player <;> rfl
  refine ⟨?_, ?_, ?_⟩
  · unfold Game.has_winner Game.has_winner_spec
    simp only [Game.check_zero_units_iff_player_units hWF,
      List.isEmpty_iff_length_eq_zero, h5]
  · intro hz
    unfold Game.has_winner
    rw [if_pos hz]
  · intro hz h2 h3a h3d h4
    unfold Game.has_winner
    rw [if_neg (by simp [hz]), if_neg (by simp [h2]), if_neg (by simp [h3a]),
      if_neg (by simp [h3d]), if_pos (by simp [h4]), h5]

/-- Witness for C8: on the board where the Defender is to act with no
units left while the Attacker keeps its AI, no earlier condition fires and
the zero-candidates condition awards the win to the other player (the
Attacker). -/
theorem has_winner_ordered_conditions_witness :
    loneAiGame.has_winner = some Player.Attacker :=
  (@has_winner_ordered_conditions loneAiGame
      (Game.WF_set ⟨by decide, fun row hrow => by
        rw [List.eq_of_mem_replicate hrow]; decide⟩ _ _)).2.2
    (by decide) (by decide) (by decide) (by decide) (by decide)

/-! ### The attack action -/

theorem damage_table_entry_nonneg (a t : UnitType) :
    0 ≤ (Unit.damage_table.getD a.value []).getD t.value 0 := by
  cases a <;> cases t <;> decide

theorem Unit.mod_health_eq_of_bounds {u : Unit} {d : Int}
    (hlo : 0 ≤ u.health + d) (hhi : u.health + d ≤ 9) :
    u.mod_health d = { u with health := u.health + d } := by
  unfold Unit.mod_health
  have h1 : ¬ u.health + d < 0 := by omega
  have h2 : ¬ u.health + d > 9 := by omega
  simp only [h1, h2, if_false]

theorem Game.attack_ne_of_adv {g : Game} {src dst : Coord} {a t : Unit}
    (hga : g.get src = some a) (hgt : g.get dst = some t)
    (hadv : a.player.next = t.player) : src ≠ dst := by
  intro heq
  subst heq
  rw [hga] at hgt
  cases hgt
  cases hp : a.player <;> rw [hp] at hadv <;> cases hadv

/-- C4: `attack` succeeds exactly when both cells hold units of opposite
players at Manhattan distance 1; on success the defender loses the
damage-table amount clamped at 0 and the attacker then loses the reverse
table amount clamped at 0 — both sides are always damaged — and a unit
reaching health 0 is removed immediately after its damage application. -/
theorem attack_requires_adversaries_and_damages_both (g : Game)
    (hWF : g.WF) (hInv : g.HealthInv) (src dst : Coord) :
    ((g.attack src dst).1 = true ↔
      ∃ a t, g.get src = some a ∧ g.get dst = some t ∧
        a.player.next = t.player ∧
        (src.row - dst.row).natAbs + (src.col - dst.col).natAbs = 1) ∧
    (∀ a t, g.get src = some a → g.get dst = some t →
      (g.attack src dst).1 = true →
      ((g.attack src dst).2.2.get dst =
        (if t.health - (Unit.damage_table.getD a.type.value []).getD t.type.value 0 ≤ 0
         then none
         else some { t with health :=
            t.health - (Unit.damage_table.getD a.type.value []).getD t.type.value 0 }) ∧
       (g.attack src dst).2.2.get src =
        (if a.health - (Unit.damage_table.getD t.type.value []).getD a.type.value 0 ≤ 0
         then none
         else some { a with health :=
            a.health - (Unit.damage_table.getD t.type.value []).getD a.type.value 0 }))) := by
  constructor
  · unfold Game.attack
    cases hga : g.get src with
    | none => simp
    | some a =>
        cases hgt : g.get dst with
        | none => simp
        | some t =>
            dsimp only
            by_cases hadv : a.player.next = t.player
            · rw [if_neg (by simp [hadv])]
              by_cases hadj : g.is_adjacent src dst = true
              · rw [if_neg (by simp [hadj])]
                simp only [true_iff]
                refine ⟨a, t, rfl, rfl, hadv, ?_⟩
                unfold Game.is_adjacent at hadj
                exact of_decide_eq_true hadj
              · rw [if_pos hadj]
                simp only [Bool.false_eq_true, false_iff]
                rintro ⟨a', t', ha', ht', _, hman⟩
                cases ha'; cases ht'
                exact hadj (by unfold Game.is_adjacent; exact decide_eq_true hman)
            · rw [if_pos (by simp [hadv])]
              simp only [Bool.false_eq_true, false_iff]
              rintro ⟨a', t', ha', ht', hadv', _⟩
              cases ha'; cases ht'
              exact hadv hadv'
  · intro a t hga hgt hsucc
    have hcond : a.player.next = t.player ∧ g.is_adjacent src dst = true := by
      unfold Game.attack at hsucc
      rw [hga, hgt] at hsucc
      dsimp only at hsucc
      by_cases hadv : a.player.next = t.player
      · by_cases hadj : g.is_adjacent src dst = true
        · exact ⟨hadv, hadj⟩
        · rw [if_neg (by simp [hadv]), if_pos hadj] at hsucc; cases hsucc
      · rw [if_pos (by simp [hadv])] at hsucc; cases hsucc
    obtain ⟨hadv, hadj⟩ := hcond
    have hne : src ≠ dst := Game.attack_ne_of_adv hga hgt hadv
    obtain ⟨hth1, hth9⟩ := hInv dst t hgt
    obtain ⟨hah1, hah9⟩ := hInv src a hga
    -- reduce the attack to its success branch
    have hattack : (g.attack src dst).2.2 =
        (((((g.set dst (some (t.mod_health (-(a.damage_amount t))))).remove_dead dst)).set
          src (some (a.mod_health
            (-((t.mod_health (-(a.damage_amount t))).damage_amount a))))).remove_dead src) := by
      unfold Game.attack
      rw [hga, hgt]
      dsimp only
      rw [if_neg (by simp [hadv]), if_neg (by simp [hadj])]
    rw [hattack]
    set k1 : Int := (Unit.damage_table.getD a.type.value []).getD t.type.value 0 with hk1
    set k2 : Int := (Unit.damage_table.getD t.type.value []).getD a.type.value 0 with hk2
    have hk1n : 0 ≤ k1 := damage_table_entry_nonneg a.type t.type
    have hk2n : 0 ≤ k2 := damage_table_entry_nonneg t.type a.type
    have hdmg : a.damage_amount t = if t.health - k1 < 0 then t.health else k1 := by
      unfold Unit.damage_amount
      rw [← hk1]
    have ht' : t.mod_health (-(a.damage_amount t)) =
        { t with health := if t.health - k1 ≤ 0 then 0 else t.health - k1 } := by
      rw [hdmg]
      by_cases hc : t.health - k1 < 0
      · rw [if_pos hc, Unit.mod_health_eq_of_bounds (by omega) (by omega)]
        have : t.health + -t.health = 0 := by omega
        rw [this, if_pos (by omega)]
      · rw [if_neg hc, Unit.mod_health_eq_of_bounds (by omega) (by omega)]
        by_cases hc2 : t.health - k1 ≤ 0
        · have heq : t.health = k1 := by omega
          rw [if_pos hc2]
          have : t.health + -k1 = 0 := by omega
          rw [this]
        · rw [if_neg hc2]
          have : t.health + -k1 = t.health - k1 := by omega
          rw [this]
    have hdmgback : (t.mod_health (-(a.damage_amount t))).damage_amount a =
        if a.health - k2 < 0 then a.health else k2 := by
      unfold Unit.damage_amount
      rw [Unit.mod_health_type, ← hk2]
    have ha' : a.mod_health (-((t.mod_health (-(a.damage_amount t))).damage_amount a)) =
        { a with health := if a.health - k2 ≤ 0 then 0 else a.health - k2 } := by
      rw [hdmgback]
      by_cases hc : a.health - k2 < 0
      · rw [if_pos hc, Unit.mod_health_eq_of_bounds (by omega) (by omega)]
        have : a.health + -a.health = 0 := by omega
        rw [this, if_pos (by omega)]
      · rw [if_neg hc, Unit.mod_health_eq_of_bounds (by omega) (by omega)]
        by_cases hc2 : a.health - k2 ≤ 0
        · have heq : a.health = k2 := by omega
          rw [if_pos hc2]
          have : a.health + -k2 = 0 := by omega
          rw [this]
        · rw [if_neg hc2]
          have : a.health + -k2 = a.health - k2 := by omega
          rw [this]
    have hWF1 : ((g.set dst (some (t.mod_health (-(a.damage_amount t))))).remove_dead dst).WF :=
      Game.WF_remove_dead (g.WF_set hWF dst _) dst
    have hWF2 : (((g.set dst (some (t.mod_health (-(a.damage_amount t))))).remove_dead dst).set
        src (some (a.mod_health
          (-((t.mod_health (-(a.damage_amount t))).damage_amount a))))).WF :=
      Game.WF_set hWF1 src _
    constructor
    · -- the defender's cell
      rw [Game.get_remove_dead hWF2 src dst, if_neg (Ne.symm hne),
        Game.get_set hWF1, if_neg (by simp [Ne.symm hne]),
        Game.get_remove_dead (g.WF_set hWF dst _) dst dst, if_pos rfl,
        Game.get_set hWF, if_pos ⟨Game.valid_of_get_some hgt, rfl⟩, ht']
      by_cases hc : t.health - k1 ≤ 0
      · simp [hc, Unit.is_alive]
      · have hpos : t.health - k1 > 0 := by omega
        simp [hc, hpos, Unit.is_alive]
    · -- the attacker's cell
      have hval1 : (((g.set dst (some (t.mod_health (-(a.damage_amount t))))).remove_dead
          dst).is_valid_coord src) = g.is_valid_coord src :=
        congrFun (Game.is_valid_coord_congr (by simp)) src
      rw [Game.get_remove_dead hWF2 src src, if_pos rfl,
        Game.get_set hWF1, if_pos ⟨hval1 ▸ Game.valid_of_get_some hga, rfl⟩, ha']
      by_cases hc : a.health - k2 ≤ 0
      · simp [hc, Unit.is_alive]
      · have hpos : a.health - k2 > 0 := by omega
        simp [hc, hpos, Unit.is_alive]

set_option maxRecDepth 10000 in
/-- Witness for C4: on `meleeGame` the attacker Virus at (4,3) attacks the
defender Tech at (3,3); the Tech (health 5, Virus-on-Tech damage 6) dies
and is removed, the Virus takes the 6 points back and survives at 3. -/
theorem attack_requires_adversaries_and_damages_both_witness :
    (meleeGame.attack ⟨4, 3⟩ ⟨3, 3⟩).1 = true ∧
    (meleeGame.attack ⟨4, 3⟩ ⟨3, 3⟩).2.2.get ⟨3, 3⟩ = none ∧
    (meleeGame.attack ⟨4, 3⟩ ⟨3, 3⟩).2.2.get ⟨4, 3⟩
      = some { player := .Attacker, type := .Virus, health := 3 } := by
  have hWF : meleeGame.WF := Game.WF_set (newGame_WF_HealthInv {}).1 _ _
  have hInv : meleeGame.HealthInv :=
    Game.HealthInv_set_some (newGame_WF_HealthInv {}).1 (newGame_WF_HealthInv {}).2
      _ (by norm_num) (by norm_num)
  have h := attack_requires_adversaries_and_damages_both meleeGame hWF hInv ⟨4, 3⟩ ⟨3, 3⟩
  have hsucc : (meleeGame.attack ⟨4, 3⟩ ⟨3, 3⟩).1 = true := by
    apply h.1.2
    exact ⟨{ player := .Attacker, type := .Virus, health := 9 },
      { player := .Defender, type := .Tech, health := 5 },
      by decide, by decide, by decide, by decide⟩
  have h2 := h.2 { player := .Attacker, type := .Virus, health := 9 }
    { player := .Defender, type := .Tech, health := 5 }
    (by decide) (by decide) hsucc
  exact ⟨hsucc, h2.1.trans (by decide), h2.2.trans (by decide)⟩

/-! ### The repair action -/

theorem Unit.mod_health_eq_min {u : Unit} {d : Int} (h : 0 ≤ u.health + d) :
    u.mod_health d = { u with health := min (u.health + d) 9 } := by
  unfold Unit.mod_health
  dsimp only
  rw [if_neg (by omega)]
  split
  · congr 1; omega
  · congr 1; omega

theorem int_toString_length_one {h : Int} (h1 : 1 ≤ h) (h9 : h ≤ 9) :
    (toString h).length = 1 := by
  interval_cases h <;> rfl

theorem Unit.to_string_length {u : Unit} (h1 : 1 ≤ u.health) (h9 : u.health ≤ 9) :
    u.to_string.length = 3 := by
  unfold Unit.to_string
  rw [String.length_append, String.length_append]
  rw [int_toString_length_one h1 h9]
  cases u.player <;> cases u.type <;> rfl

theorem repairZeroMsg_ne_repairMaxMsg {r t t' : Unit}
    (hr1 : 1 ≤ r.health) (hr9 : r.health ≤ 9)
    (ht1 : 1 ≤ t.health) (ht9 : t.health ≤ 9)
    (ht1' : 1 ≤ t'.health) (ht9' : t'.health ≤ 9) :
    repairZeroMsg r t ≠ repairMaxMsg t' := by
  intro heq
  have hlen := congrArg String.length heq
  unfold repairZeroMsg repairMaxMsg at hlen
  simp only [String.length_append] at hlen
  rw [Unit.to_string_length hr1 hr9, Unit.to_string_length ht1 ht9,
    Unit.to_string_length ht1' ht9'] at hlen
  exact absurd hlen (by decide)

/-- C6: `repair` succeeds exactly when the cells are orthogonally adjacent,
hold units of the same owner, the repair-table entry is nonzero and the
target is below maximum health; on success the target gains the table
amount clamped at 9; on failure nothing is mutated, and the zero-table and
already-at-maximum rejections carry distinct reasons. -/
theorem repair_requires_friendly_adjacent_effective (g : Game)
    (hWF : g.WF) (hInv : g.HealthInv) (rc tc : Coord) :
    ((g.repair rc tc).1 = true ↔
      ∃ r t, g.get rc = some r ∧ g.get tc = some t ∧
        g.is_adjacent rc tc = true ∧ r.player = t.player ∧
        r.repair_amount t ≠ 0 ∧ t.health < 9) ∧
    (∀ r t, g.get rc = some r → g.get tc = some t →
      (g.repair rc tc).1 = true →
      (g.repair rc tc).2.2.get tc
        = some { t with health := min (t.health + r.repair_amount t) 9 }) ∧
    ((g.repair rc tc).1 = false → (g.repair rc tc).2.2 = g) ∧
    (∀ r t, g.get rc = some r → g.get tc = some t →
      g.is_adjacent rc tc = true → r.player = t.player →
      r.repair_amount t = 0 → (g.repair rc tc).2.1 = repairZeroMsg r t) ∧
    (∀ r t, g.get rc = some r → g.get tc = some t →
      g.is_adjacent rc tc = true → r.player = t.player →
      r.repair_amount t ≠ 0 → t.health = 9 →
      (g.repair rc tc).2.1 = repairMaxMsg t) ∧
    (∀ r t t', 1 ≤ r.health → r.health ≤ 9 → 1 ≤ t.health → t.health ≤ 9 →
      1 ≤ t'.health → t'.health ≤ 9 → repairZeroMsg r t ≠ repairMaxMsg t') := by
  refine ⟨?_, ?_, ?_, ?_, ?_, ?_⟩
  · unfold Game.repair
    by_cases hadj : g.is_adjacent rc tc = true
    · rw [if_neg (by simp [hadj])]
      cases hgr : g.get rc with
      | none => simp
      | some r =>
          cases hgt : g.get tc with
          | none => simp
          | some t =>
              dsimp only
              by_cases hp : r.player = t.player
              · rw [if_neg (by simp [hp])]
                by_cases hz : r.repair_amount t = 0
                · rw [if_pos hz]
                  simp only [Bool.false_eq_true, false_iff]
                  rintro ⟨r', t', hr', ht', _, _, hz', _⟩
                  cases hr'; cases ht'
                  exact hz' hz
                · rw [if_neg hz]
                  by_cases h9 : t.health = 9
                  · rw [if_pos h9]
                    simp only [Bool.false_eq_true, false_iff]
                    rintro ⟨r', t', hr', ht', _, _, _, h9'⟩
                    cases hr'; cases ht'
                    omega
                  · rw [if_neg h9]
                    simp only [true_iff]
                    have hb := hInv tc t hgt
                    exact ⟨r, t, rfl, rfl, hadj, hp, hz, by omega⟩
              · rw [if_pos (by simp [hp])]
                simp only [Bool.false_eq_true, false_iff]
                rintro ⟨r', t', hr', ht', _, hp', _, _⟩
                cases hr'; cases ht'
                exact hp hp'
    · rw [if_pos hadj]
      simp only [Bool.false_eq_true, false_iff]
      rintro ⟨r', t', _, _, hadj', _, _, _⟩
      exact hadj hadj'
  · intro r t hgr hgt hsucc
    have hcond : g.is_adjacent rc tc = true ∧ r.player = t.player ∧
        r.repair_amount t ≠ 0 ∧ t.health ≠ 9 := by
      unfold Game.repair at hsucc
      by_cases hadj : g.is_adjacent rc tc = true
      · rw [if_neg (by simp [hadj]), hgr, hgt] at hsucc
        dsimp only at hsucc
        by_cases hp : r.player = t.player
        · rw [if_neg (by simp [hp])] at hsucc
          by_cases hz : r.repair_amount t = 0
          · rw [if_pos hz] at hsucc; cases hsucc
          · rw [if_neg hz] at hsucc
            by_cases h9 : t.health = 9
            · rw [if_pos h9] at hsucc; cases hsucc
            · exact ⟨hadj, hp, hz, h9⟩
        · rw [if_pos (by simp [hp])] at hsucc; cases hsucc
      · rw [if_pos hadj] at hsucc; cases hsucc
    obtain ⟨hadj, hp, hz, h9⟩ := hcond
    have hrepair : (g.repair rc tc).2.2
        = g.set tc (some (t.mod_health (r.repair_amount t))) := by
      unfold Game.repair
      rw [if_neg (by simp [hadj]), hgr, hgt]
      dsimp only
      rw [if_neg (by simp [hp]), if_neg hz, if_neg h9]
    rw [hrepair, Game.get_set hWF, if_pos ⟨Game.valid_of_get_some hgt, rfl⟩,
      Unit.mod_health_eq_min]
    have := (hInv tc t hgt).1
    have := r.repair_amount_nonneg t
    omega
  · intro hfail
    unfold Game.repair at hfail ⊢
    by_cases hadj : g.is_adjacent rc tc = true
    · rw [if_neg (by simp [hadj])] at hfail ⊢
      cases hgr : g.get rc with
      | none => cases hgt : g.get tc <;> rfl
      | some r =>
          cases hgt : g.get tc with
          | none => rfl
          | some t =>
              rw [hgr, hgt] at hfail
              dsimp only at hfail ⊢
              by_cases hp : r.player = t.player
              · rw [if_neg (by simp [hp])] at hfail ⊢
                by_cases hz : r.repair_amount t = 0
                · rw [if_pos hz]
                · rw [if_neg hz] at hfail ⊢
                  by_cases h9 : t.health = 9
                  · rw [if_pos h9]
                  · rw [if_neg h9] at hfail; cases hfail
              · rw [if_pos (by simp [hp])]
    · rw [if_pos hadj]
  · intro r t hgr hgt hadj hp hz
    unfold Game.repair
    rw [if_neg (by simp [hadj]), hgr, hgt]
    dsimp only
    rw [if_neg (by simp [hp]), if_pos hz]
  · intro r t hgr hgt hadj hp hz h9
    unfold Game.repair
    rw [if_neg (by simp [hadj]), hgr, hgt]
    dsimp only
    rw [if_neg (by simp [hp]), if_neg hz, if_pos h9]
  · intro r t t' hr1 hr9 ht1 ht9 ht1' ht9'
    exact repairZeroMsg_ne_repairMaxMsg hr1 hr9 ht1 ht9 ht1' ht9'

set_option maxRecDepth 10000 in
/-- Witness for C6: on `repairGame` the defender AI at (0,0) repairs the
adjacent damaged defender Tech at (1,0); the AI heals the Tech by
`repair_table[0][1] = 1`, taking it from health 5 to 6. -/
theorem repair_requires_friendly_adjacent_effective_witness :
    (repairGame.repair ⟨0, 0⟩ ⟨1, 0⟩).1 = true ∧
    (repairGame.repair ⟨0, 0⟩ ⟨1, 0⟩).2.2.get ⟨1, 0⟩
      = some { player := .Defender, type := .Tech, health := 6 } := by
  have hWF : repairGame.WF := Game.WF_set (newGame_WF_HealthInv {}).1 _ _
  have hInv : repairGame.HealthInv :=
    Game.HealthInv_set_some (newGame_WF_HealthInv {}).1 (newGame_WF_HealthInv {}).2
      _ (by norm_num) (by norm_num)
  have h := repair_requires_friendly_adjacent_effective repairGame hWF hInv ⟨0, 0⟩ ⟨1, 0⟩
  have hsucc : (repairGame.repair ⟨0, 0⟩ ⟨1, 0⟩).1 = true := by
    apply h.1.2
    exact ⟨{ player := .Defender, type := .AI, health := 9 },
      { player := .Defender, type := .Tech, health := 5 },
      by decide, by decide, by decide, by decide, by decide, by decide⟩
  have h2 := h.2.1 { player := .Defender, type := .AI, health := 9 }
    { player := .Defender, type := .Tech, health := 5 }
    (by decide) (by decide) hsucc
  exact ⟨hsucc, h2.trans (by decide)⟩

/-! ### Movement legality -/

theorem List.exists_of_findSome?_eq_some {α β : Type _} {l : List α}
    {f : α → Option β} {b : β} (h : l.findSome? f = some b) :
    ∃ a ∈ l, f a = some b := by
  induction l with
  | nil => simp at h
  | cons x xs ih =>
      rw [List.findSome?_cons] at h
      cases hf : f x with
      | some y => rw [hf] at h; exact ⟨x, List.mem_cons_self x xs, hf.trans h⟩
      | none =>
          rw [hf] at h
          obtain ⟨a, ha, hfa⟩ := ih h
          exact ⟨a, List.mem_cons_of_mem x ha, hfa⟩

theorem Coord.mem_iter_adjacent {src c : Coord} :
    c ∈ src.iter_adjacent ↔
      (src.row - 1 ≥ 0 ∧ c = ⟨src.row - 1, src.col⟩) ∨
      (src.col - 1 ≥ 0 ∧ c = ⟨src.row, src.col - 1⟩) ∨
      (src.row + 1 < 5 ∧ c = ⟨src.row + 1, src.col⟩) ∨
      (src.col + 1 < 5 ∧ c = ⟨src.row, src.col + 1⟩) := by
  unfold Coord.iter_adjacent
  by_cases h1 : src.row - 1 ≥ 0 <;> by_cases h2 : src.col - 1 ≥ 0 <;>
    by_cases h3 : src.row + 1 < 5 <;> by_cases h4 : src.col + 1 < 5 <;>
    simp [h1, h2, h3, h4]

theorem Coord.adjacent_cases {src c : Coord}
    (h : (src.row - c.row).natAbs + (src.col - c.col).natAbs = 1) :
    c = ⟨src.row - 1, src.col⟩ ∨ c = ⟨src.row + 1, src.col⟩ ∨
      c = ⟨src.row, src.col - 1⟩ ∨ c = ⟨src.row, src.col + 1⟩ := by
  rcases c with ⟨r, cl⟩
  rcases src with ⟨sr, scl⟩
  simp only [Coord.mk.injEq] at *
  omega

/-- The engagement scan of `is_movement_valid` finds no enemy exactly when
no orthogonally adjacent cell holds an opponent unit — on the 5×5 board
matching the bounds hardcoded in `iter_adjacent`. -/
theorem Game.engagement_scan_none_iff {g : Game} (hdim : g.options.dim = 5)
    {src : Coord} :
    (src.iter_adjacent.findSome? (fun adj_coord =>
        match g.get adj_coord with
        | some adj_unit =>
            if adj_unit.player ≠ g.next_player then some adj_unit else none
        | none => none) = none) ↔
      (∀ c' a, g.is_adjacent src c' = true → g.get c' = some a →
        a.player = g.next_player) := by
  rw [List.findSome?_eq_none_iff]
  constructor
  · intro h c' a hadj hget
    by_contra hne
    have hval := Game.valid_of_get_some hget
    rw [Game.is_valid_coord_iff, hdim] at hval
    unfold Game.is_adjacent at hadj
    have hcases := Coord.adjacent_cases (of_decide_eq_true hadj)
    have hmem : c' ∈ src.iter_adjacent := by
      rw [Coord.mem_iter_adjacent]
      rcases hcases with h | h | h | h <;> subst h <;> dsimp only at hval ⊢
      · exact Or.inl ⟨by omega, rfl⟩
      · exact Or.inr (Or.inr (Or.inl ⟨by omega, rfl⟩))
      · exact Or.inr (Or.inl ⟨by omega, rfl⟩)
      · exact Or.inr (Or.inr (Or.inr ⟨by omega, rfl⟩))
    have := h c' hmem
    rw [hget] at this
    simp only [ne_eq, ite_eq_right_iff] at this
    exact hne (by
      by_contra hne2
      cases this hne2)
  · intro h c' hmem
    cases hget : g.get c' with
    | none => rfl
    | some a =>
        have hadj : g.is_adjacent src c' = true := by
          unfold Game.is_adjacent
          apply decide_eq_true
          rw [Coord.mem_iter_adjacent] at hmem
          rcases hmem with ⟨_, h⟩ | ⟨_, h⟩ | ⟨_, h⟩ | ⟨_, h⟩ <;> subst h <;>
            dsimp only <;> omega
        have := h c' a hadj hget
        simp [this]

theorem Game.perform_move_move_reject {g : Game} {mv : CoordPair} {u : Unit}
    {ok : Bool} {msg : String} (hsrc : g.get mv.src = some u)
    (hown : u.player = g.next_player) (hdst : g.get mv.dst = none)
    (hvdst : g.is_valid_coord mv.dst = true)
    (hmv : g.is_movement_valid mv = some (ok, msg)) (hok : ok = false) :
    g.perform_move mv = some (false, msg, g) := by
  subst hok
  unfold Game.perform_move
  have hne : mv.src ≠ mv.dst := by
    intro h; rw [h, hdst] at hsrc; cases hsrc
  rw [if_neg hne, hdst]
  dsimp only
  rw [if_pos (Game.is_valid_move_fst.2
    ⟨Game.valid_of_get_some hsrc, hvdst, u, hsrc, hown⟩), hmv]
  rfl

/-- C5: on the 5×5 board, a move action (own unit at the source, empty
in-bounds destination) is accepted exactly when — for AI, Firewall and
Program — the destination is one step in an owner-permitted direction
(Attacker up/left, Defender down/right) and no orthogonally adjacent cell
holds an enemy unit, and — for Virus and Tech — the destination is any one
of the four orthogonal neighbours; a rejection reports a reason and
`perform_move` leaves the state unchanged. -/
theorem movement_rules (g : Game) (hdim : g.options.dim = 5) (mv : CoordPair)
    (u : Unit) (hsrc : g.get mv.src = some u) (hown : u.player = g.next_player)
    (hdst : g.get mv.dst = none) (hvdst : g.is_valid_coord mv.dst = true) :
    ∃ ok msg, g.is_movement_valid mv = some (ok, msg) ∧
      (ok = true ↔
        (if u.type = .AI ∨ u.type = .Firewall ∨ u.type = .Program then
          ((u.player = .Attacker ∧
              (mv.dst = ⟨mv.src.row - 1, mv.src.col⟩ ∨
               mv.dst = ⟨mv.src.row, mv.src.col - 1⟩)) ∨
           (u.player = .Defender ∧
              (mv.dst = ⟨mv.src.row + 1, mv.src.col⟩ ∨
               mv.dst = ⟨mv.src.row, mv.src.col + 1⟩))) ∧
          (∀ c' a, g.is_adjacent mv.src c' = true → g.get c' = some a →
            a.player = u.player)
        else
          (mv.dst = ⟨mv.src.row + 1, mv.src.col⟩ ∨
           mv.dst = ⟨mv.src.row, mv.src.col + 1⟩ ∨
           mv.dst = ⟨mv.src.row - 1, mv.src.col⟩ ∨
           mv.dst = ⟨mv.src.row, mv.src.col - 1⟩))) ∧
      (ok = false → g.perform_move mv = some (false, msg, g)) := by
  have hengaged : ∀ {c' : Coord} {a : Unit}, c' ∈ mv.src.iter_adjacent →
      g.get c' = some a → ¬ a.player = g.next_player →
      ¬ ((∀ c'' b, g.is_adjacent mv.src c'' = true → g.get c'' = some b →
          b.player = u.player)) := by
    intro c' a hmem hget hne hnoe
    have hadj : g.is_adjacent mv.src c' = true := by
      unfold Game.is_adjacent
      apply decide_eq_true
      rw [Coord.mem_iter_adjacent] at hmem
      rcases hmem with ⟨_, h⟩ | ⟨_, h⟩ | ⟨_, h⟩ | ⟨_, h⟩ <;> subst h <;>
        dsimp only <;> omega
    exact hne ((hnoe c' a hadj hget).trans hown)
  by_cases htype : u.type = .AI ∨ u.type = .Firewall ∨ u.type = .Program
  · by_cases hp : u.player = .Attacker
    · by_cases hdir : mv.dst = Coord.mk (mv.src.row - 1) mv.src.col ∨
            mv.dst = Coord.mk mv.src.row (mv.src.col - 1)
      · cases hfind : mv.src.iter_adjacent.findSome? (fun adj_coord =>
            match g.get adj_coord with
            | some adj_unit =>
                if adj_unit.player ≠ g.next_player then some adj_unit else none
            | none => none) with
        | some adj_unit =>
            have hmv : g.is_movement_valid mv = some (false,
                "Invalid move attempt: " ++ u.to_string ++
                  " is engaged in battle with " ++ adj_unit.to_string ++ "!\n") := by
              unfold Game.is_movement_valid
              rw [hsrc]
              dsimp only
              rw [if_pos htype, if_neg (by simp [hdir]), if_neg (by simp [hp]), hfind]
            refine ⟨false, _, hmv, ?_,
              fun _ => Game.perform_move_move_reject hsrc hown hdst hvdst hmv rfl⟩
            simp only [Bool.false_eq_true, false_iff, if_pos htype]
            rintro ⟨_, hnoe⟩
            obtain ⟨c', hmem, hf⟩ := List.exists_of_findSome?_eq_some hfind
            cases hget : g.get c' with
            | none => rw [hget] at hf; cases hf
            | some a =>
                rw [hget] at hf
                dsimp only at hf
                split at hf
                · exact hengaged hmem hget (by assumption) hnoe
                · cases hf
        | none =>
            have hmv : g.is_movement_valid mv = some (true,
                u.to_string ++ " at " ++ mv.src.to_string ++
                  " moved to " ++ mv.dst.to_string) := by
              unfold Game.is_movement_valid
              rw [hsrc]
              dsimp only
              rw [if_pos htype, if_neg (by simp [hdir]), if_neg (by simp [hp]),
                hfind, hdst]
            refine ⟨true, _, hmv, ?_, by intro h; cases h⟩
            simp only [true_iff, if_pos htype]
            refine ⟨Or.inl ⟨hp, hdir⟩, ?_⟩
            intro c' a hadj hget
            rw [hown]
            exact (Game.engagement_scan_none_iff hdim).1 hfind c' a hadj hget
      · have hmv : g.is_movement_valid mv = some (false,
            "Invalid move attempt: " ++ u.to_string ++
              " can only move up or left by one!\n") := by
          unfold Game.is_movement_valid
          rw [hsrc]
          dsimp only
          rw [if_pos htype, if_pos (by exact ⟨hp, hdir⟩)]
        refine ⟨false, _, hmv, ?_,
          fun _ => Game.perform_move_move_reject hsrc hown hdst hvdst hmv rfl⟩
        simp only [Bool.false_eq_true, false_iff, if_pos htype]
        rintro ⟨hdir2, _⟩
        rcases hdir2 with ⟨_, hd⟩ | ⟨hq, _⟩
        · exact hdir hd
        · rw [hp] at hq; cases hq
    · have hpd : u.player = .Defender := by
        cases hc : u.player
        · exact absurd hc hp
        · rfl
      by_cases hdir : mv.dst = Coord.mk (mv.src.row + 1) mv.src.col ∨
          mv.dst = Coord.mk mv.src.row (mv.src.col + 1)
      · cases hfind : mv.src.iter_adjacent.findSome? (fun adj_coord =>
            match g.get adj_coord with
            | some adj_unit =>
                if adj_unit.player ≠ g.next_player then some adj_unit else none
            | none => none) with
        | some adj_unit =>
            have hmv : g.is_movement_valid mv = some (false,
                "Invalid move attempt: " ++ u.to_string ++
                  " is engaged in battle with " ++ adj_unit.to_string ++ "!\n") := by
              unfold Game.is_movement_valid
              rw [hsrc]
              dsimp only
              rw [if_pos htype, if_neg (by simp [hp]), if_neg (by simp [hdir]), hfind]
            refine ⟨false, _, hmv, ?_,
              fun _ => Game.perform_move_move_reject hsrc hown hdst hvdst hmv rfl⟩
            simp only [Bool.false_eq_true, false_iff, if_pos htype]
            rintro ⟨_, hnoe⟩
            obtain ⟨c', hmem, hf⟩ := List.exists_of_findSome?_eq_some hfind
            cases hget : g.get c' with
            | none => rw [hget] at hf; cases hf
            | some a =>
                rw [hget] at hf
                dsimp only at hf
                split at hf
                · exact hengaged hmem hget (by assumption) hnoe
                · cases hf
        | none =>
            have hmv : g.is_movement_valid mv = some (true,
                u.to_string ++ " at " ++ mv.src.to_string ++
                  " moved to " ++ mv.dst.to_string) := by
              unfold Game.is_movement_valid
              rw [hsrc]
              dsimp only
              rw [if_pos htype, if_neg (by simp [hp]), if_neg (by simp [hdir]),
                hfind, hdst]
            refine ⟨true, _, hmv, ?_, by intro h; cases h⟩
            simp only [true_iff, if_pos htype]
            refine ⟨Or.inr ⟨hpd, hdir⟩, ?_⟩
            intro c' a hadj hget
            rw [hown]
            exact (Game.engagement_scan_none_iff hdim).1 hfind c' a hadj hget
      · have hmv : g.is_movement_valid mv = some (false,
            "Invalid move attempt: " ++ u.to_string ++
              " can only move down or right by one!\n") := by
          unfold Game.is_movement_valid
          rw [hsrc]
          dsimp only
          rw [if_pos htype, if_neg (by simp [hp]), if_pos (by exact ⟨hp, hdir⟩)]
        refine ⟨false, _, hmv, ?_,
          fun _ => Game.perform_move_move_reject hsrc hown hdst hvdst hmv rfl⟩
        simp only [Bool.false_eq_true, false_iff, if_pos htype]
        rintro ⟨hdir2, _⟩
        rcases hdir2 with ⟨hq, _⟩ | ⟨_, hd⟩
        · exact absurd hq hp
        · exact hdir hd
  · by_cases hdir : mv.dst = Coord.mk (mv.src.row + 1) mv.src.col ∨
        mv.dst = Coord.mk mv.src.row (mv.src.col + 1) ∨
        mv.dst = Coord.mk (mv.src.row - 1) mv.src.col ∨
        mv.dst = Coord.mk mv.src.row (mv.src.col - 1)
    · have hmv : g.is_movement_valid mv = some (true,
          u.to_string ++ " at " ++ mv.src.to_string ++
            " moved to " ++ mv.dst.to_string) := by
        unfold Game.is_movement_valid
        rw [hsrc]
        dsimp only
        rw [if_neg htype, if_neg (by simp [hdir]), hdst]
      refine ⟨true, _, hmv, ?_, by intro h; cases h⟩
      simp only [true_iff, if_neg htype]
      exact hdir
    · have hmv : g.is_movement_valid mv = some (false,
          "Invalid move attempt: " ++ u.to_string ++
            " can only move left, up, right or down by one!\n") := by
        unfold Game.is_movement_valid
        rw [hsrc]
        dsimp only
        rw [if_neg htype, if_pos hdir]
      refine ⟨false, _, hmv, ?_,
        fun _ => Game.perform_move_move_reject hsrc hown hdst hvdst hmv rfl⟩
      simp only [Bool.false_eq_true, false_iff, if_neg htype]
      exact hdir

set_option maxRecDepth 10000 in
/-- Witness for C5: on the initial board the attacker Program at (2,4) may
not move to the empty in-bounds cell (0,3) — it is no one-step up/left
destination — and `perform_move` rejects with the direction message,
leaving the game unchanged. -/
theorem movement_rules_witness :
    initialGame.perform_move ⟨⟨2, 4⟩, ⟨0, 3⟩⟩ = some (false,
      "Invalid move attempt: aP9 can only move up or left by one!\n", initialGame) := by
  obtain ⟨ok, msg, hmv, hiff, hrej⟩ := movement_rules initialGame rfl ⟨⟨2, 4⟩, ⟨0, 3⟩⟩
    { player := .Attacker, type := .Program, health := 9 }
    (by decide) (by decide) (by decide) (by decide)
  have hok : ok = false := by
    cases hokv : ok
    · rfl
    · exfalso
      have h2 := hiff.1 hokv
      rw [if_pos (by decide)] at h2
      obtain ⟨hdir2, _⟩ := h2
      revert hdir2
      decide
  have hcomp : initialGame.is_movement_valid ⟨⟨2, 4⟩, ⟨0, 3⟩⟩ = some (false,
      "Invalid move attempt: aP9 can only move up or left by one!\n") := by decide
  rw [hmv, hok] at hcomp
  have hmsg : msg = "Invalid move attempt: aP9 can only move up or left by one!\n" :=
    (Prod.mk.injEq _ _ _ _ ▸ Option.some.inj hcomp).2
  rw [← hmsg]
  exact hrej hok

/-! ### Self-destruct -/

theorem intRange_three (a : Int) : intRange a (a + 3) = [a, a + 1, a + 2] := by
  unfold intRange
  have h3 : (a + 3 - a).toNat = 3 := by omega
  rw [h3]
  simp [List.range_succ]

theorem Coord.iter_range_one_eq (c : Coord) :
    c.iter_range 1 =
      [⟨c.row - 1, c.col - 1⟩, ⟨c.row - 1, c.col⟩, ⟨c.row - 1, c.col + 1⟩,
       ⟨c.row, c.col - 1⟩, ⟨c.row, c.col⟩, ⟨c.row, c.col + 1⟩,
       ⟨c.row + 1, c.col - 1⟩, ⟨c.row + 1, c.col⟩, ⟨c.row + 1, c.col + 1⟩] := by
  unfold Coord.iter_range
  have hr : c.row + 1 + 1 = (c.row - 1) + 3 := by omega
  have hc : c.col + 1 + 1 = (c.col - 1) + 3 := by omega
  rw [hr, hc, intRange_three, intRange_three]
  simp only [List.flatMap_cons, List.flatMap_nil, List.map_cons, List.map_nil,
    List.append_nil, List.cons_append, List.nil_append]
  norm_num
  omega

theorem Coord.mem_iter_range_one {c c' : Coord} :
    c' ∈ c.iter_range 1 ↔
      (c.row - c'.row).natAbs ≤ 1 ∧ (c.col - c'.col).natAbs ≤ 1 := by
  rw [Coord.iter_range_one_eq]
  rcases c with ⟨r, cl⟩
  rcases c' with ⟨r', cl'⟩
  simp only [List.mem_cons, List.not_mem_nil, or_false, Coord.mk.injEq]
  omega

theorem Coord.iter_range_one_nodup (c : Coord) : (c.iter_range 1).Nodup := by
  rw [Coord.iter_range_one_eq]
  simp only [List.nodup_cons, List.mem_cons, List.not_mem_nil, or_false,
    Coord.mk.injEq, List.nodup_nil, and_true, not_or, true_and]
  and_intros <;> intro h <;> first | exact h.elim | omega

theorem Game.blast_foldl_options (L : List Coord) (g0 : Game) :
    (L.foldl (fun acc x =>
      if acc.is_valid_coord x then acc.mod_health x (-2) else acc) g0).options
      = g0.options := by
  induction L generalizing g0 with
  | nil => rfl
  | cons x L' ih =>
      rw [List.foldl_cons]
      by_cases hv : g0.is_valid_coord x = true
      · rw [if_pos hv, ih]; simp
      · rw [if_neg hv, ih]

theorem Game.blast_foldl_WF (L : List Coord) {g0 : Game} (hWF : g0.WF) :
    (L.foldl (fun acc x =>
      if acc.is_valid_coord x then acc.mod_health x (-2) else acc) g0).WF := by
  induction L generalizing g0 with
  | nil => exact hWF
  | cons x L' ih =>
      rw [List.foldl_cons]
      by_cases hv : g0.is_valid_coord x = true
      · rw [if_pos hv]; exact ih (Game.WF_mod_health hWF x _)
      · rw [if_neg hv]; exact ih hWF

theorem Game.blast_foldl_get_not_mem (L : List Coord) {g0 : Game} (hWF : g0.WF)
    {c0 : Coord} (hnot : c0 ∉ L) :
    (L.foldl (fun acc x =>
      if acc.is_valid_coord x then acc.mod_health x (-2) else acc) g0).get c0
      = g0.get c0 := by
  induction L generalizing g0 with
  | nil => rfl
  | cons x L' ih =>
      rw [List.foldl_cons]
      have hne : c0 ≠ x := fun h => hnot (h ▸ List.mem_cons_self x L')
      have hnot' : c0 ∉ L' := fun h => hnot (List.mem_cons_of_mem x h)
      by_cases hv : g0.is_valid_coord x = true
      · rw [if_pos hv, ih (Game.WF_mod_health hWF x _) hnot',
          Game.get_mod_health hWF, if_neg hne]
      · rw [if_neg hv]
        exact ih hWF hnot'

theorem Game.blast_step_get_self {g0 : Game} (hWF : g0.WF) (x : Coord) :
    (if g0.is_valid_coord x then g0.mod_health x (-2) else g0).get x
      = blastCell (g0.get x) := by
  by_cases hv : g0.is_valid_coord x = true
  · rw [if_pos hv, Game.get_mod_health hWF, if_pos rfl]
    cases hg : g0.get x with
    | none => rfl
    | some u => rfl
  · rw [if_neg hv, Game.get_none_of_invalid hv]
    rfl

theorem Game.blast_foldl_get_mem (L : List Coord) {g0 : Game} (hWF : g0.WF)
    (hnd : L.Nodup) {c0 : Coord} (hmem : c0 ∈ L) :
    (L.foldl (fun acc x =>
      if acc.is_valid_coord x then acc.mod_health x (-2) else acc) g0).get c0
      = blastCell (g0.get c0) := by
  induction L generalizing g0 with
  | nil => cases hmem
  | cons x L' ih =>
      rw [List.foldl_cons]
      rw [List.nodup_cons] at hnd
      by_cases hx : c0 = x
      · subst hx
        have hstep := Game.blast_step_get_self hWF c0
        have hWF' : (if g0.is_valid_coord c0 = true
            then g0.mod_health c0 (-2) else g0).WF := by
          split
          · exact Game.WF_mod_health hWF c0 _
          · exact hWF
        rw [Game.blast_foldl_get_not_mem L' hWF' hnd.1, hstep]
      · have hmem' : c0 ∈ L' := by
          rcases List.mem_cons.1 hmem with h | h
          · exact absurd h hx
          · exact h
        by_cases hv : g0.is_valid_coord x = true
        · rw [if_pos hv]
          rw [ih (Game.WF_mod_health hWF x _) hnd.2 hmem',
            Game.get_mod_health hWF, if_neg hx]
        · rw [if_neg hv]
          exact ih hWF hnd.2 hmem'

/-- C3 (amended): `perform_move` with `src = dst = c` raises an uncaught
`AttributeError` (modelled as `none`) exactly when `c` is empty; it succeeds
exactly when `c` holds a living unit — of either player, no ownership check
is made; on success every cell of the 3×3 neighbourhood of `c` within
Chebyshev distance 1 takes 2 clamped damage with dead units removed
(`blastCell`), cells outside are untouched, and `c` itself is cleared
unconditionally. -/
theorem self_destruct_semantics (g : Game) (hWF : g.WF) (c : Coord) :
    (g.perform_move ⟨c, c⟩ = none ↔ g.get c = none) ∧
    ((∃ msg g', g.perform_move ⟨c, c⟩ = some (true, msg, g')) ↔
      (∃ u, g.get c = some u ∧ u.is_alive = true)) ∧
    (∀ msg g', g.perform_move ⟨c, c⟩ = some (true, msg, g') →
      (g'.get c = none ∧
       (∀ c', c' ≠ c → (c.row - c'.row).natAbs ≤ 1 → (c.col - c'.col).natAbs ≤ 1 →
         g'.get c' = blastCell (g.get c')) ∧
       (∀ c', ¬ ((c.row - c'.row).natAbs ≤ 1 ∧ (c.col - c'.col).natAbs ≤ 1) →
         g'.get c' = g.get c'))) := by
  have hpm : g.perform_move ⟨c, c⟩ = g.self_destruct c := by
    unfold Game.perform_move
    rw [if_pos rfl]
  rw [hpm]
  unfold Game.self_destruct
  cases hget : g.get c with
  | none =>
      refine ⟨by simp [hget], ?_, ?_⟩
      · constructor
        · rintro ⟨msg, g', h⟩; cases h
        · rintro ⟨u, hu, _⟩; cases hu
      · intro msg g' h; cases h
  | some u =>
      dsimp only
      have hg1b : (if u.type = .AI then g.is_ai_self_destruct u.player else g).board
          = g.board := by
        split
        · unfold Game.is_ai_self_destruct; split <;> rfl
        · rfl
      have hg1o : (if u.type = .AI then g.is_ai_self_destruct u.player else g).options
          = g.options := by
        split
        · unfold Game.is_ai_self_destruct; split <;> rfl
        · rfl
      have hg1get : (if u.type = .AI then g.is_ai_self_destruct u.player else g).get
          = g.get := Game.get_congr hg1b hg1o
      have hg1WF : (if u.type = .AI then g.is_ai_self_destruct u.player else g).WF :=
        Game.WF_congr hg1b hg1o hWF
      by_cases halive : u.is_alive = true
      · rw [if_neg (by simp [halive])]
        refine ⟨by simp, ?_, ?_⟩
        · exact ⟨fun _ => ⟨u, rfl, halive⟩, fun _ => ⟨_, _, rfl⟩⟩
        · intro msg g' h
          have hg' : g' = (((if u.type = .AI then g.is_ai_self_destruct u.player
              else g) |> (fun g1 => (c.iter_range 1).foldl
                (fun acc adjacent_coord =>
                  if acc.is_valid_coord adjacent_coord
                  then acc.mod_health adjacent_coord (-2) else acc) g1))).set c none := by
            have := Option.some.inj h
            exact (congrArg (fun r => r.2.2) this).symm
          subst hg'
          set g1 := if u.type = .AI then g.is_ai_self_destruct u.player else g with hg1
          set g2 := (c.iter_range 1).foldl
            (fun acc adjacent_coord =>
              if acc.is_valid_coord adjacent_coord
              then acc.mod_health adjacent_coord (-2) else acc) g1 with hg2
          have hWF2 : g2.WF := Game.blast_foldl_WF _ hg1WF
          have hval : g.is_valid_coord c = true := Game.valid_of_get_some hget
          have hval2 : g2.is_valid_coord c = true := by
            have ho2 : g2.options = g.options := by
              rw [hg2, Game.blast_foldl_options, hg1o]
            rw [congrFun (Game.is_valid_coord_congr ho2) c]
            exact hval
          refine ⟨?_, ?_, ?_⟩
          · rw [Game.get_set hWF2, if_pos ⟨hval2, rfl⟩]
          · intro c' hne h1 h2
            rw [Game.get_set hWF2, if_neg (by simp [hne]), hg2,
              Game.blast_foldl_get_mem _ hg1WF (c.iter_range_one_nodup)
                (Coord.mem_iter_range_one.2 ⟨h1, h2⟩),
              congrFun hg1get c']
          · intro c' hfar
            have hne : c' ≠ c := by
              intro hcc
              subst hcc
              exact hfar ⟨by simp, by simp⟩
            rw [Game.get_set hWF2, if_neg (by simp [hne]), hg2,
              Game.blast_foldl_get_not_mem _ hg1WF
                (fun hmem => hfar (Coord.mem_iter_range_one.1 hmem)),
              congrFun hg1get c']
      · rw [if_pos (by simp [halive])]
        refine ⟨by simp, ?_, ?_⟩
        · constructor
          · rintro ⟨msg, g', h⟩
            cases Option.some.inj h
          · rintro ⟨u', hu', halive'⟩
            injection hu' with hu2
            subst hu2
            exact absurd halive' halive
        · intro msg g' h
          cases (Prod.mk.injEq _ _ _ _ ▸ Option.some.inj h).1

set_option maxRecDepth 10000 in
/-- Counterexample to C3 as stated: on the initial board, with the Attacker
to act, `perform_move` at the Defender-owned cell (0,0) succeeds — an
opponent unit can be self-destructed, no ownership check is made — and at
the empty cell (2,2) the call raises (modelled `none`) instead of
returning a rejection. -/
theorem self_destruct_semantics_counterexample :
    initialGame.next_player = Player.Attacker ∧
    initialGame.get ⟨0, 0⟩ = some { player := .Defender, type := .AI, health := 9 } ∧
    (initialGame.perform_move ⟨⟨0, 0⟩, ⟨0, 0⟩⟩).map (fun r => r.1) = some true ∧
    initialGame.get ⟨2, 2⟩ = none ∧
    initialGame.perform_move ⟨⟨2, 2⟩, ⟨2, 2⟩⟩ = none := by
  exact ⟨rfl, by decide, by decide, by decide, by decide⟩

set_option maxRecDepth 10000 in
/-- Witness for C3 (amended): the attacker AI at (4,4) of the initial board
self-destructs; the success branch applies, the AI cell is cleared and its
neighbour (3,3) takes the 2-point blast. -/
theorem self_destruct_semantics_witness :
    (initialGame.perform_move ⟨⟨4, 4⟩, ⟨4, 4⟩⟩).map
        (fun r => (r.1, r.2.2.get ⟨4, 4⟩, r.2.2.get ⟨3, 3⟩))
      = some (true, none, blastCell (initialGame.get ⟨3, 3⟩)) := by
  have h := self_destruct_semantics initialGame (newGame_WF_HealthInv {}).1 ⟨4, 4⟩
  obtain ⟨msg, g', hpm⟩ := h.2.1.2
    ⟨{ player := .Attacker, type := .AI, health := 9 }, by decide, by decide⟩
  obtain ⟨hc, hblast, _⟩ := h.2.2 msg g' hpm
  rw [hpm]
  dsimp only [Option.map]
  rw [hc, hblast ⟨3, 3⟩ (by decide) (by decide) (by decide)]

/-! ### Unit counting and the `has_ai` bookkeeping -/

theorem cuStep_eq (ut : UnitType) (p : Player) (a : Int) (cell : Option Unit) :
    cuStep ut p a cell = a + cellVal ut p cell := by
  cases cell with
  | none => simp [cuStep, cellVal]
  | some u =>
      dsimp only [cuStep, cellVal]
      by_cases h : u.type = ut ∧ u.player = p
      · simp [h]
      · simp [h]

theorem cellVal_nonneg (ut : UnitType) (p : Player) (cell : Option Unit) :
    0 ≤ cellVal ut p cell := by
  cases cell with
  | none => simp [cellVal]
  | some u => unfold cellVal; split <;> omega

theorem cuRow_shift (ut : UnitType) (p : Player) (row : List (Option Unit)) (acc : Int) :
    row.foldl (cuStep ut p) acc = acc + row.foldl (cuStep ut p) 0 := by
  induction row generalizing acc with
  | nil => simp
  | cons cell rest ih =>
      rw [List.foldl_cons, List.foldl_cons, ih, ih (cuStep ut p 0 cell),
        cuStep_eq, cuStep_eq]
      omega

theorem cuRow_nonneg (ut : UnitType) (p : Player) (row : List (Option Unit)) :
    0 ≤ row.foldl (cuStep ut p) 0 := by
  induction row with
  | nil => simp
  | cons cell rest ih =>
      rw [List.foldl_cons, cuRow_shift, cuStep_eq]
      have := cellVal_nonneg ut p cell
      omega

theorem cuRow_set (ut : UnitType) (p : Player) (row : List (Option Unit))
    (i : Nat) (x : Option Unit) (h : i < row.length) :
    (row.set i x).foldl (cuStep ut p) 0
      = row.foldl (cuStep ut p) 0 - cellVal ut p row[i] + cellVal ut p x := by
  induction row generalizing i with
  | nil => simp at h
  | cons cell rest ih =>
      cases i with
      | zero =>
          simp only [List.set_cons_zero, List.foldl_cons, List.getElem_cons_zero]
          rw [cuRow_shift, cuRow_shift ut p rest (cuStep ut p 0 cell),
            cuStep_eq, cuStep_eq]
          omega
      | succ i' =>
          simp only [List.set_cons_succ, List.foldl_cons, List.getElem_cons_succ]
          rw [cuRow_shift, cuRow_shift ut p rest (cuStep ut p 0 cell),
            ih i' (by simpa using h)]
          omega

theorem cuRow_ge_cell (ut : UnitType) (p : Player) (row : List (Option Unit))
    (i : Nat) (h : i < row.length) :
    cellVal ut p row[i] ≤ row.foldl (cuStep ut p) 0 := by
  induction row generalizing i with
  | nil => simp at h
  | cons cell rest ih =>
      rw [List.foldl_cons, cuRow_shift, cuStep_eq]
      cases i with
      | zero =>
          simp only [List.getElem_cons_zero]
          have := cuRow_nonneg ut p rest
          omega
      | succ i' =>
          simp only [List.getElem_cons_succ]
          have := ih i' (by simpa using h)
          have := cellVal_nonneg ut p cell
          omega

theorem cuBoard_shift (ut : UnitType) (p : Player)
    (rows : List (List (Option Unit))) (acc : Int) :
    rows.foldl (fun acc row => row.foldl (cuStep ut p) acc) acc
      = acc + rows.foldl (fun acc row => row.foldl (cuStep ut p) acc) 0 := by
  induction rows generalizing acc with
  | nil => simp
  | cons row rest ih =>
      rw [List.foldl_cons, List.foldl_cons, ih, ih (List.foldl (cuStep ut p) 0 row),
        cuRow_shift]
      omega

theorem cuBoard_nonneg (ut : UnitType) (p : Player)
    (rows : List (List (Option Unit))) :
    0 ≤ rows.foldl (fun acc row => row.foldl (cuStep ut p) acc) 0 := by
  induction rows with
  | nil => simp
  | cons row rest ih =>
      rw [List.foldl_cons, cuBoard_shift, cuRow_shift]
      have := cuRow_nonneg ut p row
      omega

theorem cuBoard_set (ut : UnitType) (p : Player) (rows : List (List (Option Unit)))
    (i : Nat) (x : List (Option Unit)) (h : i < rows.length) :
    (rows.set i x).foldl (fun acc row => row.foldl (cuStep ut p) acc) 0
      = rows.foldl (fun acc row => row.foldl (cuStep ut p) acc) 0
        - rows[i].foldl (cuStep ut p) 0 + x.foldl (cuStep ut p) 0 := by
  induction rows generalizing i with
  | nil => simp at h
  | cons row rest ih =>
      cases i with
      | zero =>
          simp only [List.set_cons_zero, List.foldl_cons, List.getElem_cons_zero]
          rw [cuBoard_shift, cuBoard_shift ut p rest (List.foldl (cuStep ut p) 0 row),
            cuRow_shift, cuRow_shift ut p x 0]
          omega
      | succ i' =>
          simp only [List.set_cons_succ, List.foldl_cons, List.getElem_cons_succ]
          rw [cuBoard_shift, cuBoard_shift ut p rest (List.foldl (cuStep ut p) 0 row),
            ih i' (by simpa using h)]
          omega

theorem cuBoard_ge_row (ut : UnitType) (p : Player)
    (rows : List (List (Option Unit))) (i : Nat) (h : i < rows.length) :
    rows[i].foldl (cuStep ut p) 0
      ≤ rows.foldl (fun acc row => row.foldl (cuStep ut p) acc) 0 := by
  induction rows generalizing i with
  | nil => simp at h
  | cons row rest ih =>
      rw [List.foldl_cons, cuBoard_shift, cuRow_shift]
      cases i with
      | zero =>
          simp only [List.getElem_cons_zero]
          have := cuBoard_nonneg ut p rest
          omega
      | succ i' =>
          simp only [List.getElem_cons_succ]
          have := ih i' (by simpa using h)
          have := cuRow_nonneg ut p row
          omega

theorem Game.count_units_congr {g₁ g₂ : Game} (hb : g₁.board = g₂.board)
    (ut : UnitType) (p : Player) : g₁.count_units ut p = g₂.count_units ut p := by
  unfold Game.count_units
  rw [hb]

theorem Game.count_units_set {g : Game} (hWF : g.WF) {c : Coord}
    (hval : g.is_valid_coord c = true) (v : Option Unit) (ut : UnitType) (p : Player) :
    (g.set c v).count_units ut p
      = g.count_units ut p - cellVal ut p (g.get c) + cellVal ut p v := by
  obtain ⟨hlen, hrows⟩ := hWF
  obtain ⟨hr0, hr1, hc0, hc1⟩ := (g.is_valid_coord_iff c).1 hval
  have hrlt : c.row.toNat < g.board.length := by rw [hlen]; omega
  have hrow : g.board.getD c.row.toNat [] = g.board[c.row.toNat] := by
    rw [List.getD_eq_getElem?_getD, List.getElem?_eq_getElem hrlt]; rfl
  have hrowlen : (g.board[c.row.toNat]).length = g.options.dim.toNat :=
    hrows _ (List.getElem_mem hrlt)
  have hcllt : c.col.toNat < (g.board[c.row.toNat]).length := by
    rw [hrowlen]; omega
  have hget : g.get c = (g.board[c.row.toNat])[c.col.toNat] := by
    rw [Game.get_def, if_pos hval, hrow, List.getD_eq_getElem?_getD,
      List.getElem?_eq_getElem hcllt]
    rfl
  unfold Game.count_units
  rw [Game.set_board_of_valid v hval, hrow]
  rw [cuBoard_set ut p g.board c.row.toNat _ hrlt,
    cuRow_set ut p _ c.col.toNat v hcllt, hget]
  omega

theorem Game.count_units_pos {g : Game} (hWF : g.WF) {c : Coord} {u : Unit}
    (hget : g.get c = some u) (ht : u.type = ut) (hp : u.player = p) :
    1 ≤ g.count_units ut p := by
  obtain ⟨hlen, hrows⟩ := hWF
  have hval := Game.valid_of_get_some hget
  obtain ⟨hr0, hr1, hc0, hc1⟩ := (g.is_valid_coord_iff c).1 hval
  have hrlt : c.row.toNat < g.board.length := by rw [hlen]; omega
  have hrow : g.board.getD c.row.toNat [] = g.board[c.row.toNat] := by
    rw [List.getD_eq_getElem?_getD, List.getElem?_eq_getElem hrlt]; rfl
  have hrowlen : (g.board[c.row.toNat]).length = g.options.dim.toNat :=
    hrows _ (List.getElem_mem hrlt)
  have hcllt : c.col.toNat < (g.board[c.row.toNat]).length := by
    rw [hrowlen]; omega
  have hget2 : (g.board[c.row.toNat])[c.col.toNat] = some u := by
    rw [Game.get_def, if_pos hval, hrow, List.getD_eq_getElem?_getD,
      List.getElem?_eq_getElem hcllt] at hget
    exact hget
  have h1 : cellVal ut p ((g.board[c.row.toNat])[c.col.toNat]) = 1 := by
    rw [hget2]
    dsimp only [cellVal]
    rw [if_pos ⟨ht, hp⟩]
  have h2 := cuRow_ge_cell ut p (g.board[c.row.toNat]) c.col.toNat hcllt
  have h3 := cuBoard_ge_row ut p g.board c.row.toNat hrlt
  unfold Game.count_units
  omega

@[simp] theorem Game.hasAiFlag_set (g : Game) (c : Coord) (v : Option Unit)
    (p : Player) : (g.set c v).hasAiFlag p = g.hasAiFlag p := by
  cases p <;> simp [Game.hasAiFlag]

theorem Game.AiBookkeeping_congr {g₁ g₂ : Game} (hb : g₁.board = g₂.board)
    (hA : g₁._attacker_has_ai = g₂._attacker_has_ai)
    (hD : g₁._defender_has_ai = g₂._defender_has_ai) :
    g₂.AiBookkeeping → g₁.AiBookkeeping := by
  rintro ⟨h1, h2, h3⟩
  refine ⟨?_, ?_, ?_, ?_⟩
  · unfold Game.AiFlagInv Game.hasAiFlag at h1 ⊢
    rw [hA, Game.count_units_congr hb]
    exact h1
  · unfold Game.AiFlagInv Game.hasAiFlag at h2 ⊢
    rw [hD, Game.count_units_congr hb]
    exact h2
  · rw [Game.count_units_congr hb]
    exact h3.1
  · rw [Game.count_units_congr hb]
    exact h3.2

theorem Game.AiBookkeeping_set_of_cellVal_eq {g : Game} (hWF : g.WF)
    (hBK : g.AiBookkeeping) {c : Coord} (v : Option Unit)
    (hcv : ∀ p, cellVal .AI p v = cellVal .AI p (g.get c)) :
    (g.set c v).AiBookkeeping := by
  by_cases hval : g.is_valid_coord c = true
  · obtain ⟨h1, h2, h3⟩ := hBK
    have hc : ∀ p, (g.set c v).count_units .AI p = g.count_units .AI p := by
      intro p
      rw [Game.count_units_set hWF hval, hcv]
      omega
    refine ⟨?_, ?_, ?_, ?_⟩
    · unfold Game.AiFlagInv
      rw [Game.hasAiFlag_set, hc]
      exact h1
    · unfold Game.AiFlagInv
      rw [Game.hasAiFlag_set, hc]
      exact h2
    · rw [hc]; exact h3.1
    · rw [hc]; exact h3.2
  · rw [Game.set_of_invalid v hval]
    exact hBK

theorem Game.AiBookkeeping_clear_flagA {g : Game}
    (h2 : g.AiFlagInv .Defender) (h3 : g.AtMostOneAI)
    (hc : g.count_units .AI .Attacker = 0) :
    Game.AiBookkeeping { g with _attacker_has_ai := false } := by
  have hcongr : ∀ p, ({ g with _attacker_has_ai := false } : Game).count_units .AI p
      = g.count_units .AI p := fun p => Game.count_units_congr rfl .AI p
  refine ⟨?_, ?_, ?_, ?_⟩
  · unfold Game.AiFlagInv
    rw [hcongr, hc]
    simp [Game.hasAiFlag]
  · unfold Game.AiFlagInv at h2 ⊢
    rw [hcongr]
    exact h2
  · rw [hcongr]; exact h3.1
  · rw [hcongr]; exact h3.2

theorem Game.AiBookkeeping_clear_flagD {g : Game}
    (h1 : g.AiFlagInv .Attacker) (h3 : g.AtMostOneAI)
    (hc : g.count_units .AI .Defender = 0) :
    Game.AiBookkeeping { g with _defender_has_ai := false } := by
  have hcongr : ∀ p, ({ g with _defender_has_ai := false } : Game).count_units .AI p
      = g.count_units .AI p := fun p => Game.count_units_congr rfl .AI p
  refine ⟨?_, ?_, ?_, ?_⟩
  · unfold Game.AiFlagInv at h1 ⊢
    rw [hcongr]
    exact h1
  · unfold Game.AiFlagInv
    rw [hcongr, hc]
    simp [Game.hasAiFlag]
  · rw [hcongr]; exact h3.1
  · rw [hcongr]; exact h3.2

theorem Game.AiBookkeeping_remove_dead {g : Game} (hWF : g.WF)
    (hBK : g.AiBookkeeping) (c : Coord) : (g.remove_dead c).AiBookkeeping := by
  unfold Game.remove_dead
  cases hget : g.get c with
  | none => exact hBK
  | some u =>
      dsimp only
      by_cases halive : u.is_alive = true
      · rw [if_neg (by simp [halive])]
        exact hBK
      · rw [if_pos (by simp [halive])]
        have hval := Game.valid_of_get_some hget
        obtain ⟨h1, h2, h3⟩ := hBK
        have hcount : ∀ p, (g.set c none).count_units .AI p
            = g.count_units .AI p - cellVal .AI p (some u) := by
          intro p
          rw [Game.count_units_set hWF hval, hget]
          simp [cellVal]
        by_cases hAI : u.type = .AI
        · rw [if_pos hAI]
          have hpos : 1 ≤ g.count_units .AI u.player :=
            Game.count_units_pos hWF hget hAI rfl
          have hcv_own : cellVal .AI u.player (some u) = 1 := by
            dsimp only [cellVal]
            rw [if_pos ⟨hAI, rfl⟩]
          have hcv_other : ∀ p, p ≠ u.player → cellVal .AI p (some u) = 0 := by
            intro p hp
            dsimp only [cellVal]
            rw [if_neg (by rintro ⟨_, h⟩; exact hp h.symm)]
          by_cases hup : u.player = .Attacker
          · rw [if_pos hup]
            refine Game.AiBookkeeping_clear_flagA ?_ ?_ ?_
            · unfold Game.AiFlagInv at h2 ⊢
              rw [Game.hasAiFlag_set, hcount,
                hcv_other .Defender (by rw [hup]; intro h; cases h)]
              simpa using h2
            · constructor
              · rw [hcount]
                have := h3.1
                have hnn := cellVal_nonneg .AI .Attacker (some u)
                omega
              · rw [hcount]
                have := h3.2
                have hnn := cellVal_nonneg .AI .Defender (some u)
                omega
            · rw [hcount, ← hup, hcv_own]
              have hle : g.count_units .AI u.player ≤ 1 := by
                rw [hup]; exact h3.1
              omega
          · have hupd : u.player = .Defender := by
              cases h : u.player
              · exact absurd h hup
              · rfl
            rw [if_neg hup]
            refine Game.AiBookkeeping_clear_flagD ?_ ?_ ?_
            · unfold Game.AiFlagInv at h1 ⊢
              rw [Game.hasAiFlag_set, hcount,
                hcv_other .Attacker (by rw [hupd]; intro h; cases h)]
              simpa using h1
            · constructor
              · rw [hcount]
                have := h3.1
                have hnn := cellVal_nonneg .AI .Attacker (some u)
                omega
              · rw [hcount]
                have := h3.2
                have hnn := cellVal_nonneg .AI .Defender (some u)
                omega
            · rw [hcount, ← hupd, hcv_own]
              have hle : g.count_units .AI u.player ≤ 1 := by
                rw [hupd]; exact h3.2
              omega
        · rw [if_neg hAI]
          have hcv0 : ∀ p, cellVal .AI p (some u) = 0 := by
            intro p
            dsimp only [cellVal]
            rw [if_neg (by rintro ⟨h, _⟩; exact hAI h)]
          have hc : ∀ p, (g.set c none).count_units .AI p = g.count_units .AI p := by
            intro p
            rw [hcount, hcv0]
            omega
          refine ⟨?_, ?_, ?_, ?_⟩
          · unfold Game.AiFlagInv
            rw [Game.hasAiFlag_set, hc]
            exact h1
          · unfold Game.AiFlagInv
            rw [Game.hasAiFlag_set, hc]
            exact h2
          · rw [hc]; exact h3.1
          · rw [hc]; exact h3.2

theorem Game.AiBookkeeping_mod_health {g : Game} (hWF : g.WF)
    (hBK : g.AiBookkeeping) (c : Coord) (d : Int) :
    (g.mod_health c d).AiBookkeeping := by
  unfold Game.mod_health
  cases hget : g.get c with
  | none => exact hBK
  | some u =>
      dsimp only
      refine Game.AiBookkeeping_remove_dead (g.WF_set hWF c _) ?_ c
      refine Game.AiBookkeeping_set_of_cellVal_eq hWF hBK _ ?_
      intro p
      rw [hget]
      dsimp only [cellVal, Unit.mod_health]

theorem Game.AiBookkeeping_blast_foldl (L : List Coord) {g0 : Game}
    (hWF : g0.WF) (hBK : g0.AiBookkeeping) :
    (L.foldl (fun acc x =>
      if acc.is_valid_coord x then acc.mod_health x (-2) else acc) g0).AiBookkeeping := by
  induction L generalizing g0 with
  | nil => exact hBK
  | cons x L' ih =>
      rw [List.foldl_cons]
      by_cases hv : g0.is_valid_coord x = true
      · rw [if_pos hv]
        exact ih (Game.WF_mod_health hWF x _) (Game.AiBookkeeping_mod_health hWF hBK x _)
      · rw [if_neg hv]
        exact ih hWF hBK

theorem Player.next_ne (p : Player) : p.next ≠ p := by
  cases p <;> decide

theorem Game.AiBookkeeping_flagInv {g : Game} (hBK : g.AiBookkeeping) (p : Player) :
    g.AiFlagInv p := by
  cases p
  · exact hBK.1
  · exact hBK.2.1

theorem Game.AiBookkeeping_le_one {g : Game} (hBK : g.AiBookkeeping) (p : Player) :
    g.count_units .AI p ≤ 1 := by
  cases p
  · exact hBK.2.2.1
  · exact hBK.2.2.2

theorem Game.AiBookkeeping_of_counts_eq {g g' : Game} (hBK : g.AiBookkeeping)
    (hc : ∀ p, g'.count_units .AI p = g.count_units .AI p)
    (hf : ∀ p, g'.hasAiFlag p = g.hasAiFlag p) : g'.AiBookkeeping := by
  obtain ⟨h1, h2, h3⟩ := hBK
  refine ⟨?_, ?_, ?_, ?_⟩
  · unfold Game.AiFlagInv at h1 ⊢
    rw [hc, hf]
    exact h1
  · unfold Game.AiFlagInv at h2 ⊢
    rw [hc, hf]
    exact h2
  · rw [hc]; exact h3.1
  · rw [hc]; exact h3.2

theorem Game.AiBookkeeping_set_some_same {g : Game} (hWF : g.WF)
    (hBK : g.AiBookkeeping) {c : Coord} {u : Unit} (u' : Unit)
    (hget : g.get c = some u) (ht : u'.type = u.type) (hp : u'.player = u.player) :
    (g.set c (some u')).AiBookkeeping := by
  refine Game.AiBookkeeping_set_of_cellVal_eq hWF hBK _ ?_
  intro p
  rw [hget]
  dsimp only [cellVal]
  rw [ht, hp]

theorem Game.AiBookkeeping_set_remove {g : Game} (hWF : g.WF)
    (hBK : g.AiBookkeeping) {c : Coord} {u : Unit} (u' : Unit)
    (hget : g.get c = some u) (ht : u'.type = u.type) (hp : u'.player = u.player) :
    ((g.set c (some u')).remove_dead c).AiBookkeeping :=
  Game.AiBookkeeping_remove_dead (g.WF_set hWF c _)
    (Game.AiBookkeeping_set_some_same hWF hBK u' hget ht hp) c

theorem Game.AiBookkeeping_attack {g : Game} (hWF : g.WF) (hBK : g.AiBookkeeping)
    (ac tc : Coord) : (g.attack ac tc).2.2.AiBookkeeping := by
  unfold Game.attack
  cases hga : g.get ac with
  | none => exact hBK
  | some au =>
      cases hgt : g.get tc with
      | none => exact hBK
      | some tu =>
          dsimp only
          split
          · exact hBK
          · split
            · exact hBK
            · rename_i hadv hadj
              have hadj' : g.is_adjacent ac tc = true := not_not.mp hadj
              have hne : ac ≠ tc := by
                intro heq
                subst heq
                unfold Game.is_adjacent at hadj'
                simp at hadj'
              have hBK1 := Game.AiBookkeeping_set_remove hWF hBK
                (tu.mod_health (-(au.damage_amount tu))) hgt rfl rfl
              have hWF1 : ((g.set tc (some (tu.mod_health (-(au.damage_amount tu))))).remove_dead tc).WF :=
                Game.WF_remove_dead (g.WF_set hWF tc _) tc
              have hget1 : ((g.set tc (some (tu.mod_health (-(au.damage_amount tu))))).remove_dead tc).get ac
                  = some au := by
                rw [Game.get_remove_dead (g.WF_set hWF tc _) tc ac, if_neg hne,
                  Game.get_set hWF, if_neg (by rintro ⟨_, hh⟩; exact hne hh)]
                exact hga
              exact Game.AiBookkeeping_set_remove hWF1 hBK1 _ hget1 rfl rfl

theorem Game.AiBookkeeping_repair {g : Game} (hWF : g.WF) (hBK : g.AiBookkeeping)
    (rc tc : Coord) : (g.repair rc tc).2.2.AiBookkeeping := by
  unfold Game.repair
  split
  · exact hBK
  · cases hgr : g.get rc with
    | none => exact hBK
    | some ru =>
        cases hgt : g.get tc with
        | none => exact hBK
        | some tu =>
            dsimp only
            split
            · exact hBK
            · split
              · exact hBK
              · split
                · exact hBK
                · exact Game.AiBookkeeping_set_some_same hWF hBK _ hgt rfl rfl

theorem Game.AiBookkeeping_move {g : Game} (hWF : g.WF) (hBK : g.AiBookkeeping)
    {src dst : Coord} {su : Unit} (hgs : g.get src = some su)
    (hgd : g.get dst = none) (hne : src ≠ dst) (hvd : g.is_valid_coord dst = true) :
    ((g.set dst (some su)).set src none).AiBookkeeping := by
  have hvs : g.is_valid_coord src = true := Game.valid_of_get_some hgs
  have hWFd : (g.set dst (some su)).WF := g.WF_set hWF dst _
  refine Game.AiBookkeeping_of_counts_eq hBK ?_ ?_
  · intro p
    rw [Game.count_units_set hWFd (by rw [Game.is_valid_coord_set]; exact hvs) none,
      Game.count_units_set hWF hvd (some su),
      Game.get_set hWF, if_neg (by rintro ⟨_, hh⟩; exact hne hh), hgs, hgd]
    omega
  · intro p
    rw [Game.hasAiFlag_set, Game.hasAiFlag_set]

theorem Game.AiBookkeeping_self_destruct {g : Game} (hWF : g.WF)
    (hBK : g.AiBookkeeping) {c : Coord} {ok : Bool} {msg : String} {g' : Game}
    (h : g.self_destruct c = some (ok, msg, g'))
    (hexc : ∀ u, g.get c = some u → ¬(u.type = .AI ∧ 3 ≤ u.health)) :
    g'.AiBookkeeping := by
  unfold Game.self_destruct at h
  cases hget : g.get c with
  | none => rw [hget] at h; cases h
  | some u =>
      rw [hget] at h
      dsimp only at h
      have hWF1 : (if u.type = .AI then g.is_ai_self_destruct u.player else g).WF := by
        split
        · unfold Game.is_ai_self_destruct
          split <;> exact Game.WF_congr rfl rfl hWF
        · exact hWF
      have hBK1 : (if u.type = .AI then g.is_ai_self_destruct u.player
          else g).AiBookkeeping := by
        split
        · unfold Game.is_ai_self_destruct
          split <;> exact Game.AiBookkeeping_congr rfl rfl rfl hBK
        · exact hBK
      have hg1c : (if u.type = .AI then g.is_ai_self_destruct u.player else g).get c
          = some u := by
        split
        · unfold Game.is_ai_self_destruct
          split <;> exact (congrFun (Game.get_congr rfl rfl) c).trans hget
        · exact hget
      split at h
      · cases h
        exact hBK1
      · cases h
        have hWF2 := Game.blast_foldl_WF (c.iter_range 1) hWF1
        have hBK2 := Game.AiBookkeeping_blast_foldl (c.iter_range 1) hWF1 hBK1
        have hg2c := Game.blast_foldl_get_mem (c.iter_range 1) hWF1
          (c.iter_range_one_nodup)
          (show c ∈ c.iter_range 1 from Coord.mem_iter_range_one.2 (by constructor <;> simp))
        rw [hg1c] at hg2c
        refine Game.AiBookkeeping_set_of_cellVal_eq hWF2 hBK2 none ?_
        intro p
        rw [hg2c]
        by_cases hAI : u.type = .AI
        · have hh : u.health ≤ 2 := by
            have hx := hexc u hget
            by_contra hlt
            exact hx ⟨hAI, by omega⟩
          have hdead : (u.mod_health (-2)).is_alive = false := by
            simp only [Unit.mod_health, Unit.is_alive, gt_iff_lt,
              decide_eq_false_iff_not, not_lt]
            split
            · omega
            · split
              · omega
              · omega
          have hbc : blastCell (some u) = none := by
            simp [blastCell, hdead]
          rw [hbc]
        · have hz : cellVal .AI p (blastCell (some u)) = 0 := by
            show cellVal .AI p (if (u.mod_health (-2)).is_alive
              then some (u.mod_health (-2)) else none) = 0
            split
            · dsimp only [cellVal]
              rw [if_neg (by rintro ⟨hh, _⟩; exact hAI hh)]
            · rfl
          rw [hz]
          rfl

theorem Game.self_destruct_ai_exceptional {g : Game} (hWF : g.WF)
    (hBK : g.AiBookkeeping) {c : Coord} {u : Unit} (hget : g.get c = some u)
    (hAI : u.type = .AI) (hh : 3 ≤ u.health) {ok : Bool} {msg : String} {g' : Game}
    (h : g.self_destruct c = some (ok, msg, g')) :
    g'.count_units .AI u.player = 0 ∧ g'.hasAiFlag u.player = true ∧
      g'.AiFlagInv u.player.next := by
  unfold Game.self_destruct at h
  rw [hget] at h
  dsimp only at h
  have halive : u.is_alive = true := by
    simp only [Unit.is_alive, gt_iff_lt, decide_eq_true_eq]
    omega
  rw [if_neg (by simp [halive])] at h
  cases h
  rw [if_pos hAI]
  have hWFA : (g.is_ai_self_destruct u.player).WF := by
    unfold Game.is_ai_self_destruct
    split <;> exact Game.WF_congr rfl rfl hWF
  have hBKA : (g.is_ai_self_destruct u.player).AiBookkeeping := by
    unfold Game.is_ai_self_destruct
    split <;> exact Game.AiBookkeeping_congr rfl rfl rfl hBK
  have hgAc : (g.is_ai_self_destruct u.player).get c = some u := by
    unfold Game.is_ai_self_destruct
    split <;> exact (congrFun (Game.get_congr rfl rfl) c).trans hget
  have hWF2 := Game.blast_foldl_WF (c.iter_range 1) hWFA
  have hBK2 := Game.AiBookkeeping_blast_foldl (c.iter_range 1) hWFA hBKA
  have hg2c := Game.blast_foldl_get_mem (c.iter_range 1) hWFA
    (c.iter_range_one_nodup)
    (show c ∈ c.iter_range 1 from Coord.mem_iter_range_one.2 (by constructor <;> simp))
  rw [hgAc] at hg2c
  have halive2 : (u.mod_health (-2)).is_alive = true := by
    simp only [Unit.mod_health, Unit.is_alive, gt_iff_lt, decide_eq_true_eq]
    split
    · omega
    · split
      · omega
      · omega
  have hg2c' : ((c.iter_range 1).foldl (fun acc x =>
      if acc.is_valid_coord x then acc.mod_health x (-2) else acc)
      (g.is_ai_self_destruct u.player)).get c = some (u.mod_health (-2)) := by
    rw [hg2c]
    simp [blastCell, halive2]
  have hvalc := Game.valid_of_get_some hg2c'
  have hpos := Game.count_units_pos hWF2 hg2c' hAI (Unit.mod_health_player u (-2))
  have hle := Game.AiBookkeeping_le_one hBK2 u.player
  have hcv1 : cellVal .AI u.player (some (u.mod_health (-2))) = 1 := by
    dsimp only [cellVal]
    rw [if_pos ⟨hAI, rfl⟩]
  refine ⟨?_, ?_, ?_⟩
  · rw [Game.count_units_set hWF2 hvalc none, hg2c', hcv1]
    have h0 : cellVal .AI u.player (none : Option Unit) = 0 := rfl
    rw [h0]
    omega
  · rw [Game.hasAiFlag_set]
    have hinv := Game.AiBookkeeping_flagInv hBK2 u.player
    unfold Game.AiFlagInv at hinv
    cases hb : ((c.iter_range 1).foldl (fun acc x =>
        if acc.is_valid_coord x then acc.mod_health x (-2) else acc)
        (g.is_ai_self_destruct u.player)).hasAiFlag u.player
    · have hc0 := hinv.1 hb
      omega
    · rfl
  · have hopp := Game.AiBookkeeping_flagInv hBK2 u.player.next
    unfold Game.AiFlagInv at hopp ⊢
    rw [Game.hasAiFlag_set, Game.count_units_set hWF2 hvalc none, hg2c']
    have hov : cellVal .AI u.player.next (some (u.mod_health (-2))) = 0 := by
      dsimp only [cellVal]
      rw [if_neg (fun hand => Player.next_ne u.player hand.2.symm)]
    rw [hov]
    have h0 : cellVal .AI u.player.next (none : Option Unit) = 0 := rfl
    rw [h0]
    constructor
    · intro hb
      have := hopp.1 hb
      omega
    · intro hb
      exact hopp.2 (by omega)

theorem Game.AiBookkeeping_perform_move {g : Game} (hWF : g.WF)
    (hBK : g.AiBookkeeping) {mv : CoordPair} {ok : Bool} {msg : String} {g' : Game}
    (h : g.perform_move mv = some (ok, msg, g'))
    (hexc : ∀ u, g.get mv.src = some u → mv.src = mv.dst →
      ¬(u.type = .AI ∧ 3 ≤ u.health)) :
    g'.AiBookkeeping := by
  unfold Game.perform_move at h
  split at h
  · rename_i heq
    exact Game.AiBookkeeping_self_destruct hWF hBK h (fun u hu => hexc u hu heq)
  · rename_i hne
    cases hgd : g.get mv.dst with
    | none =>
        rw [hgd] at h
        dsimp only at h
        split at h
        · rename_i hvm
          cases hmv : g.is_movement_valid mv with
          | none => rw [hmv] at h; cases h
          | some sm =>
              rw [hmv] at h
              obtain ⟨success, move_result⟩ := sm
              dsimp only at h
              split at h
              · cases h
                cases hgs : g.get mv.src with
                | none =>
                    unfold Game.is_movement_valid at hmv
                    rw [hgs] at hmv
                    cases hmv
                | some su =>
                    have hvd : g.is_valid_coord mv.dst = true :=
                      (Game.is_valid_move_fst.1 hvm).2.1
                    exact Game.AiBookkeeping_move hWF hBK hgs hgd hne hvd
              · cases h
                exact hBK
        · cases h
          exact hBK
    | some du =>
        rw [hgd] at h
        dsimp only at h
        cases hgs : g.get mv.src with
        | none => rw [hgs] at h; cases h
        | some su =>
            rw [hgs] at h
            dsimp only at h
            split at h
            · have hx : g.attack mv.src mv.dst = (ok, msg, g') := by
                injection h
              have hres := Game.AiBookkeeping_attack hWF hBK mv.src mv.dst
              rw [hx] at hres
              exact hres
            · have hx : g.repair mv.src mv.dst = (ok, msg, g') := by
                injection h
              have hres := Game.AiBookkeeping_repair hWF hBK mv.src mv.dst
              rw [hx] at hres
              exact hres

set_option maxRecDepth 10000 in
/-- Claim C2 (counterexample): the claim states that after every resolver
action each owner's `has_ai` flag is false exactly when that owner has no AI
unit on the board, and in particular that it is false after the owner's AI
self-destructs.  But self-destructing the Attacker's 9-health AI on the
initial board removes the AI (the owner's AI count drops to 0) while
`_attacker_has_ai` remains `true`: `self_destruct` only sets the
`ai_self_destructed` flag and clears the cell directly, bypassing
`remove_dead`, the sole place where `has_ai` is cleared. -/
theorem has_ai_flag_tracking_counterexample :
    (initialGame.perform_move ⟨⟨4, 4⟩, ⟨4, 4⟩⟩).map
      (fun r => (r.2.2.count_units .AI .Attacker, r.2.2._attacker_has_ai))
      = some (0, true) := by decide

/-- Claim C2 (amended): for every well-formed game state satisfying the AI
bookkeeping invariant (each owner's `has_ai` flag is false exactly when that
owner has no AI on the board, and each owner has at most one AI), any action
applied through `perform_move` preserves the invariant — moves, attacks,
repairs, deaths via `remove_dead`, and self-destructs of non-AI units or of
an AI with health at most 2 (which the blast kills, clearing the flag) —
EXCEPT the self-destruct of an AI with health at least 3: there the AI is
removed from the board while the owner's `has_ai` flag remains `true` (only
`ai_self_destructed` is set), so afterwards the owner's AI count is 0, the
flag is still `true`, and only the opponent's flag invariant survives. -/
theorem has_ai_flag_tracking {g : Game} (hWF : g.WF) (hBK : g.AiBookkeeping)
    {mv : CoordPair} {ok : Bool} {msg : String} {g' : Game}
    (h : g.perform_move mv = some (ok, msg, g')) :
    ((∀ u, g.get mv.src = some u → mv.src = mv.dst →
        ¬(u.type = .AI ∧ 3 ≤ u.health)) → g'.AiBookkeeping) ∧
    (∀ u, g.get mv.src = some u → mv.src = mv.dst → u.type = .AI → 3 ≤ u.health →
      g'.count_units .AI u.player = 0 ∧ g'.hasAiFlag u.player = true ∧
        g'.AiFlagInv u.player.next) := by
  constructor
  · intro hexc
    exact Game.AiBookkeeping_perform_move hWF hBK h hexc
  · intro u hu heq hAI hh
    unfold Game.perform_move at h
    dsimp only at h
    rw [if_pos heq] at h
    exact Game.self_destruct_ai_exceptional hWF hBK hu hAI hh h

set_option maxRecDepth 10000 in
/-- Witness for `has_ai_flag_tracking`: moving the Attacker Program from
`(2,4)` to `(1,4)` on the initial board (not a self-destruct) preserves the
AI bookkeeping invariant. -/
theorem has_ai_flag_tracking_witness :
    ((initialGame.perform_move ⟨⟨2, 4⟩, ⟨1, 4⟩⟩).map (fun r => r.2.2)).elim
      False Game.AiBookkeeping := by
  cases hpm : initialGame.perform_move ⟨⟨2, 4⟩, ⟨1, 4⟩⟩ with
  | none => exact absurd hpm (by decide)
  | some r =>
      obtain ⟨rok, rmsg, g2⟩ := r
      have hBK : initialGame.AiBookkeeping := by
        unfold Game.AiBookkeeping Game.AiFlagInv Game.AtMostOneAI
        refine ⟨?_, ?_, ?_, ?_⟩ <;> decide
      exact (has_ai_flag_tracking (newGame_WF_HealthInv {}).1 hBK hpm).1
        (fun u hu heq => absurd heq (by decide))

theorem max_ite_lt (a b : Score) : (if a < b then b else a) = max a b := by
  by_cases h : a < b
  · rw [if_pos h, max_eq_right h.le]
  · rw [if_neg h, max_eq_left (not_lt.mp h)]

theorem min_ite_lt (a b : Score) : (if b < a then b else a) = min a b := by
  by_cases h : b < a
  · rw [if_pos h, min_eq_right h.le]
  · rw [if_neg h, min_eq_left (not_lt.mp h)]

theorem foldl_max_init {α : Type} (w : α → Score) (l : List α) :
    ∀ init : Score, l.foldl (fun x c => max x (w c)) init
      = max init (l.foldl (fun x c => max x (w c)) ⊥) := by
  induction l with
  | nil =>
      intro init
      simp
  | cons c rest ih =>
      intro init
      simp only [List.foldl_cons]
      rw [ih (max init (w c)), ih (max ⊥ (w c)),
        max_eq_right (bot_le : (⊥ : Score) ≤ w c), max_assoc]

theorem foldl_min_init {α : Type} (w : α → Score) (l : List α) :
    ∀ init : Score, l.foldl (fun x c => min x (w c)) init
      = min init (l.foldl (fun x c => min x (w c)) ⊤) := by
  induction l with
  | nil =>
      intro init
      simp
  | cons c rest ih =>
      intro init
      simp only [List.foldl_cons]
      rw [ih (min init (w c)), ih (min ⊤ (w c)),
        min_eq_right (le_top : w c ≤ (⊤ : Score)), min_assoc]

theorem foldl_max_initG (w : Game → Score) (l : List (CoordPair × Game)) (init : Score) :
    l.foldl (fun x c => max x (w { c.2 with next_player := .Defender })) init
      = max init
        (l.foldl (fun x c => max x (w { c.2 with next_player := .Defender })) ⊥) :=
  foldl_max_init (fun c : CoordPair × Game => w { c.2 with next_player := .Defender }) l init

theorem foldl_min_initG (w : Game → Score) (l : List (CoordPair × Game)) (init : Score) :
    l.foldl (fun x c => min x (w { c.2 with next_player := .Attacker })) init
      = min init
        (l.foldl (fun x c => min x (w { c.2 with next_player := .Attacker })) ⊤) :=
  foldl_min_init (fun c : CoordPair × Game => w { c.2 with next_player := .Attacker }) l init

theorem abLoopMax_fst_ge (f : Score → Game → Score) (beta : Score) (ab : Bool) :
    ∀ (l : List (CoordPair × Game)) (acc : Score × Option CoordPair) (alpha : Score),
      acc.1 ≤ (abLoopMax f beta ab l acc alpha).1 := by
  intro l
  induction l with
  | nil =>
      intro acc alpha
      exact le_refl _
  | cons c rest ih =>
      intro acc alpha
      simp only [abLoopMax]
      have hacc' : acc.1 ≤ (if acc.1 < f alpha { c.2 with next_player := .Defender }
          then (f alpha { c.2 with next_player := .Defender }, some c.1) else acc).1 := by
        split
        · exact le_of_lt (by assumption)
        · exact le_refl _
      split
      · split
        · exact hacc'
        · exact hacc'.trans (ih _ _)
      · exact hacc'.trans (ih _ _)

theorem abLoopMin_fst_le (f : Score → Game → Score) (alpha : Score) (ab : Bool) :
    ∀ (l : List (CoordPair × Game)) (acc : Score × Option CoordPair) (beta : Score),
      (abLoopMin f alpha ab l acc beta).1 ≤ acc.1 := by
  intro l
  induction l with
  | nil =>
      intro acc beta
      exact le_refl _
  | cons c rest ih =>
      intro acc beta
      simp only [abLoopMin]
      have hacc' : (if f beta { c.2 with next_player := .Attacker } < acc.1
          then (f beta { c.2 with next_player := .Attacker }, some c.1) else acc).1
          ≤ acc.1 := by
        split
        · exact le_of_lt (by assumption)
        · exact le_refl _
      split
      · split
        · exact hacc'
        · exact (ih _ _).trans hacc'
      · exact (ih _ _).trans hacc'

theorem abLoopMax_false_top (f : Score → Game → Score) :
    ∀ (l : List (CoordPair × Game)) (acc : Score × Option CoordPair) (alpha : Score),
      acc.1 = ⊤ → abLoopMax f ⊤ false l acc alpha = acc := by
  intro l
  induction l with
  | nil =>
      intro acc alpha _
      rfl
  | cons c rest ih =>
      intro acc alpha h
      simp only [abLoopMax, Bool.false_eq_true, if_false]
      rw [if_neg (by rw [h]; exact not_top_lt)]
      exact ih acc alpha h

theorem abLoopMin_false_bot (f : Score → Game → Score) :
    ∀ (l : List (CoordPair × Game)) (acc : Score × Option CoordPair) (beta : Score),
      acc.1 = ⊥ → abLoopMin f ⊥ false l acc beta = acc := by
  intro l
  induction l with
  | nil =>
      intro acc beta _
      rfl
  | cons c rest ih =>
      intro acc beta h
      simp only [abLoopMin, Bool.false_eq_true, if_false]
      rw [if_neg (by rw [h]; exact not_lt_bot)]
      exact ih acc beta h

theorem abLoopMax_km (f : Score → Game → Score) (w : Game → Score) (beta : Score)
    (hf : ∀ a sg, a < beta →
      ((f a sg ≤ a → w sg ≤ f a sg) ∧ (beta ≤ f a sg → f a sg ≤ w sg) ∧
        (a < f a sg → f a sg < beta → f a sg = w sg))) :
    ∀ (l : List (CoordPair × Game)) (acc : Score × Option CoordPair) (alpha0 : Score),
      alpha0 < beta → acc.1 ≤ alpha0 →
      (((abLoopMax f beta true l acc alpha0).1 ≤ alpha0 →
          l.foldl (fun x c => max x (w { c.2 with next_player := .Defender })) acc.1
            ≤ (abLoopMax f beta true l acc alpha0).1) ∧
        (beta ≤ (abLoopMax f beta true l acc alpha0).1 →
          (abLoopMax f beta true l acc alpha0).1
            ≤ l.foldl (fun x c => max x (w { c.2 with next_player := .Defender })) acc.1) ∧
        (alpha0 < (abLoopMax f beta true l acc alpha0).1 →
          (abLoopMax f beta true l acc alpha0).1 < beta →
          (abLoopMax f beta true l acc alpha0).1
            = l.foldl (fun x c => max x (w { c.2 with next_player := .Defender })) acc.1)) := by
  intro l
  induction l with
  | nil =>
      intro acc alpha0 hab hacc
      exact ⟨fun _ => le_refl _, fun _ => le_refl _, fun _ _ => rfl⟩
  | cons hd rest ih =>
      intro acc alpha0 hab hacc
      obtain ⟨kA, kB, kC⟩ := hf alpha0 { hd.2 with next_player := .Defender } hab
      have hstep : abLoopMax f beta true (hd :: rest) acc alpha0
          = (if beta ≤ max alpha0 (f alpha0 { hd.2 with next_player := .Defender }) then
              (if acc.1 < f alpha0 { hd.2 with next_player := .Defender }
                then (f alpha0 { hd.2 with next_player := .Defender }, some hd.1) else acc)
             else abLoopMax f beta true rest
              (if acc.1 < f alpha0 { hd.2 with next_player := .Defender }
                then (f alpha0 { hd.2 with next_player := .Defender }, some hd.1) else acc)
              (max alpha0 (f alpha0 { hd.2 with next_player := .Defender }))) := rfl
      have hfold : (hd :: rest).foldl
          (fun x c => max x (w { c.2 with next_player := .Defender })) acc.1
          = rest.foldl (fun x c => max x (w { c.2 with next_player := .Defender }))
              (max acc.1 (w { hd.2 with next_player := .Defender })) := rfl
      rw [hstep, hfold]
      set E := f alpha0 { hd.2 with next_player := .Defender } with hE
      set W := w { hd.2 with next_player := .Defender } with hW
      set ACC := (if acc.1 < E then (E, some hd.1) else acc) with hACC
      set M := rest.foldl (fun x c => max x (w { c.2 with next_player := .Defender })) ⊥
        with hM
      have hACC1 : ACC.1 = max acc.1 E := by
        rw [hACC]
        split
        · rename_i h
          exact (max_eq_right (le_of_lt h)).symm
        · rename_i h
          exact (max_eq_left (not_lt.mp h)).symm
      have hVfold : ∀ init : Score,
          rest.foldl (fun x c => max x (w { c.2 with next_player := .Defender })) init
            = max init M := by
        intro init
        rw [foldl_max_initG w rest init, ← hM]
      by_cases hcut : beta ≤ max alpha0 E
      · rw [if_pos hcut]
        have hbe : beta ≤ E := by
          rcases le_max_iff.mp hcut with h | h
          · exact absurd h (not_le.mpr hab)
          · exact h
        have haccE : acc.1 < E := lt_of_le_of_lt hacc (lt_of_lt_of_le hab hbe)
        have hr : ACC.1 = E := by
          rw [hACC1, max_eq_right haccE.le]
        have hEW := kB hbe
        refine ⟨?_, ?_, ?_⟩
        · intro h
          rw [hr] at h
          exact absurd hab (not_lt.mpr (hbe.trans h))
        · intro _
          rw [hr, hVfold]
          exact hEW.trans ((le_max_right acc.1 W).trans (le_max_left _ M))
        · intro _ hlt
          rw [hr] at hlt
          exact absurd hbe (not_le.mpr hlt)
      · rw [if_neg hcut]
        have hab1 : max alpha0 E < beta := not_le.mp hcut
        have hACCle : ACC.1 ≤ max alpha0 E := by
          rw [hACC1]
          exact max_le_max hacc (le_refl E)
        obtain ⟨A1, B1, C1⟩ := ih ACC (max alpha0 E) hab1 hACCle
        rw [hVfold] at A1 B1 C1
        rw [hVfold]
        set R := (abLoopMax f beta true rest ACC (max alpha0 E)).1 with hR
        have hRge : ACC.1 ≤ R := by
          rw [hR]
          exact abLoopMax_fst_ge f beta true rest ACC _
        have hER : E ≤ R := by
          have hx := hRge
          rw [hACC1] at hx
          exact (le_max_right acc.1 E).trans hx
        refine ⟨?_, ?_, ?_⟩
        · intro h
          have h1 : R ≤ max alpha0 E := h.trans (le_max_left _ _)
          have hVr := A1 h1
          have hE0 : E ≤ alpha0 := hER.trans h
          have hWE : W ≤ E := kA hE0
          have hmono : max (max acc.1 W) M ≤ max ACC.1 M := by
            rw [hACC1]
            exact max_le_max (max_le_max (le_refl _) hWE) (le_refl _)
          exact hmono.trans hVr
        · intro h
          have hVr := B1 h
          rw [hACC1] at hVr
          rcases le_max_iff.mp hVr with h1 | h1
          · rcases le_max_iff.mp h1 with h2 | h2
            · exact absurd hab (not_lt.mpr ((h.trans h2).trans hacc))
            · have hEWle := kB (h.trans h2)
              exact (h2.trans hEWle).trans ((le_max_right acc.1 W).trans (le_max_left _ M))
          · exact h1.trans (le_max_right _ _)
        · intro h1 h2
          by_cases hcase : max alpha0 E < R
          · have hveq := C1 hcase h2
            by_cases he0 : alpha0 < E
            · have hEbeta : E < beta := lt_of_le_of_lt (le_max_right alpha0 E) hab1
              have hEWeq := kC he0 hEbeta
              rw [hveq, hACC1, hEWeq]
            · have hWE : W ≤ E := kA (not_lt.mp he0)
              rcases le_total (max acc.1 E) M with hm | hm
              · have hRM : R = M := by
                  rw [hveq, hACC1, max_eq_right hm]
                rw [hRM]
                have hacM : acc.1 ≤ M := (le_max_left acc.1 E).trans hm
                have hWM : W ≤ M := hWE.trans ((le_max_right acc.1 E).trans hm)
                exact (max_eq_right (max_le hacM hWM)).symm
              · have hRle : R ≤ alpha0 := by
                  rw [hveq, hACC1, max_eq_left hm]
                  exact max_le hacc (not_lt.mp he0)
                exact absurd h1 (not_lt.mpr hRle)
          · have hra : R ≤ max alpha0 E := not_lt.mp hcase
            have hA1 := A1 hra
            have hRleE : R ≤ E := by
              rcases le_max_iff.mp hra with h' | h'
              · exact absurd (lt_of_lt_of_le h1 h') (lt_irrefl alpha0)
              · exact h'
            have hre : R = E := le_antisymm hRleE hER
            have hEWeq : E = W := kC (hre ▸ h1) (hre ▸ h2)
            have hVle2 : max (max acc.1 W) M ≤ max ACC.1 M := by
              rw [hACC1, hEWeq]
            have hVler : max (max acc.1 W) M ≤ R := hVle2.trans hA1
            have hRleV : R ≤ max (max acc.1 W) M := by
              have hx : R = W := hre.trans hEWeq
              rw [hx]
              exact (le_max_right acc.1 W).trans (le_max_left _ M)
            exact le_antisymm hRleV hVler

theorem abLoopMin_km (f : Score → Game → Score) (w : Game → Score) (alpha : Score)
    (hf : ∀ b sg, alpha < b →
      ((f b sg ≤ alpha → w sg ≤ f b sg) ∧ (b ≤ f b sg → f b sg ≤ w sg) ∧
        (alpha < f b sg → f b sg < b → f b sg = w sg))) :
    ∀ (l : List (CoordPair × Game)) (acc : Score × Option CoordPair) (beta0 : Score),
      alpha < beta0 → beta0 ≤ acc.1 →
      (((abLoopMin f alpha true l acc beta0).1 ≤ alpha →
          l.foldl (fun x c => min x (w { c.2 with next_player := .Attacker })) acc.1
            ≤ (abLoopMin f alpha true l acc beta0).1) ∧
        (beta0 ≤ (abLoopMin f alpha true l acc beta0).1 →
          (abLoopMin f alpha true l acc beta0).1
            ≤ l.foldl (fun x c => min x (w { c.2 with next_player := .Attacker })) acc.1) ∧
        (alpha < (abLoopMin f alpha true l acc beta0).1 →
          (abLoopMin f alpha true l acc beta0).1 < beta0 →
          (abLoopMin f alpha true l acc beta0).1
            = l.foldl (fun x c => min x (w { c.2 with next_player := .Attacker })) acc.1)) := by
  intro l
  induction l with
  | nil =>
      intro acc beta0 hab hacc
      exact ⟨fun _ => le_refl _, fun _ => le_refl _, fun _ _ => rfl⟩
  | cons hd rest ih =>
      intro acc beta0 hab hacc
      obtain ⟨kA, kB, kC⟩ := hf beta0 { hd.2 with next_player := .Attacker } hab
      have hstep : abLoopMin f alpha true (hd :: rest) acc beta0
          = (if min beta0 (f beta0 { hd.2 with next_player := .Attacker }) ≤ alpha then
              (if f beta0 { hd.2 with next_player := .Attacker } < acc.1
                then (f beta0 { hd.2 with next_player := .Attacker }, some hd.1) else acc)
             else abLoopMin f alpha true rest
              (if f beta0 { hd.2 with next_player := .Attacker } < acc.1
                then (f beta0 { hd.2 with next_player := .Attacker }, some hd.1) else acc)
              (min beta0 (f beta0 { hd.2 with next_player := .Attacker }))) := rfl
      have hfold : (hd :: rest).foldl
          (fun x c => min x (w { c.2 with next_player := .Attacker })) acc.1
          = rest.foldl (fun x c => min x (w { c.2 with next_player := .Attacker }))
              (min acc.1 (w { hd.2 with next_player := .Attacker })) := rfl
      rw [hstep, hfold]
      set E := f beta0 { hd.2 with next_player := .Attacker } with hE
      set W := w { hd.2 with next_player := .Attacker } with hW
      set ACC := (if E < acc.1 then (E, some hd.1) else acc) with hACC
      set M := rest.foldl (fun x c => min x (w { c.2 with next_player := .Attacker })) ⊤
        with hM
      have hACC1 : ACC.1 = min acc.1 E := by
        rw [hACC]
        split
        · rename_i h
          exact (min_eq_right (le_of_lt h)).symm
        · rename_i h
          exact (min_eq_left (not_lt.mp h)).symm
      have hVfold : ∀ init : Score,
          rest.foldl (fun x c => min x (w { c.2 with next_player := .Attacker })) init
            = min init M := by
        intro init
        rw [foldl_min_initG w rest init, ← hM]
      by_cases hcut : min beta0 E ≤ alpha
      · rw [if_pos hcut]
        have hbe : E ≤ alpha := by
          rcases min_le_iff.mp hcut with h | h
          · exact absurd h (not_le.mpr hab)
          · exact h
        have haccE : E < acc.1 := lt_of_lt_of_le (lt_of_le_of_lt hbe hab) hacc
        have hr : ACC.1 = E := by
          rw [hACC1, min_eq_right haccE.le]
        have hWE := kA hbe
        refine ⟨?_, ?_, ?_⟩
        · intro _
          rw [hr, hVfold]
          exact ((min_le_left _ M).trans (min_le_right acc.1 W)).trans hWE
        · intro h
          rw [hr] at h
          exact absurd hab (not_lt.mpr (h.trans hbe))
        · intro hlt _
          rw [hr] at hlt
          exact absurd hbe (not_le.mpr hlt)
      · rw [if_neg hcut]
        have hab1 : alpha < min beta0 E := not_le.mp hcut
        have hACCge : min beta0 E ≤ ACC.1 := by
          rw [hACC1]
          exact min_le_min hacc (le_refl E)
        obtain ⟨A1, B1, C1⟩ := ih ACC (min beta0 E) hab1 hACCge
        rw [hVfold] at A1 B1 C1
        rw [hVfold]
        set R := (abLoopMin f alpha true rest ACC (min beta0 E)).1 with hR
        have hRle : R ≤ ACC.1 := by
          rw [hR]
          exact abLoopMin_fst_le f alpha true rest ACC _
        have hRE : R ≤ E := by
          have hx := hRle
          rw [hACC1] at hx
          exact hx.trans (min_le_right acc.1 E)
        refine ⟨?_, ?_, ?_⟩
        · intro h
          have hVr := A1 h
          rw [hACC1] at hVr
          rcases min_le_iff.mp hVr with h1 | h1
          · rcases min_le_iff.mp h1 with h2 | h2
            · exact absurd hab (not_lt.mpr (hacc.trans (h2.trans h)))
            · have hWEle := kA (h2.trans h)
              exact ((min_le_left _ M).trans (min_le_right acc.1 W)).trans (hWEle.trans h2)
          · exact (min_le_right _ M).trans h1
        · intro h
          have h1 : min beta0 E ≤ R := (min_le_left beta0 E).trans h
          have hVr := B1 h1
          rw [hACC1] at hVr
          obtain ⟨h2, hRM⟩ := le_min_iff.mp hVr
          obtain ⟨hRacc, hRE2⟩ := le_min_iff.mp h2
          have hEW : E ≤ W := kB (h.trans hRE2)
          exact le_min (le_min hRacc (hRE2.trans hEW)) hRM
        · intro h1 h2
          by_cases hcase : R < min beta0 E
          · have hveq := C1 h1 hcase
            by_cases he0 : E < beta0
            · have halphaE : alpha < E := lt_of_lt_of_le hab1 (min_le_right beta0 E)
              have hEWeq := kC halphaE he0
              rw [hveq, hACC1, hEWeq]
            · have hEW : E ≤ W := kB (not_lt.mp he0)
              rcases le_total M (min acc.1 E) with hm | hm
              · have hRM : R = M := by
                  rw [hveq, hACC1, min_eq_right hm]
                rw [hRM]
                have hMacc : M ≤ acc.1 := hm.trans (min_le_left acc.1 E)
                have hMW : M ≤ W := (hm.trans (min_le_right acc.1 E)).trans hEW
                exact (min_eq_right (le_min hMacc hMW)).symm
              · have hRge : beta0 ≤ R := by
                  rw [hveq, hACC1, min_eq_left hm]
                  exact le_min hacc (not_lt.mp he0)
                exact absurd h2 (not_lt.mpr hRge)
          · have hra : min beta0 E ≤ R := not_lt.mp hcase
            have hB1 := B1 hra
            have hER : E ≤ R := by
              rcases min_le_iff.mp hra with h' | h'
              · exact absurd (lt_of_le_of_lt h' h2) (lt_irrefl beta0)
              · exact h'
            have hre : R = E := le_antisymm hRE hER
            have hEWeq : E = W := kC (hre ▸ h1) (hre ▸ h2)
            have hVle2 : min (min acc.1 W) M ≤ min ACC.1 M := by
              rw [hACC1, hEWeq]
            have hRleV : R ≤ min (min acc.1 W) M := by
              have hx : min ACC.1 M = min (min acc.1 W) M := by
                rw [hACC1, hEWeq]
              exact hx ▸ hB1
            have hVleR : min (min acc.1 W) M ≤ R := by
              have hx : R = W := hre.trans hEWeq
              rw [hx]
              exact (min_le_left _ M).trans (min_le_right acc.1 W)
            exact le_antisymm hRleV hVleR

theorem abLoopMax_unpruned (f : Score → Game → Score) (w : Game → Score) (beta : Score)
    (hfu : ∀ a sg, f a sg = w sg) :
    ∀ (l : List (CoordPair × Game)) (acc : Score × Option CoordPair) (alpha : Score),
      (abLoopMax f beta false l acc alpha).1
        = l.foldl (fun x c => max x (w { c.2 with next_player := .Defender })) acc.1 := by
  intro l
  induction l with
  | nil =>
      intro acc alpha
      rfl
  | cons hd rest ih =>
      intro acc alpha
      have hstep : abLoopMax f beta false (hd :: rest) acc alpha
          = abLoopMax f beta false rest
              (if acc.1 < f alpha { hd.2 with next_player := .Defender }
                then (f alpha { hd.2 with next_player := .Defender }, some hd.1) else acc)
              alpha := rfl
      have hfold : (hd :: rest).foldl
          (fun x c => max x (w { c.2 with next_player := .Defender })) acc.1
          = rest.foldl (fun x c => max x (w { c.2 with next_player := .Defender }))
              (max acc.1 (w { hd.2 with next_player := .Defender })) := rfl
      have hACC1 : (if acc.1 < f alpha { hd.2 with next_player := .Defender }
          then (f alpha { hd.2 with next_player := .Defender }, some hd.1) else acc).1
          = max acc.1 (w { hd.2 with next_player := .Defender }) := by
        rw [hfu]
        split
        · rename_i h
          exact (max_eq_right (le_of_lt h)).symm
        · rename_i h
          exact (max_eq_left (not_lt.mp h)).symm
      rw [hstep, hfold, ih, hACC1]

theorem abLoopMin_unpruned (f : Score → Game → Score) (w : Game → Score) (alpha : Score)
    (hfu : ∀ b sg, f b sg = w sg) :
    ∀ (l : List (CoordPair × Game)) (acc : Score × Option CoordPair) (beta : Score),
      (abLoopMin f alpha false l acc beta).1
        = l.foldl (fun x c => min x (w { c.2 with next_player := .Attacker })) acc.1 := by
  intro l
  induction l with
  | nil =>
      intro acc beta
      rfl
  | cons hd rest ih =>
      intro acc beta
      have hstep : abLoopMin f alpha false (hd :: rest) acc beta
          = abLoopMin f alpha false rest
              (if f beta { hd.2 with next_player := .Attacker } < acc.1
                then (f beta { hd.2 with next_player := .Attacker }, some hd.1) else acc)
              beta := rfl
      have hfold : (hd :: rest).foldl
          (fun x c => min x (w { c.2 with next_player := .Attacker })) acc.1
          = rest.foldl (fun x c => min x (w { c.2 with next_player := .Attacker }))
              (min acc.1 (w { hd.2 with next_player := .Attacker })) := rfl
      have hACC1 : (if f beta { hd.2 with next_player := .Attacker } < acc.1
          then (f beta { hd.2 with next_player := .Attacker }, some hd.1) else acc).1
          = min acc.1 (w { hd.2 with next_player := .Attacker }) := by
        rw [hfu]
        split
        · rename_i h
          exact (min_eq_right (le_of_lt h)).symm
        · rename_i h
          exact (min_eq_left (not_lt.mp h)).symm
      rw [hstep, hfold, ih, hACC1]

theorem minimax_unpruned_eq :
    ∀ (d : Nat) (g : Game) (a b : Score) (m : Bool),
      (g.minimax_alpha_beta d a b m false).1 = g.minimaxValue d m := by
  intro d
  induction d with
  | zero =>
      intro g a b m
      rfl
  | succ d ih =>
      intro g a b m
      have hunfold : Game.minimax_alpha_beta g (d + 1) a b m false
          = (if g.is_finished then (Score.ofInt g.evaluate_board, none)
             else if m then
               abLoopMax (fun a2 sg => (sg.minimax_alpha_beta d a2 b false false).1)
                 b false (g.move_candidates.filterMap g.clone_and_move) (⊥, none) a
             else
               abLoopMin (fun b2 sg => (sg.minimax_alpha_beta d a b2 true false).1)
                 a false (g.move_candidates.filterMap g.clone_and_move) (⊤, none) b) := rfl
      have hunfold2 : Game.minimaxValue g (d + 1) m
          = (if g.is_finished then Score.ofInt g.evaluate_board
             else if m then
               (g.move_candidates.filterMap g.clone_and_move).foldl (fun acc child =>
                 max acc
                   (Game.minimaxValue { child.2 with next_player := .Defender } d false)) ⊥
             else
               (g.move_candidates.filterMap g.clone_and_move).foldl (fun acc child =>
                 min acc
                   (Game.minimaxValue { child.2 with next_player := .Attacker } d true)) ⊤) :=
        rfl
      rw [hunfold, hunfold2]
      by_cases hfin : g.is_finished = true
      · rw [if_pos hfin, if_pos hfin]
      · rw [if_neg hfin, if_neg hfin]
        cases m with
        | false =>
            rw [if_neg (Bool.false_ne_true), if_neg (Bool.false_ne_true)]
            exact abLoopMin_unpruned (fun b2 sg => (sg.minimax_alpha_beta d a b2 true false).1)
              (fun sg => Game.minimaxValue sg d true) a
              (fun b2 sg => ih sg a b2 true)
              (g.move_candidates.filterMap g.clone_and_move) (⊤, none) b
        | true =>
            rw [if_pos rfl, if_pos rfl]
            exact abLoopMax_unpruned (fun a2 sg => (sg.minimax_alpha_beta d a2 b false false).1)
              (fun sg => Game.minimaxValue sg d false) b
              (fun a2 sg => ih sg a2 b false)
              (g.move_candidates.filterMap g.clone_and_move) (⊥, none) a

theorem minimax_km :
    ∀ (d : Nat) (g : Game) (a b : Score) (m : Bool), a < b →
      (((g.minimax_alpha_beta d a b m true).1 ≤ a →
          g.minimaxValue d m ≤ (g.minimax_alpha_beta d a b m true).1) ∧
        (b ≤ (g.minimax_alpha_beta d a b m true).1 →
          (g.minimax_alpha_beta d a b m true).1 ≤ g.minimaxValue d m) ∧
        (a < (g.minimax_alpha_beta d a b m true).1 →
          (g.minimax_alpha_beta d a b m true).1 < b →
          (g.minimax_alpha_beta d a b m true).1 = g.minimaxValue d m)) := by
  intro d
  induction d with
  | zero =>
      intro g a b m hab
      have h : (g.minimax_alpha_beta 0 a b m true).1 = g.minimaxValue 0 m := rfl
      exact ⟨fun _ => le_of_eq h.symm, fun _ => le_of_eq h, fun _ _ => h⟩
  | succ d ih =>
      intro g a b m hab
      have hunfold : Game.minimax_alpha_beta g (d + 1) a b m true
          = (if g.is_finished then (Score.ofInt g.evaluate_board, none)
             else if m then
               abLoopMax (fun a2 sg => (sg.minimax_alpha_beta d a2 b false true).1)
                 b true (g.move_candidates.filterMap g.clone_and_move) (⊥, none) a
             else
               abLoopMin (fun b2 sg => (sg.minimax_alpha_beta d a b2 true true).1)
                 a true (g.move_candidates.filterMap g.clone_and_move) (⊤, none) b) := rfl
      have hunfold2 : Game.minimaxValue g (d + 1) m
          = (if g.is_finished then Score.ofInt g.evaluate_board
             else if m then
               (g.move_candidates.filterMap g.clone_and_move).foldl (fun acc child =>
                 max acc
                   (Game.minimaxValue { child.2 with next_player := .Defender } d false)) ⊥
             else
               (g.move_candidates.filterMap g.clone_and_move).foldl (fun acc child =>
                 min acc
                   (Game.minimaxValue { child.2 with next_player := .Attacker } d true)) ⊤) :=
        rfl
      rw [hunfold, hunfold2]
      by_cases hfin : g.is_finished = true
      · rw [if_pos hfin, if_pos hfin]
        exact ⟨fun _ => le_refl _, fun _ => le_refl _, fun _ _ => rfl⟩
      · rw [if_neg hfin, if_neg hfin]
        cases m with
        | false =>
            rw [if_neg (Bool.false_ne_true), if_neg (Bool.false_ne_true)]
            exact abLoopMin_km (fun b2 sg => (sg.minimax_alpha_beta d a b2 true true).1)
              (fun sg => Game.minimaxValue sg d true) a
              (fun b2 sg hb2 => ih sg a b2 true hb2)
              (g.move_candidates.filterMap g.clone_and_move) (⊤, none) b hab le_top
        | true =>
            rw [if_pos rfl, if_pos rfl]
            exact abLoopMax_km (fun a2 sg => (sg.minimax_alpha_beta d a2 b false true).1)
              (fun sg => Game.minimaxValue sg d false) b
              (fun a2 sg ha2 => ih sg a2 b false ha2)
              (g.move_candidates.filterMap g.clone_and_move) (⊥, none) a hab bot_le

theorem abLoopMax_root (fp fu : Score → Game → Score) (w : Game → Score)
    (hfu : ∀ a sg, fu a sg = w sg)
    (hfp : ∀ a sg, a < ⊤ →
      ((fp a sg ≤ a → w sg ≤ fp a sg) ∧ ((⊤ : Score) ≤ fp a sg → fp a sg ≤ w sg) ∧
        (a < fp a sg → fp a sg < ⊤ → fp a sg = w sg))) :
    ∀ (l : List (CoordPair × Game)) (acc : Score × Option CoordPair) (alphaU : Score),
      abLoopMax fp ⊤ true l acc acc.1 = abLoopMax fu ⊤ false l acc alphaU := by
  intro l
  induction l with
  | nil =>
      intro acc alphaU
      rfl
  | cons hd rest ih =>
      intro acc alphaU
      have hstepP : abLoopMax fp ⊤ true (hd :: rest) acc acc.1
          = (if (⊤ : Score) ≤ max acc.1 (fp acc.1 { hd.2 with next_player := .Defender }) then
              (if acc.1 < fp acc.1 { hd.2 with next_player := .Defender }
                then (fp acc.1 { hd.2 with next_player := .Defender }, some hd.1) else acc)
             else abLoopMax fp ⊤ true rest
              (if acc.1 < fp acc.1 { hd.2 with next_player := .Defender }
                then (fp acc.1 { hd.2 with next_player := .Defender }, some hd.1) else acc)
              (max acc.1 (fp acc.1 { hd.2 with next_player := .Defender }))) := rfl
      have hstepU : abLoopMax fu ⊤ false (hd :: rest) acc alphaU
          = abLoopMax fu ⊤ false rest
              (if acc.1 < fu alphaU { hd.2 with next_player := .Defender }
                then (fu alphaU { hd.2 with next_player := .Defender }, some hd.1) else acc)
              alphaU := rfl
      rw [hstepP, hstepU, hfu alphaU { hd.2 with next_player := .Defender }]
      by_cases htop : acc.1 < ⊤
      · obtain ⟨kA, kB, kC⟩ := hfp acc.1 { hd.2 with next_player := .Defender } htop
        set E := fp acc.1 { hd.2 with next_player := .Defender } with hEdef
        set W := w { hd.2 with next_player := .Defender } with hWdef
        by_cases himp : acc.1 < E
        · by_cases hetop : E < ⊤
          · have hEW := kC himp hetop
            have hmaxE : max acc.1 E = E := max_eq_right himp.le
            rw [hmaxE, if_neg (not_le.mpr hetop), if_pos himp, if_pos (hEW ▸ himp)]
            rw [← hEW]
            exact ih (E, some hd.1) alphaU
          · have hEtop : E = ⊤ := top_unique (not_lt.mp hetop)
            have hWtop : W = ⊤ := top_unique (by rw [← hEtop]; exact kB hEtop.ge)
            rw [if_pos (by rw [hEtop]; exact le_max_right acc.1 ⊤), if_pos himp,
              if_pos (show acc.1 < W by rw [hWtop]; exact htop)]
            rw [abLoopMax_false_top fu rest (W, some hd.1) alphaU hWtop]
            rw [hEtop, hWtop]
        · have hEacc : E ≤ acc.1 := not_lt.mp himp
          have hWE : W ≤ E := kA hEacc
          have hWacc : ¬(acc.1 < W) := not_lt.mpr (hWE.trans hEacc)
          have hmaxE : max acc.1 E = acc.1 := max_eq_left hEacc
          rw [hmaxE, if_neg (not_le.mpr htop), if_neg himp, if_neg hWacc]
          exact ih acc alphaU
      · have htopacc : acc.1 = ⊤ := top_unique (not_lt.mp htop)
        rw [if_pos (show (⊤ : Score) ≤ max acc.1 (fp acc.1 { hd.2 with next_player := .Defender })
              by rw [htopacc]; exact le_max_left _ _),
          if_neg (show ¬(acc.1 < fp acc.1 { hd.2 with next_player := .Defender })
              by rw [htopacc]; exact not_top_lt),
          if_neg (show ¬(acc.1 < w { hd.2 with next_player := .Defender })
              by rw [htopacc]; exact not_top_lt)]
        exact (abLoopMax_false_top fu rest acc alphaU htopacc).symm

theorem abLoopMin_root (fp fu : Score → Game → Score) (w : Game → Score)
    (hfu : ∀ b sg, fu b sg = w sg)
    (hfp : ∀ b sg, (⊥ : Score) < b →
      ((fp b sg ≤ ⊥ → w sg ≤ fp b sg) ∧ (b ≤ fp b sg → fp b sg ≤ w sg) ∧
        ((⊥ : Score) < fp b sg → fp b sg < b → fp b sg = w sg))) :
    ∀ (l : List (CoordPair × Game)) (acc : Score × Option CoordPair) (betaU : Score),
      abLoopMin fp ⊥ true l acc acc.1 = abLoopMin fu ⊥ false l acc betaU := by
  intro l
  induction l with
  | nil =>
      intro acc betaU
      rfl
  | cons hd rest ih =>
      intro acc betaU
      have hstepP : abLoopMin fp ⊥ true (hd :: rest) acc acc.1
          = (if min acc.1 (fp acc.1 { hd.2 with next_player := .Attacker }) ≤ (⊥ : Score) then
              (if fp acc.1 { hd.2 with next_player := .Attacker } < acc.1
                then (fp acc.1 { hd.2 with next_player := .Attacker }, some hd.1) else acc)
             else abLoopMin fp ⊥ true rest
              (if fp acc.1 { hd.2 with next_player := .Attacker } < acc.1
                then (fp acc.1 { hd.2 with next_player := .Attacker }, some hd.1) else acc)
              (min acc.1 (fp acc.1 { hd.2 with next_player := .Attacker }))) := rfl
      have hstepU : abLoopMin fu ⊥ false (hd :: rest) acc betaU
          = abLoopMin fu ⊥ false rest
              (if fu betaU { hd.2 with next_player := .Attacker } < acc.1
                then (fu betaU { hd.2 with next_player := .Attacker }, some hd.1) else acc)
              betaU := rfl
      rw [hstepP, hstepU, hfu betaU { hd.2 with next_player := .Attacker }]
      by_cases hbot : (⊥ : Score) < acc.1
      · obtain ⟨kA, kB, kC⟩ := hfp acc.1 { hd.2 with next_player := .Attacker } hbot
        set E := fp acc.1 { hd.2 with next_player := .Attacker } with hEdef
        set W := w { hd.2 with next_player := .Attacker } with hWdef
        by_cases himp : E < acc.1
        · by_cases hebot : (⊥ : Score) < E
          · have hEW := kC hebot himp
            have hminE : min acc.1 E = E := min_eq_right himp.le
            rw [hminE, if_neg (not_le.mpr hebot), if_pos himp, if_pos (hEW ▸ himp)]
            rw [← hEW]
            exact ih (E, some hd.1) betaU
          · have hEbot : E = ⊥ := bot_unique (not_lt.mp hebot)
            have hWbot : W = ⊥ := bot_unique (by rw [← hEbot]; exact kA hEbot.le)
            rw [if_pos (by rw [hEbot]; exact min_le_right acc.1 ⊥), if_pos himp,
              if_pos (show W < acc.1 by rw [hWbot]; exact hbot)]
            rw [abLoopMin_false_bot fu rest (W, some hd.1) betaU hWbot]
            rw [hEbot, hWbot]
        · have hEacc : acc.1 ≤ E := not_lt.mp himp
          have hEW : E ≤ W := kB hEacc
          have hWacc : ¬(W < acc.1) := not_lt.mpr (hEacc.trans hEW)
          have hminE : min acc.1 E = acc.1 := min_eq_left hEacc
          rw [hminE, if_neg (not_le.mpr hbot), if_neg himp, if_neg hWacc]
          exact ih acc betaU
      · have hbotacc : acc.1 = ⊥ := bot_unique (not_lt.mp hbot)
        rw [if_pos (show min acc.1 (fp acc.1 { hd.2 with next_player := .Attacker }) ≤ (⊥ : Score)
              by rw [hbotacc]; exact min_le_left _ _),
          if_neg (show ¬(fp acc.1 { hd.2 with next_player := .Attacker } < acc.1)
              by rw [hbotacc]; exact not_lt_bot),
          if_neg (show ¬(w { hd.2 with next_player := .Attacker } < acc.1)
              by rw [hbotacc]; exact not_lt_bot)]
        exact (abLoopMin_false_bot fu rest acc betaU hbotacc).symm

theorem minimax_root_pair_eq :
    ∀ (d : Nat) (g : Game) (m : Bool),
      g.minimax_alpha_beta d ⊥ ⊤ m true = g.minimax_alpha_beta d ⊥ ⊤ m false := by
  intro d
  cases d with
  | zero =>
      intro g m
      rfl
  | succ d =>
      intro g m
      have hunfoldP : Game.minimax_alpha_beta g (d + 1) ⊥ ⊤ m true
          = (if g.is_finished then (Score.ofInt g.evaluate_board, none)
             else if m then
               abLoopMax (fun a2 sg => (sg.minimax_alpha_beta d a2 ⊤ false true).1)
                 ⊤ true (g.move_candidates.filterMap g.clone_and_move) (⊥, none) ⊥
             else
               abLoopMin (fun b2 sg => (sg.minimax_alpha_beta d ⊥ b2 true true).1)
                 ⊥ true (g.move_candidates.filterMap g.clone_and_move) (⊤, none) ⊤) := rfl
      have hunfoldU : Game.minimax_alpha_beta g (d + 1) ⊥ ⊤ m false
          = (if g.is_finished then (Score.ofInt g.evaluate_board, none)
             else if m then
               abLoopMax (fun a2 sg => (sg.minimax_alpha_beta d a2 ⊤ false false).1)
                 ⊤ false (g.move_candidates.filterMap g.clone_and_move) (⊥, none) ⊥
             else
               abLoopMin (fun b2 sg => (sg.minimax_alpha_beta d ⊥ b2 true false).1)
                 ⊥ false (g.move_candidates.filterMap g.clone_and_move) (⊤, none) ⊤) := rfl
      rw [hunfoldP, hunfoldU]
      by_cases hfin : g.is_finished = true
      · rw [if_pos hfin, if_pos hfin]
      · rw [if_neg hfin, if_neg hfin]
        cases m with
        | false =>
            rw [if_neg (Bool.false_ne_true), if_neg (Bool.false_ne_true)]
            exact abLoopMin_root (fun b2 sg => (sg.minimax_alpha_beta d ⊥ b2 true true).1)
              (fun b2 sg => (sg.minimax_alpha_beta d ⊥ b2 true false).1)
              (fun sg => Game.minimaxValue sg d true)
              (fun b2 sg => minimax_unpruned_eq d sg ⊥ b2 true)
              (fun b2 sg hb2 => minimax_km d sg ⊥ b2 true hb2)
              (g.move_candidates.filterMap g.clone_and_move) (⊤, none) ⊤
        | true =>
            rw [if_pos rfl, if_pos rfl]
            exact abLoopMax_root (fun a2 sg => (sg.minimax_alpha_beta d a2 ⊤ false true).1)
              (fun a2 sg => (sg.minimax_alpha_beta d a2 ⊤ false false).1)
              (fun sg => Game.minimaxValue sg d false)
              (fun a2 sg => minimax_unpruned_eq d sg a2 ⊤ false)
              (fun a2 sg ha2 => minimax_km d sg a2 ⊤ false ha2)
              (g.move_candidates.filterMap g.clone_and_move) (⊥, none) ⊥

/-- Claim C1: for every game state, every search depth `d ≥ 1` and both
player roles, `minimax_alpha_beta` called with the full window
(`alpha = -inf`, `beta = +inf`, time budget unexhausted) returns the same
heuristic value with pruning enabled (`alpha_beta = true`) as with pruning
disabled, and in fact also selects the same move, so the selected moves in
particular only differ among candidates of equal value.  (Proved via the
Knuth–Moore fail-soft bounds `minimax_km` for the pruned recursion against
the plain minimax value `Game.minimaxValue`, which equals the unpruned
run by `minimax_unpruned_eq`.) -/
theorem alpha_beta_pruning_equivalent {g : Game} {d : Nat} (hd : 1 ≤ d) (m : Bool) :
    (g.minimax_alpha_beta d ⊥ ⊤ m true).1 = (g.minimax_alpha_beta d ⊥ ⊤ m false).1 ∧
    (g.minimax_alpha_beta d ⊥ ⊤ m true).2 = (g.minimax_alpha_beta d ⊥ ⊤ m false).2 :=
  ⟨congrArg Prod.fst (minimax_root_pair_eq d g m),
   congrArg Prod.snd (minimax_root_pair_eq d g m)⟩

/-- Witness for `alpha_beta_pruning_equivalent`: at the initial board with
depth 1, the maximizing search with pruning returns the same value and move
as without pruning. -/
theorem alpha_beta_pruning_equivalent_witness :
    1 ≤ 1 ∧
      ((initialGame.minimax_alpha_beta 1 ⊥ ⊤ true true).1
          = (initialGame.minimax_alpha_beta 1 ⊥ ⊤ true false).1 ∧
        (initialGame.minimax_alpha_beta 1 ⊥ ⊤ true true).2
          = (initialGame.minimax_alpha_beta 1 ⊥ ⊤ true false).2) :=
  ⟨Nat.le_refl 1, alpha_beta_pruning_equivalent (Nat.le_refl 1) true⟩

theorem List.getD_mem_or {α : Type} (l : List α) (i : Nat) (d : α) :
    l.getD i d ∈ l ∨ l.getD i d = d := by
  by_cases h : i < l.length
  · left
    rw [List.getD_eq_getElem?_getD, List.getElem?_eq_getElem h]
    exact List.getElem_mem h
  · right
    rw [List.getD_eq_getElem?_getD, List.getElem?_eq_none (not_lt.mp h)]
    rfl

theorem HGame.addr_usesAddr {g : HGame} {c : Coord} {a : Addr}
    (h : g.addr c = some a) : g.usesAddr a := by
  unfold HGame.addr at h
  split at h
  · rcases List.getD_mem_or (g.board.getD c.row.toNat []) c.col.toNat none with hm | hm
    · rcases List.getD_mem_or g.board c.row.toNat [] with hr | hr
      · exact ⟨_, hr, h ▸ hm⟩
      · rw [hr] at hm
        cases hm
    · rw [hm] at h
      cases h
  · cases h

theorem HGame.usesAddr_set {g : HGame} {c : Coord} {v : Option Addr} {a : Addr}
    (h : (g.set c v).usesAddr a) : g.usesAddr a ∨ v = some a := by
  unfold HGame.set at h
  split at h
  · obtain ⟨row, hrow, hmem⟩ := h
    rcases List.mem_or_eq_of_mem_set hrow with hr | hr
    · exact Or.inl ⟨row, hr, hmem⟩
    · subst hr
      rcases List.mem_or_eq_of_mem_set hmem with hm | hm
      · rcases List.getD_mem_or g.board c.row.toNat [] with hr2 | hr2
        · exact Or.inl ⟨_, hr2, hm⟩
        · rw [hr2] at hm
          cases hm
      · exact Or.inr hm.symm
  · exact Or.inl h

theorem HGame.usesAddr_remove_dead {σ : Store} {g : HGame} {c : Coord} {a : Addr}
    (h : (HGame.remove_dead σ g c).usesAddr a) : g.usesAddr a := by
  have hset : (g.set c none).usesAddr a → g.usesAddr a := by
    intro h2
    rcases HGame.usesAddr_set h2 with h1 | h1
    · exact h1
    · cases h1
  unfold HGame.remove_dead at h
  split at h
  · split at h
    · split at h
      · split at h
        · exact hset h
        · exact hset h
      · exact hset h
    · exact h
  · exact h

theorem HGame.unit_mod_health_frame (σ : Store) {g : HGame} (c : Coord) (d : Int)
    {a : Addr} (hna : ¬ g.usesAddr a) :
    (HGame.unit_mod_health σ g c d)[a]? = σ[a]? := by
  unfold HGame.unit_mod_health
  cases ha : g.addr c with
  | none => rfl
  | some a2 =>
      show (match σ[a2]? with
        | some u => σ.set a2 (u.mod_health d)
        | none => σ)[a]? = σ[a]?
      cases hu : σ[a2]? with
      | none => rfl
      | some u =>
          have hne : a2 ≠ a := fun he => hna (he ▸ HGame.addr_usesAddr ha)
          exact List.getElem?_set_ne hne

theorem HGame.mod_health_frame (σ : Store) {g : HGame} (c : Coord) (d : Int)
    {a : Addr} (hna : ¬ g.usesAddr a) :
    (HGame.mod_health σ g c d).1[a]? = σ[a]? := by
  unfold HGame.mod_health
  split
  · rfl
  · exact HGame.unit_mod_health_frame σ c d hna

theorem HGame.mod_health_uses {σ : Store} {g : HGame} {c : Coord} {d : Int}
    {a : Addr} (h : (HGame.mod_health σ g c d).2.usesAddr a) : g.usesAddr a := by
  unfold HGame.mod_health at h
  split at h
  · exact h
  · exact HGame.usesAddr_remove_dead h

theorem storeWriteAt_frame {σ : Store} {oa : Option Addr} {u : Unit} {a : Addr}
    (h : ∀ a2, oa = some a2 → a2 ≠ a) :
    (storeWriteAt σ oa u)[a]? = σ[a]? := by
  cases hoa : oa with
  | none => rfl
  | some a2 => exact List.getElem?_set_ne (h a2 hoa)

theorem HGame.attack_frame (σ : Store) {g : HGame} (ac tc : Coord) {a : Addr}
    (hna : ¬ g.usesAddr a) :
    (HGame.attack σ g ac tc).2.2.1[a]? = σ[a]? ∧
      ((HGame.attack σ g ac tc).2.2.2.usesAddr a → g.usesAddr a) := by
  have hw : ∀ c2, (∀ a2, g.addr c2 = some a2 → a2 ≠ a) := by
    intro c2 a2 ha2 he
    exact hna (he ▸ HGame.addr_usesAddr ha2)
  unfold HGame.attack
  cases hga : HGame.get σ g ac with
  | none => exact ⟨rfl, id⟩
  | some au =>
      cases hgt : HGame.get σ g tc with
      | none => exact ⟨rfl, id⟩
      | some tu =>
          dsimp only
          split
          · exact ⟨rfl, id⟩
          · split
            · exact ⟨rfl, id⟩
            · constructor
              · rw [storeWriteAt_frame (hw ac), storeWriteAt_frame (hw tc)]
              · intro hu
                exact HGame.usesAddr_remove_dead (HGame.usesAddr_remove_dead hu)

theorem HGame.repair_frame (σ : Store) {g : HGame} (rc tc : Coord) {a : Addr}
    (hna : ¬ g.usesAddr a) :
    (HGame.repair σ g rc tc).2.2.1[a]? = σ[a]? ∧
      ((HGame.repair σ g rc tc).2.2.2.usesAddr a → g.usesAddr a) := by
  have hw : ∀ a2, g.addr tc = some a2 → a2 ≠ a := by
    intro a2 ha2 he
    exact hna (he ▸ HGame.addr_usesAddr ha2)
  unfold HGame.repair
  split
  · exact ⟨rfl, id⟩
  · cases hgr : HGame.get σ g rc with
    | none => exact ⟨rfl, id⟩
    | some ru =>
        cases hgt : HGame.get σ g tc with
        | none => exact ⟨rfl, id⟩
        | some tu =>
            dsimp only
            split
            · exact ⟨rfl, id⟩
            · split
              · exact ⟨rfl, id⟩
              · split
                · exact ⟨rfl, id⟩
                · exact ⟨storeWriteAt_frame hw, id⟩

theorem HGame.blast_fold_frame (L : List Coord) :
    ∀ (p : Store × HGame) {a : Addr} (σ0 : Store) (g0 : HGame),
      ¬ g0.usesAddr a → p.1[a]? = σ0[a]? → (p.2.usesAddr a → g0.usesAddr a) →
      ((L.foldl (fun p ac => if p.2.is_valid_coord ac
          then HGame.mod_health p.1 p.2 ac (-2) else p) p).1[a]? = σ0[a]? ∧
        ((L.foldl (fun p ac => if p.2.is_valid_coord ac
          then HGame.mod_health p.1 p.2 ac (-2) else p) p).2.usesAddr a →
          g0.usesAddr a)) := by
  induction L with
  | nil =>
      intro p a σ0 g0 _ h1 h2
      exact ⟨h1, h2⟩
  | cons x L2 ih =>
      intro p a σ0 g0 hna h1 h2
      rw [List.foldl_cons]
      by_cases hv : p.2.is_valid_coord x = true
      · rw [if_pos hv]
        have hnp : ¬ p.2.usesAddr a := fun hu => hna (h2 hu)
        refine ih _ σ0 g0 hna ?_ ?_
        · rw [HGame.mod_health_frame p.1 x (-2) hnp]
          exact h1
        · intro hu
          exact h2 (HGame.mod_health_uses hu)
      · rw [if_neg hv]
        exact ih _ σ0 g0 hna h1 h2

theorem HGame.self_destruct_frame {σ : Store} {g : HGame} {c : Coord} {a : Addr}
    (hna : ¬ g.usesAddr a) {ok : Bool} {msg : String} {σ2 : Store} {g2 : HGame}
    (h : HGame.self_destruct σ g c = some (ok, msg, σ2, g2)) :
    σ2[a]? = σ[a]? ∧ (g2.usesAddr a → g.usesAddr a) := by
  unfold HGame.self_destruct at h
  cases hget : HGame.get σ g c with
  | none => rw [hget] at h; cases h
  | some u =>
      rw [hget] at h
      dsimp only at h
      have husesg1 : (if u.type = .AI then g.is_ai_self_destruct u.player
          else g).usesAddr a → g.usesAddr a := by
        intro hu
        split at hu
        · unfold HGame.is_ai_self_destruct at hu
          split at hu <;> exact hu
        · exact hu
      split at h
      · cases h
        exact ⟨rfl, husesg1⟩
      · cases h
        have hblast := HGame.blast_fold_frame (c.iter_range 1)
          (σ, if u.type = .AI then g.is_ai_self_destruct u.player else g) σ g
          hna rfl husesg1
        refine ⟨hblast.1, ?_⟩
        intro hu
        rcases HGame.usesAddr_set hu with h1 | h1
        · exact hblast.2 h1
        · cases h1

theorem HGame.perform_move_frame {σ : Store} {g : HGame} {mv : CoordPair} {a : Addr}
    (hna : ¬ g.usesAddr a) {ok : Bool} {msg : String} {σ2 : Store} {g2 : HGame}
    (h : HGame.perform_move σ g mv = some (ok, msg, σ2, g2)) :
    σ2[a]? = σ[a]? ∧ (g2.usesAddr a → g.usesAddr a) := by
  unfold HGame.perform_move at h
  split at h
  · exact HGame.self_destruct_frame hna h
  · cases hgd : HGame.get σ g mv.dst with
    | none =>
        rw [hgd] at h
        dsimp only at h
        split at h
        · cases hmv : HGame.is_movement_valid σ g mv with
          | none => rw [hmv] at h; cases h
          | some sm =>
              rw [hmv] at h
              obtain ⟨success, mres⟩ := sm
              dsimp only at h
              split at h
              · cases h
                refine ⟨rfl, ?_⟩
                intro hu
                rcases HGame.usesAddr_set hu with h1 | h1
                · rcases HGame.usesAddr_set h1 with h2 | h2
                  · exact h2
                  · exact HGame.addr_usesAddr h2
                · cases h1
              · cases h
                exact ⟨rfl, id⟩
        · cases h
          exact ⟨rfl, id⟩
    | some du =>
        rw [hgd] at h
        dsimp only at h
        cases hgs : HGame.get σ g mv.src with
        | none => rw [hgs] at h; cases h
        | some su =>
            rw [hgs] at h
            dsimp only at h
            split at h
            · have hx : HGame.attack σ g mv.src mv.dst = (ok, msg, σ2, g2) := by
                injection h
              have hfr := HGame.attack_frame σ mv.src mv.dst hna
              rw [hx] at hfr
              exact hfr
            · have hx : HGame.repair σ g mv.src mv.dst = (ok, msg, σ2, g2) := by
                injection h
              have hfr := HGame.repair_frame σ mv.src mv.dst hna
              rw [hx] at hfr
              exact hfr

theorem cloneRow_store_ext (σfix : Store) :
    ∀ (row : List (Option Addr)) (σnew : Store),
      ∃ L, (cloneRow σfix row σnew).1 = σnew ++ L := by
  intro row
  induction row with
  | nil =>
      intro σnew
      exact ⟨[], (List.append_nil σnew).symm⟩
  | cons cell rest ih =>
      intro σnew
      cases cell with
      | none =>
          obtain ⟨L, hL⟩ := ih σnew
          exact ⟨L, hL⟩
      | some a =>
          cases hu : σfix[a]? with
          | some u =>
              obtain ⟨L, hL⟩ := ih (σnew ++ [u])
              refine ⟨u :: L, ?_⟩
              have hstep : (cloneRow σfix (some a :: rest) σnew).1
                  = (cloneRow σfix rest (σnew ++ [u])).1 := by
                simp only [cloneRow, hu]
              rw [hstep, hL, List.append_assoc]
              rfl
          | none =>
              obtain ⟨L, hL⟩ := ih σnew
              refine ⟨L, ?_⟩
              have hstep : (cloneRow σfix (some a :: rest) σnew).1
                  = (cloneRow σfix rest σnew).1 := by
                simp only [cloneRow, hu]
              rw [hstep, hL]

theorem cloneBoard_store_ext (σfix : Store) :
    ∀ (b : List (List (Option Addr))) (σnew : Store),
      ∃ L, (cloneBoard σfix b σnew).1 = σnew ++ L := by
  intro b
  induction b with
  | nil =>
      intro σnew
      exact ⟨[], (List.append_nil σnew).symm⟩
  | cons row rest ih =>
      intro σnew
      obtain ⟨L1, h1⟩ := cloneRow_store_ext σfix row σnew
      obtain ⟨L2, h2⟩ := ih (cloneRow σfix row σnew).1
      refine ⟨L1 ++ L2, ?_⟩
      show (cloneBoard σfix rest (cloneRow σfix row σnew).1).1 = σnew ++ (L1 ++ L2)
      rw [h2, h1, List.append_assoc]

theorem cloneRow_fresh (σfix : Store) :
    ∀ (row : List (Option Addr)) (σnew : Store) {a : Addr},
      some a ∈ (cloneRow σfix row σnew).2 → σnew.length ≤ a := by
  intro row
  induction row with
  | nil =>
      intro σnew a h
      cases h
  | cons cell rest ih =>
      intro σnew a h
      cases cell with
      | none =>
          rcases List.mem_cons.mp h with h1 | h1
          · cases h1
          · exact ih σnew h1
      | some a0 =>
          cases hu : σfix[a0]? with
          | some u =>
              have hstep : (cloneRow σfix (some a0 :: rest) σnew).2
                  = some σnew.length :: (cloneRow σfix rest (σnew ++ [u])).2 := by
                simp only [cloneRow, hu]
              rw [hstep] at h
              rcases List.mem_cons.mp h with h1 | h1
              · exact le_of_eq (Option.some.inj h1).symm
              · have hx := ih (σnew ++ [u]) h1
                have hlen : (σnew ++ [u]).length = σnew.length + 1 := by
                  rw [List.length_append]
                  rfl
                omega
          | none =>
              have hstep : (cloneRow σfix (some a0 :: rest) σnew).2
                  = none :: (cloneRow σfix rest σnew).2 := by
                simp only [cloneRow, hu]
              rw [hstep] at h
              rcases List.mem_cons.mp h with h1 | h1
              · cases h1
              · exact ih σnew h1

theorem cloneBoard_fresh (σfix : Store) :
    ∀ (b : List (List (Option Addr))) (σnew : Store) {row : List (Option Addr)} {a : Addr},
      row ∈ (cloneBoard σfix b σnew).2 → some a ∈ row → σnew.length ≤ a := by
  intro b
  induction b with
  | nil =>
      intro σnew row a h _
      cases h
  | cons r rest ih =>
      intro σnew row a h hmem
      have hstep : (cloneBoard σfix (r :: rest) σnew).2
          = (cloneRow σfix r σnew).2 :: (cloneBoard σfix rest (cloneRow σfix r σnew).1).2 :=
        rfl
      rw [hstep] at h
      rcases List.mem_cons.mp h with h1 | h1
      · subst h1
        exact cloneRow_fresh σfix r σnew hmem
      · have hx := ih (cloneRow σfix r σnew).1 h1 hmem
        obtain ⟨L, hL⟩ := cloneRow_store_ext σfix r σnew
        rw [hL, List.length_append] at hx
        omega

theorem HGame.clone_store_ext (σ : Store) (g : HGame) :
    ∃ L, (HGame.clone σ g).1 = σ ++ L :=
  cloneBoard_store_ext σ g.board σ

theorem HGame.clone_fresh (σ : Store) (g : HGame) {a : Addr}
    (h : (HGame.clone σ g).2.usesAddr a) : σ.length ≤ a := by
  obtain ⟨row, hrow, hmem⟩ := h
  exact cloneBoard_fresh σ g.board σ hrow hmem

/-- Claim C9: `clone_and_move` acts only on an independently deep-copied
board.  Over the heap-level embedding (`HGame`, with unit objects in a
`Store` and in-place `mod_health` as store writes): starting from a game
whose board addresses are allocated, a successful `clone_and_move` leaves
every observable cell of the original game — the whole `Unit` value, so
owner, kind and health — unchanged, and no board cell of the returned
simulated game aliases any board cell of the original (the address sets are
disjoint, because `clone` re-allocates every unit object fresh and
`perform_move` writes only through the clone's own addresses). -/
theorem clone_and_move_frame {σ : Store} {g : HGame}
    (hWF : HGame.WFaddr σ g) {mv mv' : CoordPair} {σ2 : Store} {g2 : HGame}
    (h : HGame.clone_and_move σ g mv = some (mv', σ2, g2)) :
    (∀ c, HGame.get σ2 g c = HGame.get σ g c) ∧
    (∀ c c2 a, g.addr c = some a → g2.addr c2 ≠ some a) := by
  unfold HGame.clone_and_move at h
  dsimp only at h
  cases hpm : HGame.perform_move (HGame.clone σ g).1 (HGame.clone σ g).2 mv with
  | none =>
      rw [hpm] at h
      cases h
  | some r =>
      obtain ⟨ok, msg, σ3, g3⟩ := r
      rw [hpm] at h
      cases ok with
      | false => cases h
      | true =>
          cases h
          obtain ⟨L, hL⟩ := HGame.clone_store_ext σ g
          constructor
          · intro c
            unfold HGame.get
            cases hac : g.addr c with
            | none => rfl
            | some a =>
                have halt : a < σ.length := hWF a (HGame.addr_usesAddr hac)
                have hna : ¬ (HGame.clone σ g).2.usesAddr a := fun hu =>
                  absurd (HGame.clone_fresh σ g hu) (not_le.mpr halt)
                have hfr := (HGame.perform_move_frame hna hpm).1
                show σ2[a]? = σ[a]?
                rw [hfr, hL, List.getElem?_append, if_pos halt]
          · intro c c2 a hac hg2
            have halt : a < σ.length := hWF a (HGame.addr_usesAddr hac)
            have hna : ¬ (HGame.clone σ g).2.usesAddr a := fun hu =>
              absurd (HGame.clone_fresh σ g hu) (not_le.mpr halt)
            have huse := (HGame.perform_move_frame hna hpm).2 (HGame.addr_usesAddr hg2)
            exact hna huse

/-- Witness for `clone_and_move_frame`: self-destructing the cloned Virus at
(4,4) of the one-unit heap game removes the clone's unit, while the original
game still reads its own unit object unchanged through the updated store. -/
theorem clone_and_move_frame_witness :
    HGame.WFaddr hTestStore hTestGame ∧
    ((HGame.clone_and_move hTestStore hTestGame ⟨⟨4, 4⟩, ⟨4, 4⟩⟩).map (fun r => r.2.1)).elim
      False (fun σ2 => HGame.get σ2 hTestGame ⟨4, 4⟩
        = HGame.get hTestStore hTestGame ⟨4, 4⟩) := by
  have hWF : HGame.WFaddr hTestStore hTestGame := by
    intro a hu
    obtain ⟨row, hrow, hmem⟩ := hu
    have hb : hTestGame.board
        = [List.replicate 5 none, List.replicate 5 none, List.replicate 5 none,
           List.replicate 5 none, [none, none, none, none, some 0]] := rfl
    rw [hb] at hrow
    simp only [List.mem_cons, List.not_mem_nil, or_false] at hrow
    rcases hrow with h1 | h1 | h1 | h1 | h1 <;> subst h1
    · cases List.eq_of_mem_replicate hmem
    · cases List.eq_of_mem_replicate hmem
    · cases List.eq_of_mem_replicate hmem
    · cases List.eq_of_mem_replicate hmem
    · simp only [List.mem_cons, List.not_mem_nil, or_false] at hmem
      rcases hmem with h2 | h2 | h2 | h2 | h2 <;> first
        | (cases Option.some.inj h2; decide)
        | cases h2
  refine ⟨hWF, ?_⟩
  cases hcm : HGame.clone_and_move hTestStore hTestGame ⟨⟨4, 4⟩, ⟨4, 4⟩⟩ with
  | none => exact absurd hcm (by decide)
  | some r =>
      obtain ⟨mvr, σ2, g2⟩ := r
      exact (clone_and_move_frame hWF hcm).1 ⟨4, 4⟩

end AIWargame
